import Mathlib

/-!
# Verification of the squeel SQL-to-MongoDB translator

A shallow embedding of the squeel translation engine (Go) in Lean 4, together
with theorems settling the frozen claims about its specification.

Conventions of the embedding:
* Go `bson` values are modelled by `Squeel.BVal`; both `bson.D` and `bson.M`
  collapse to ordered association lists, with `bson.M` construction going
  through `mInsert` (key overwrite) to mirror map semantics.
* Go byte slices are `List Nat` (each element `< 256` where it matters).
* A Go runtime panic (out-of-range index, failed type assertion, nil
  dereference) is modelled by `Option.none` in the function's result.
* Functions keep the names of the Go functions they embed.
-/

namespace Squeel

/-- `primitive.Binary` of the mongo driver: a BSON binary value. -/
structure Bin where
  subtype : Nat
  data : List Nat
  deriving DecidableEq, Repr

/-- A BSON value (the fragment of `interface{}` values the translator emits). -/
inductive BVal where
  /-- a Go `string` -/
  | str (s : String)
  /-- a Go `int` / `int64` -/
  | int (n : Int)
  /-- a Go `float64`, kept as its source text (never inspected numerically) -/
  | float (s : String)
  /-- the Go `nil` interface value -/
  | nullV
  /-- a Go `bool` -/
  | bool (b : Bool)
  /-- `primitive.Binary` -/
  | bin (b : Bin)
  /-- a `bson.D` or `bson.M` document (see `mInsert` for `bson.M` building) -/
  | doc (d : List (String × BVal))
  /-- a Go slice of values (`[]interface{}`, `bson.A`, `[]bson.M`) -/
  | arr (vs : List BVal)

/-- An ordered BSON document (`bson.D`), as a list of key/value entries. -/
abbrev Doc := List (String × BVal)

/-- Insertion into a `bson.M`-style document: overwrite the value at the first
occurrence of the key, otherwise append the entry. -/
def mInsert (d : Doc) (k : String) (v : BVal) : Doc :=
  match d with
  | [] => [(k, v)]
  | (k', v') :: tl => if k' = k then (k, v) :: tl else (k', v') :: mInsert tl k v

/-- `bson.D.Map()` of the mongo driver: fold the ordered document into a map
(later duplicate keys overwrite earlier ones). -/
def mapOfD (d : Doc) : Doc :=
  d.foldl (fun m e => mInsert m e.1 e.2) []

/-- The `Query` struct of `query.go` (the query plan accumulator).  The
`Context` and `Payload` fields play no role in translation and are omitted. -/
structure Query where
  comment : String
  operation : String
  collection : String
  filter : Doc
  /-- `Projection bson.D`: `none` models a nil slice, `some` a non-nil one
  (the distinction is observable: `parseSelect` tests `q.Projection == nil`). -/
  projection : Option Doc
  sort : Doc
  /-- `Limit *int64`: `none` models a nil pointer. -/
  limit : Option Int
  /-- `Offset *int64`: `none` models a nil pointer. -/
  offset : Option Int
  pipeline : List Doc

/-- `NewQuery` of `query.go`: the empty plan with its default comment and
pre-allocated (non-nil) empty sequences. -/
def NewQuery : Query :=
  { comment := "data request"
    operation := ""
    collection := ""
    filter := []
    projection := some []
    sort := []
    limit := none
    offset := none
    pipeline := [] }

/-! ## Go string and integer helpers -/

/-- `unicode.IsUpper` restricted to the ASCII letters that the collection
names of this code base use (the spec's name-classification rule speaks of
uppercase ASCII letters). -/
def goIsUpper (c : Char) : Bool :=
  65 ≤ c.toNat && c.toNat ≤ 90

/-- ASCII lowercasing, as performed by the sqlparser `Lowered()` accessor. -/
def goLowerChar (c : Char) : Char :=
  if 65 ≤ c.toNat && c.toNat ≤ 90 then Char.ofNat (c.toNat + 32) else c

/-- ASCII lowercasing of a string. -/
def goLower (s : String) : String :=
  ⟨s.data.map goLowerChar⟩

/-- A decimal digit test on characters. -/
def isDigitChar (c : Char) : Bool :=
  48 ≤ c.toNat && c.toNat ≤ 57

/-- Value of a decimal digit list, most significant first. -/
def digitsVal : List Char → Nat
  | [] => 0
  | c :: tl => (c.toNat - 48) * 10 ^ tl.length + digitsVal tl

/-- `strconv.ParseInt(s, 10, 64)` (also backing `strconv.Atoi` on 64-bit
platforms).  Returns the parsed value together with a success flag; on a
syntax error the value is `0`, on a range error it is the clamped bound
(mirroring Go, which returns these values alongside the error). -/
def goParseInt (s : String) : Int × Bool :=
  let (sign, digits) :=
    match s.data with
    | '+' :: tl => ((1 : Int), tl)
    | '-' :: tl => ((-1 : Int), tl)
    | l => ((1 : Int), l)
  if digits.isEmpty || !(digits.all isDigitChar) then (0, false)
  else
    let v : Int := sign * Int.ofNat (digitsVal digits)
    if v < -(2 ^ 63) then (-(2 ^ 63), false)
    else if (2 ^ 63) - 1 < v then ((2 ^ 63) - 1, false)
    else (v, true)

/-- `strconv.Atoi` with the error discarded (`from, _ := strconv.Atoi(...)`):
the value Go leaves in the variable. -/
def goAtoiLossy (s : String) : Int :=
  (goParseInt s).1

/-- A syntactic validity test for `strconv.ParseFloat` (used only to decide
which branch `parseValue` takes; no claim inspects float values). -/
def goParseFloatOk (s : String) : Bool :=
  let core :=
    match s.data with
    | '+' :: tl => tl
    | '-' :: tl => tl
    | l => l
  match core.splitOn '.' with
  | [intPart] => !intPart.isEmpty && intPart.all isDigitChar
  | [intPart, fracPart] =>
      !(intPart.isEmpty && fracPart.isEmpty) &&
        intPart.all isDigitChar && fracPart.all isDigitChar
  | _ => false

/-- `strings.Join([]string{qual, name}, ".")` followed by
`strings.TrimPrefix(·, ".")`, as used to build qualified field names. -/
def goJoinDotTrim (qual name : String) : String :=
  let joined := qual ++ "." ++ name
  match joined.data with
  | '.' :: tl => ⟨tl⟩
  | l => ⟨l⟩

/-! ## Hex decoding (`encoding/hex`) -/

/-- The value of one hex digit, or `none` for a non-hex character
(Go's `fromHexChar`). -/
def hexVal (c : Char) : Option Nat :=
  if 48 ≤ c.toNat && c.toNat ≤ 57 then some (c.toNat - 48)
  else if 97 ≤ c.toNat && c.toNat ≤ 102 then some (c.toNat - 87)
  else if 65 ≤ c.toNat && c.toNat ≤ 70 then some (c.toNat - 55)
  else none

/-- `hex.DecodeString`: pairs of hex digits to bytes; `none` on odd length or
a non-hex character (Go additionally returns the partial prefix, which the
code under verification discards). -/
def hexDecode : List Char → Option (List Nat)
  | [] => some []
  | [_] => none
  | c1 :: c2 :: rest => do
      let h1 ← hexVal c1
      let h2 ← hexVal c2
      let tl ← hexDecode rest
      some ((h1 * 16 + h2) :: tl)

theorem hexVal_lt {c : Char} {h : Nat} (hv : hexVal c = some h) : h < 16 := by
  unfold hexVal at hv
  split at hv
  · rename_i hc
    simp only [Bool.and_eq_true, decide_eq_true_eq] at hc
    simp only [Option.some.injEq] at hv
    omega
  · split at hv
    · rename_i hc
      simp only [Bool.and_eq_true, decide_eq_true_eq] at hc
      simp only [Option.some.injEq] at hv
      omega
    · split at hv
      · rename_i hc
        simp only [Bool.and_eq_true, decide_eq_true_eq] at hc
        simp only [Option.some.injEq] at hv
        omega
      · exact absurd hv (by simp)

theorem hexVal_toNat_bounds {c : Char} {h : Nat} (hv : hexVal c = some h) :
    (48 ≤ c.toNat ∧ c.toNat ≤ 57) ∨ (97 ≤ c.toNat ∧ c.toNat ≤ 102) ∨
      (65 ≤ c.toNat ∧ c.toNat ≤ 70) := by
  unfold hexVal at hv
  split at hv
  · rename_i hc
    simp only [Bool.and_eq_true, decide_eq_true_eq] at hc
    exact Or.inl hc
  · split at hv
    · rename_i hc
      simp only [Bool.and_eq_true, decide_eq_true_eq] at hc
      exact Or.inr (Or.inl hc)
    · split at hv
      · rename_i hc
        simp only [Bool.and_eq_true, decide_eq_true_eq] at hc
        exact Or.inr (Or.inr hc)
      · exact absurd hv (by simp)

theorem hexDecode_bytes_lt :
    ∀ {l : List Char} {bs : List Nat}, hexDecode l = some bs → ∀ b ∈ bs, b < 256 := by
  intro l
  induction l using hexDecode.induct with
  | case1 =>
      intro bs h b hb
      simp [hexDecode] at h
      subst h
      cases hb
  | case2 c =>
      intro bs h b hb
      simp [hexDecode] at h
  | case3 c1 c2 rest ih =>
      intro bs h b hb
      simp only [hexDecode, Option.bind_eq_bind] at h
      cases hv1 : hexVal c1 with
      | none => rw [hv1] at h; simp at h
      | some h1 =>
        cases hv2 : hexVal c2 with
        | none => rw [hv1, hv2] at h; simp at h
        | some h2 =>
          cases htl : hexDecode rest with
          | none => rw [hv1, hv2, htl] at h; simp at h
          | some tl =>
            rw [hv1, hv2, htl] at h
            simp only [Option.some_bind, Option.some.injEq] at h
            subst h
            rcases List.mem_cons.mp hb with hb1 | hb2
            · have b1 := hexVal_lt hv1
              have b2 := hexVal_lt hv2
              omega
            · exact ih htl b hb2

/-! ## Base64 (`encoding/base64`, `StdEncoding`) -/

/-- The standard base64 alphabet. -/
def b64Alphabet : List Char :=
  "ABCDEFGHIJKLMNOPQRSTUVWXYZabcdefghijklmnopqrstuvwxyz0123456789+/".data

/-- The alphabet character for a 6-bit group. -/
def encChar (n : Nat) : Char :=
  b64Alphabet.getD n 'A'

/-- Index of a character in a list (used to invert the alphabet). -/
def charIndex : List Char → Char → Option Nat
  | [], _ => none
  | a :: tl, c => if c = a then some 0 else (charIndex tl c).map (· + 1)

/-- The 6-bit group of an alphabet character, `none` outside the alphabet. -/
def decChar (c : Char) : Option Nat :=
  charIndex b64Alphabet c

/-- `base64.StdEncoding.Encode`: group bytes in threes, with `=` padding. -/
def b64encode : List Nat → List Char
  | [] => []
  | [b] => [encChar (b / 4), encChar (b % 4 * 16), '=', '=']
  | [b1, b2] =>
      [encChar (b1 / 4), encChar (b1 % 4 * 16 + b2 / 16), encChar (b2 % 16 * 4), '=']
  | b1 :: b2 :: b3 :: rest =>
      let n := b1 * 65536 + b2 * 256 + b3
      encChar (n / 262144 % 64) :: encChar (n / 4096 % 64) :: encChar (n / 64 % 64) ::
        encChar (n % 64) :: b64encode rest

/-- `base64.StdEncoding.DecodeString`: quadruples of alphabet characters to
bytes, accepting `=` padding only at the very end; `none` on any malformed
input (Go also returns the partial prefix then, which callers here discard). -/
def b64decode : List Char → Option (List Nat)
  | [] => some []
  | c1 :: c2 :: c3 :: c4 :: rest =>
      if c3 = '=' ∧ c4 = '=' ∧ rest = [] then do
        let s1 ← decChar c1
        let s2 ← decChar c2
        some [s1 * 4 + s2 / 16]
      else if c4 = '=' ∧ rest = [] then do
        let s1 ← decChar c1
        let s2 ← decChar c2
        let s3 ← decChar c3
        some [s1 * 4 + s2 / 16, s2 % 16 * 16 + s3 / 4]
      else do
        let s1 ← decChar c1
        let s2 ← decChar c2
        let s3 ← decChar c3
        let s4 ← decChar c4
        let tl ← b64decode rest
        some ((s1 * 4 + s2 / 16) :: (s2 % 16 * 16 + s3 / 4) :: (s3 % 4 * 64 + s4) :: tl)
  | _ => none

theorem decChar_encChar : ∀ n < 64, decChar (encChar n) = some n := by
  decide

theorem encChar_ne_pad : ∀ n < 64, encChar n ≠ '=' := by
  decide

theorem encChar_ne_space : ∀ n < 64, encChar n ≠ ' ' := by
  decide

/-- Decoding inverts encoding on byte lists. -/
theorem b64decode_b64encode :
    ∀ bs : List Nat, (∀ b ∈ bs, b < 256) → b64decode (b64encode bs) = some bs := by
  intro bs
  induction bs using b64encode.induct with
  | case1 =>
      intro _
      simp [b64encode, b64decode]
  | case2 b =>
      intro hlt
      have hb : b < 256 := hlt b (by simp)
      have h1 : b / 4 < 64 := by omega
      have h2 : b % 4 * 16 < 64 := by omega
      simp [b64encode, b64decode, decChar_encChar _ h1, decChar_encChar _ h2]
      omega
  | case3 b1 b2 =>
      intro hlt
      have hb1 : b1 < 256 := hlt b1 (by simp)
      have hb2 : b2 < 256 := hlt b2 (by simp)
      have h1 : b1 / 4 < 64 := by omega
      have h2 : b1 % 4 * 16 + b2 / 16 < 64 := by omega
      have h3 : b2 % 16 * 4 < 64 := by omega
      simp [b64encode, b64decode, decChar_encChar _ h1, decChar_encChar _ h2,
        decChar_encChar _ h3, encChar_ne_pad _ h3]
      omega
  | case4 b1 b2 b3 rest ih =>
      intro hlt
      have hb1 : b1 < 256 := hlt b1 (by simp)
      have hb2 : b2 < 256 := hlt b2 (by simp)
      have hb3 : b3 < 256 := hlt b3 (by simp)
      have hrest : ∀ b ∈ rest, b < 256 := fun b hb => hlt b (by simp [hb])
      have h1 : (b1 * 65536 + b2 * 256 + b3) / 262144 % 64 < 64 := Nat.mod_lt _ (by omega)
      have h2 : (b1 * 65536 + b2 * 256 + b3) / 4096 % 64 < 64 := Nat.mod_lt _ (by omega)
      have h3 : (b1 * 65536 + b2 * 256 + b3) / 64 % 64 < 64 := Nat.mod_lt _ (by omega)
      have h4 : (b1 * 65536 + b2 * 256 + b3) % 64 < 64 := Nat.mod_lt _ (by omega)
      simp [b64encode, b64decode, decChar_encChar _ h1, decChar_encChar _ h2,
        decChar_encChar _ h3, decChar_encChar _ h4, encChar_ne_pad _ h3,
        encChar_ne_pad _ h4, ih hrest]
      omega

/-- Encoded output never contains a space character. -/
theorem b64encode_no_space :
    ∀ bs : List Nat, (∀ b ∈ bs, b < 256) → ∀ c ∈ b64encode bs, c ≠ ' ' := by
  intro bs
  induction bs using b64encode.induct with
  | case1 =>
      intro _ c hc
      simp [b64encode] at hc
  | case2 b =>
      intro hlt c hc
      have hb : b < 256 := hlt b (by simp)
      simp only [b64encode, List.mem_cons, List.not_mem_nil, or_false] at hc
      rcases hc with h | h | h | h <;> subst h
      · exact encChar_ne_space _ (by omega)
      · exact encChar_ne_space _ (by omega)
      · decide
      · decide
  | case3 b1 b2 =>
      intro hlt c hc
      have hb1 : b1 < 256 := hlt b1 (by simp)
      have hb2 : b2 < 256 := hlt b2 (by simp)
      simp only [b64encode, List.mem_cons, List.not_mem_nil, or_false] at hc
      rcases hc with h | h | h | h <;> subst h
      · exact encChar_ne_space _ (by omega)
      · exact encChar_ne_space _ (by omega)
      · exact encChar_ne_space _ (by omega)
      · decide
  | case4 b1 b2 b3 rest ih =>
      intro hlt c hc
      have hrest : ∀ b ∈ rest, b < 256 := fun b hb => hlt b (by simp [hb])
      simp only [b64encode, List.mem_cons] at hc
      rcases hc with h | h | h | h | h
      · subst h; exact encChar_ne_space _ (Nat.mod_lt _ (by omega))
      · subst h; exact encChar_ne_space _ (Nat.mod_lt _ (by omega))
      · subst h; exact encChar_ne_space _ (Nat.mod_lt _ (by omega))
      · subst h; exact encChar_ne_space _ (Nat.mod_lt _ (by omega))
      · exact ih hrest c h

/-! ## The legacy UUID codec (`binval.go`) -/

/-- `strings.NewReplacer("{", "", "}", "", "-", "").Replace`: since every
pattern is a single character replaced by the empty string, this is removal
of those characters. -/
def goCleanUUID : List Char → List Char
  | [] => []
  | c :: tl =>
      if c = Char.ofNat 123 ∨ c = Char.ofNat 125 ∨ c = '-' then goCleanUUID tl
      else c :: goCleanUUID tl

/-- Go string slicing `s[i:j]`: `none` models the bounds panic. -/
def goSlice (l : List Char) (i j : Nat) : Option (List Char) :=
  if i ≤ j ∧ j ≤ l.length then some ((l.drop i).take (j - i)) else none

/-- `strings.ReplaceAll(value, " ", "+")`. -/
def goReplaceSpacePlus (l : List Char) : List Char :=
  l.map (fun c => if c = ' ' then '+' else c)

/-- `makeLegacyBinVal` of `binval.go`: base64-decode the payload (after the
space-to-plus fixup done by the caller) and wrap the bytes in a subtype-3
binary.  The `Bool` is the error flag; on a decode error Go returns the
partially decoded bytes, which no caller ever reads, so the data is empty
there. -/
def makeLegacyBinVal (chars : List Char) : Bin × Bool :=
  match b64decode chars with
  | some bs => (⟨3, bs⟩, false)
  | none => (⟨3, []⟩, true)

/-- `HexToBase64` of `binval.go`: hex-decode, then base64-encode; on a hex
error Go prints and returns an empty byte slice. -/
def HexToBase64 (l : List Char) : List Char :=
  match hexDecode l with
  | some bs => b64encode bs
  | none => []

/-- `CSUUID` of `binval.go` on the character list of its argument: strip
braces and hyphens, reorder the hex-digit slices
`[6:8]+[4:6]+[2:4]+[0:2]+[10:12]+[8:10]+[14:16]+[12:14]+[16:]`, then
hex-decode and round-trip through base64 into a legacy binary.  `none`
models the slice-bounds panic on inputs shorter than 16 characters after
cleaning. -/
def csuuidAux (l : List Char) : Option (Bin × Bool) :=
  let clean := goCleanUUID l
  do
    let s1 ← goSlice clean 6 8
    let s2 ← goSlice clean 4 6
    let s3 ← goSlice clean 2 4
    let s4 ← goSlice clean 0 2
    let s5 ← goSlice clean 10 12
    let s6 ← goSlice clean 8 10
    let s7 ← goSlice clean 14 16
    let s8 ← goSlice clean 12 14
    let s9 ← goSlice clean 16 clean.length
    let reordered := s1 ++ s2 ++ s3 ++ s4 ++ s5 ++ s6 ++ s7 ++ s8 ++ s9
    some (makeLegacyBinVal (goReplaceSpacePlus (HexToBase64 reordered)))

/-- `CSUUID` of `binval.go`. -/
def CSUUID (uuid : String) : Option (Bin × Bool) :=
  csuuidAux uuid.data

/-- A hex-digit test on characters (the regex character class `[a-fA-F0-9]`). -/
def isHexDigit (c : Char) : Bool :=
  (48 ≤ c.toNat && c.toNat ≤ 57) || (97 ≤ c.toNat && c.toNat ≤ 102) ||
    (65 ≤ c.toNat && c.toNat ≤ 70)

theorem hexVal_of_isHexDigit {c : Char} (h : isHexDigit c = true) :
    ∃ v, hexVal c = some v := by
  unfold isHexDigit at h
  simp only [Bool.or_eq_true, Bool.and_eq_true, decide_eq_true_eq] at h
  unfold hexVal
  split
  next => exact ⟨_, rfl⟩
  next h1 =>
    split
    next => exact ⟨_, rfl⟩
    next h2 =>
      split
      next => exact ⟨_, rfl⟩
      next h3 =>
        exfalso
        simp only [Bool.and_eq_true, decide_eq_true_eq] at h1 h2 h3
        omega

/-- The anchored pattern of `uuidRegex`
(`^[a-fA-F0-9]{8}-[a-fA-F0-9]{4}-[a-fA-F0-9]{4}-[a-fA-F0-9]{4}-[a-fA-F0-9]{12}$`)
on a character list. -/
def uuidCanonicalL : List Char → Bool
  | u0 :: u1 :: u2 :: u3 :: u4 :: u5 :: u6 :: u7 :: '-' :: u8 :: u9 :: u10 :: u11 :: '-' :: u12 :: u13 :: u14 :: u15 :: '-' :: u16 :: u17 :: u18 :: u19 :: '-' :: u20 :: u21 :: u22 :: u23 :: u24 :: u25 :: u26 :: u27 :: u28 :: u29 :: u30 :: u31 :: [] =>
      isHexDigit u0 && isHexDigit u1 && isHexDigit u2 && isHexDigit u3 && isHexDigit u4 && isHexDigit u5 && isHexDigit u6 && isHexDigit u7 && isHexDigit u8 && isHexDigit u9 && isHexDigit u10 && isHexDigit u11 && isHexDigit u12 && isHexDigit u13 && isHexDigit u14 && isHexDigit u15 && isHexDigit u16 && isHexDigit u17 && isHexDigit u18 && isHexDigit u19 && isHexDigit u20 && isHexDigit u21 && isHexDigit u22 && isHexDigit u23 && isHexDigit u24 && isHexDigit u25 && isHexDigit u26 && isHexDigit u27 && isHexDigit u28 && isHexDigit u29 && isHexDigit u30 && isHexDigit u31
  | _ => false

/-- `uuidRegex.MatchString`. -/
def uuidCanonical (s : String) : Bool :=
  uuidCanonicalL s.data

/-- The byte reordering described by the spec for the legacy UUID binary:
`[b3 b2 b1 b0][b5 b4][b7 b6][b8..b15]` (stated from the claim's words, to be
compared with what `CSUUID` computes). -/
def specReorder : List Nat → List Nat
  | x0 :: x1 :: x2 :: x3 :: x4 :: x5 :: x6 :: x7 :: rest =>
      x3 :: x2 :: x1 :: x0 :: x5 :: x4 :: x7 :: x6 :: rest
  | l => l

theorem hexVal_lbrace : hexVal (Char.ofNat 123) = none := by decide

theorem hexVal_rbrace : hexVal (Char.ofNat 125) = none := by decide

theorem hexVal_dash : hexVal '-' = none := by decide

theorem goCleanUUID_keep {c : Char} {v : Nat} (e : hexVal c = some v) (tl : List Char) :
    goCleanUUID (c :: tl) = c :: goCleanUUID tl := by
  show (if c = Char.ofNat 123 ∨ c = Char.ofNat 125 ∨ c = '-' then goCleanUUID tl
      else c :: goCleanUUID tl) = c :: goCleanUUID tl
  rw [if_neg]
  rintro (h | h | h) <;> subst h
  · rw [hexVal_lbrace] at e; exact Option.noConfusion e
  · rw [hexVal_rbrace] at e; exact Option.noConfusion e
  · rw [hexVal_dash] at e; exact Option.noConfusion e

theorem goCleanUUID_dash (tl : List Char) : goCleanUUID ('-' :: tl) = goCleanUUID tl := by
  show (if ('-' : Char) = Char.ofNat 123 ∨ ('-' : Char) = Char.ofNat 125 ∨ ('-' : Char) = '-'
      then goCleanUUID tl else '-' :: goCleanUUID tl) = goCleanUUID tl
  rw [if_pos (Or.inr (Or.inr rfl))]

theorem goReplaceSpacePlus_of_no_space {l : List Char} (h : ∀ c ∈ l, c ≠ ' ') :
    goReplaceSpacePlus l = l := by
  induction l with
  | nil => rfl
  | cons c tl ih =>
      have hc := h c (by simp)
      have htl : ∀ a ∈ tl, a ≠ ' ' := fun a ha => h a (by simp [ha])
      show (if c = ' ' then '+' else c) :: goReplaceSpacePlus tl = c :: tl
      rw [if_neg hc, ih htl]

/-- Core computation of `CSUUID` on a canonical UUID character list. -/
theorem csuuidAux_canonical (l : List Char) (h : uuidCanonicalL l = true) :
    ∃ pre bytes, hexDecode (goCleanUUID l) = some pre ∧
      csuuidAux l = some (⟨3, bytes⟩, false) ∧ bytes = specReorder pre ∧
      bytes.length = 16 := by
  unfold uuidCanonicalL at h
  split at h
  next u0 u1 u2 u3 u4 u5 u6 u7 u8 u9 u10 u11 u12 u13 u14 u15 u16 u17 u18 u19 u20 u21 u22 u23 u24 u25 u26 u27 u28 u29 u30 u31 =>
    simp only [Bool.and_eq_true] at h
    obtain ⟨⟨⟨⟨⟨⟨⟨⟨⟨⟨⟨⟨⟨⟨⟨⟨⟨⟨⟨⟨⟨⟨⟨⟨⟨⟨⟨⟨⟨⟨⟨h0, h1⟩, h2⟩, h3⟩, h4⟩, h5⟩, h6⟩, h7⟩, h8⟩, h9⟩, h10⟩, h11⟩, h12⟩, h13⟩, h14⟩, h15⟩, h16⟩, h17⟩, h18⟩, h19⟩, h20⟩, h21⟩, h22⟩, h23⟩, h24⟩, h25⟩, h26⟩, h27⟩, h28⟩, h29⟩, h30⟩, h31⟩ := h
    obtain ⟨v0, e0⟩ := hexVal_of_isHexDigit h0
    obtain ⟨v1, e1⟩ := hexVal_of_isHexDigit h1
    obtain ⟨v2, e2⟩ := hexVal_of_isHexDigit h2
    obtain ⟨v3, e3⟩ := hexVal_of_isHexDigit h3
    obtain ⟨v4, e4⟩ := hexVal_of_isHexDigit h4
    obtain ⟨v5, e5⟩ := hexVal_of_isHexDigit h5
    obtain ⟨v6, e6⟩ := hexVal_of_isHexDigit h6
    obtain ⟨v7, e7⟩ := hexVal_of_isHexDigit h7
    obtain ⟨v8, e8⟩ := hexVal_of_isHexDigit h8
    obtain ⟨v9, e9⟩ := hexVal_of_isHexDigit h9
    obtain ⟨v10, e10⟩ := hexVal_of_isHexDigit h10
    obtain ⟨v11, e11⟩ := hexVal_of_isHexDigit h11
    obtain ⟨v12, e12⟩ := hexVal_of_isHexDigit h12
    obtain ⟨v13, e13⟩ := hexVal_of_isHexDigit h13
    obtain ⟨v14, e14⟩ := hexVal_of_isHexDigit h14
    obtain ⟨v15, e15⟩ := hexVal_of_isHexDigit h15
    obtain ⟨v16, e16⟩ := hexVal_of_isHexDigit h16
    obtain ⟨v17, e17⟩ := hexVal_of_isHexDigit h17
    obtain ⟨v18, e18⟩ := hexVal_of_isHexDigit h18
    obtain ⟨v19, e19⟩ := hexVal_of_isHexDigit h19
    obtain ⟨v20, e20⟩ := hexVal_of_isHexDigit h20
    obtain ⟨v21, e21⟩ := hexVal_of_isHexDigit h21
    obtain ⟨v22, e22⟩ := hexVal_of_isHexDigit h22
    obtain ⟨v23, e23⟩ := hexVal_of_isHexDigit h23
    obtain ⟨v24, e24⟩ := hexVal_of_isHexDigit h24
    obtain ⟨v25, e25⟩ := hexVal_of_isHexDigit h25
    obtain ⟨v26, e26⟩ := hexVal_of_isHexDigit h26
    obtain ⟨v27, e27⟩ := hexVal_of_isHexDigit h27
    obtain ⟨v28, e28⟩ := hexVal_of_isHexDigit h28
    obtain ⟨v29, e29⟩ := hexVal_of_isHexDigit h29
    obtain ⟨v30, e30⟩ := hexVal_of_isHexDigit h30
    obtain ⟨v31, e31⟩ := hexVal_of_isHexDigit h31
    have hclean : goCleanUUID (u0 :: u1 :: u2 :: u3 :: u4 :: u5 :: u6 :: u7 :: '-' :: u8 :: u9 :: u10 :: u11 :: '-' :: u12 :: u13 :: u14 :: u15 :: '-' :: u16 :: u17 :: u18 :: u19 :: '-' :: u20 :: u21 :: u22 :: u23 :: u24 :: u25 :: u26 :: u27 :: u28 :: u29 :: u30 :: u31 :: []) = u0 :: u1 :: u2 :: u3 :: u4 :: u5 :: u6 :: u7 :: u8 :: u9 :: u10 :: u11 :: u12 :: u13 :: u14 :: u15 :: u16 :: u17 :: u18 :: u19 :: u20 :: u21 :: u22 :: u23 :: u24 :: u25 :: u26 :: u27 :: u28 :: u29 :: u30 :: u31 :: [] := by
      rw [goCleanUUID_keep e0, goCleanUUID_keep e1, goCleanUUID_keep e2, goCleanUUID_keep e3, goCleanUUID_keep e4, goCleanUUID_keep e5, goCleanUUID_keep e6, goCleanUUID_keep e7, goCleanUUID_dash, goCleanUUID_keep e8, goCleanUUID_keep e9, goCleanUUID_keep e10, goCleanUUID_keep e11, goCleanUUID_dash, goCleanUUID_keep e12, goCleanUUID_keep e13, goCleanUUID_keep e14, goCleanUUID_keep e15, goCleanUUID_dash, goCleanUUID_keep e16, goCleanUUID_keep e17, goCleanUUID_keep e18, goCleanUUID_keep e19, goCleanUUID_dash, goCleanUUID_keep e20, goCleanUUID_keep e21, goCleanUUID_keep e22, goCleanUUID_keep e23, goCleanUUID_keep e24, goCleanUUID_keep e25, goCleanUUID_keep e26, goCleanUUID_keep e27, goCleanUUID_keep e28, goCleanUUID_keep e29, goCleanUUID_keep e30, goCleanUUID_keep e31]
      rfl
    have hpre : hexDecode (u0 :: u1 :: u2 :: u3 :: u4 :: u5 :: u6 :: u7 :: u8 :: u9 :: u10 :: u11 :: u12 :: u13 :: u14 :: u15 :: u16 :: u17 :: u18 :: u19 :: u20 :: u21 :: u22 :: u23 :: u24 :: u25 :: u26 :: u27 :: u28 :: u29 :: u30 :: u31 :: []) = some [v0 * 16 + v1, v2 * 16 + v3, v4 * 16 + v5, v6 * 16 + v7, v8 * 16 + v9, v10 * 16 + v11, v12 * 16 + v13, v14 * 16 + v15, v16 * 16 + v17, v18 * 16 + v19, v20 * 16 + v21, v22 * 16 + v23, v24 * 16 + v25, v26 * 16 + v27, v28 * 16 + v29, v30 * 16 + v31] := by
      simp [hexDecode, e0, e1, e2, e3, e4, e5, e6, e7, e8, e9, e10, e11, e12, e13, e14, e15, e16, e17, e18, e19, e20, e21, e22, e23, e24, e25, e26, e27, e28, e29, e30, e31]
    have hreord : hexDecode (u6 :: u7 :: u4 :: u5 :: u2 :: u3 :: u0 :: u1 :: u10 :: u11 :: u8 :: u9 :: u14 :: u15 :: u12 :: u13 :: u16 :: u17 :: u18 :: u19 :: u20 :: u21 :: u22 :: u23 :: u24 :: u25 :: u26 :: u27 :: u28 :: u29 :: u30 :: u31 :: []) = some [v6 * 16 + v7, v4 * 16 + v5, v2 * 16 + v3, v0 * 16 + v1, v10 * 16 + v11, v8 * 16 + v9, v14 * 16 + v15, v12 * 16 + v13, v16 * 16 + v17, v18 * 16 + v19, v20 * 16 + v21, v22 * 16 + v23, v24 * 16 + v25, v26 * 16 + v27, v28 * 16 + v29, v30 * 16 + v31] := by
      simp [hexDecode, e0, e1, e2, e3, e4, e5, e6, e7, e8, e9, e10, e11, e12, e13, e14, e15, e16, e17, e18, e19, e20, e21, e22, e23, e24, e25, e26, e27, e28, e29, e30, e31]
    have hlt : ∀ b ∈ [v6 * 16 + v7, v4 * 16 + v5, v2 * 16 + v3, v0 * 16 + v1, v10 * 16 + v11, v8 * 16 + v9, v14 * 16 + v15, v12 * 16 + v13, v16 * 16 + v17, v18 * 16 + v19, v20 * 16 + v21, v22 * 16 + v23, v24 * 16 + v25, v26 * 16 + v27, v28 * 16 + v29, v30 * 16 + v31], b < 256 := hexDecode_bytes_lt hreord
    rw [hclean]
    refine ⟨[v0 * 16 + v1, v2 * 16 + v3, v4 * 16 + v5, v6 * 16 + v7, v8 * 16 + v9, v10 * 16 + v11, v12 * 16 + v13, v14 * 16 + v15, v16 * 16 + v17, v18 * 16 + v19, v20 * 16 + v21, v22 * 16 + v23, v24 * 16 + v25, v26 * 16 + v27, v28 * 16 + v29, v30 * 16 + v31], [v6 * 16 + v7, v4 * 16 + v5, v2 * 16 + v3, v0 * 16 + v1, v10 * 16 + v11, v8 * 16 + v9, v14 * 16 + v15, v12 * 16 + v13, v16 * 16 + v17, v18 * 16 + v19, v20 * 16 + v21, v22 * 16 + v23, v24 * 16 + v25, v26 * 16 + v27, v28 * 16 + v29, v30 * 16 + v31], hpre, ?_, rfl, rfl⟩
    unfold csuuidAux
    rw [hclean]
    show some (makeLegacyBinVal (goReplaceSpacePlus (HexToBase64 (u6 :: u7 :: u4 :: u5 :: u2 :: u3 :: u0 :: u1 :: u10 :: u11 :: u8 :: u9 :: u14 :: u15 :: u12 :: u13 :: u16 :: u17 :: u18 :: u19 :: u20 :: u21 :: u22 :: u23 :: u24 :: u25 :: u26 :: u27 :: u28 :: u29 :: u30 :: u31 :: [])))) =
      some (⟨3, [v6 * 16 + v7, v4 * 16 + v5, v2 * 16 + v3, v0 * 16 + v1, v10 * 16 + v11, v8 * 16 + v9, v14 * 16 + v15, v12 * 16 + v13, v16 * 16 + v17, v18 * 16 + v19, v20 * 16 + v21, v22 * 16 + v23, v24 * 16 + v25, v26 * 16 + v27, v28 * 16 + v29, v30 * 16 + v31]⟩, false)
    unfold HexToBase64
    rw [hreord]
    rw [goReplaceSpacePlus_of_no_space (b64encode_no_space _ hlt)]
    unfold makeLegacyBinVal
    rw [b64decode_b64encode _ hlt]
  next =>
    exact absurd h (by decide)

/-- **C5** — For every canonical 36-character UUID string, `CSUUID` returns a
`Binary` value with subtype 3 whose 16 data bytes equal the hex-decoding of
the input's 32 hex digits after removing braces and hyphens and reordering
the byte pairs as `[b3 b2 b1 b0][b5 b4][b7 b6][b8..b15]`, and returns no
error (the error flag is `false`, and no slice panic occurs). -/
theorem C5_csuuid_legacy_binary (s : String) (h : uuidCanonical s = true) :
    ∃ pre bytes, hexDecode (goCleanUUID s.data) = some pre ∧
      CSUUID s = some (⟨3, bytes⟩, false) ∧ bytes = specReorder pre ∧
      bytes.length = 16 :=
  csuuidAux_canonical s.data h

/-- Witness for C5 at the UUID used throughout the repository's test suite. -/
theorem C5_csuuid_legacy_binary_witness :
    uuidCanonical "695FF995-5DC4-4FBE-B80C-2621360D578F" = true ∧
      ∃ pre bytes,
        hexDecode (goCleanUUID ("695FF995-5DC4-4FBE-B80C-2621360D578F").data) = some pre ∧
        CSUUID "695FF995-5DC4-4FBE-B80C-2621360D578F" = some (⟨3, bytes⟩, false) ∧
        bytes = specReorder pre ∧ bytes.length = 16 :=
  ⟨by decide, C5_csuuid_legacy_binary _ (by decide)⟩

/-! ## WHERE-clause value handling (`where.go`) -/

/-- `isIDField` of `where.go`.  `none` models the index panic
(`rune(collection[0])`) when the field is `Accounts`, the first two
disjuncts are false and the collection name is empty; Go's short-circuit
evaluation of `||`/`&&` is preserved. -/
def isIDField (field collection : String) : Option Bool :=
  if field = "_id" then some true
  else if field.endsWith "Id" then some true
  else if field = "Accounts" then
    match collection.data with
    | [] => none
    | c :: _ => some (goIsUpper c)
  else some false

/-- `parseID` of `where.go`.  The outer `Option` models the
`rune(collection[0])` panic on an empty collection name; the inner `Option`
is the error result (`none` = a non-nil error was returned, in which case
no caller reads the accompanying value). -/
def parseID (value collection : String) : Option (Option BVal) :=
  if uuidCanonical value then
    match collection.data with
    | [] => none
    | c :: _ =>
      if goIsUpper c then
        match CSUUID value with
        | none => none
        | some (binval, err) => some (if err then none else some (.bin binval))
      else some (some (.str value))
  else some (some (.str value))

/-- The operator switch of `applyFilter` (`where.go`), applied after the
ID-field value replacement.  `none` models the `value.(string)` type
assertion panic in the `like` branch; in the `in` branch a failed
`value.([]interface{})` assertion leaves the zero `bson.E` (empty key, nil
value), which is appended regardless. -/
def applyFilterOp (q : Query) (field operator : String) (value : BVal) : Option Query :=
  match operator with
  | "=" => some {q with filter := q.filter ++ [(field, value)]}
  | "!=" => some {q with filter := q.filter ++ [(field, .doc [("$ne", value)])]}
  | ">" => some {q with filter := q.filter ++ [(field, .doc [("$gt", value)])]}
  | ">=" => some {q with filter := q.filter ++ [(field, .doc [("$gte", value)])]}
  | "<" => some {q with filter := q.filter ++ [(field, .doc [("$lt", value)])]}
  | "<=" => some {q with filter := q.filter ++ [(field, .doc [("$lte", value)])]}
  | "like" =>
      match value with
      | .str s =>
          let regex := (s.replace "%" ".*").replace "_" "."
          some {q with filter :=
            q.filter ++ [(field, .doc [("$regex", .str regex), ("$options", .str "i")])]}
      | _ => none
  | "in" =>
      match value with
      | .arr vs => some {q with filter := q.filter ++ [(field, .doc [("$in", .arr vs)])]}
      | _ => some {q with filter := q.filter ++ [("", .nullV)]}
  | _ => some q

/-- `applyFilter` of `where.go`: replace the compared value through `parseID`
when the field is an ID field, then dispatch on the operator.  `none` models
the panics of `isIDField`/`parseID`/`value.(string)`; a non-nil `parseID`
error returns the query unchanged. -/
def applyFilter (q : Query) (field operator : String) (value : BVal) : Option Query :=
  match isIDField field q.collection with
  | none => none
  | some true =>
      match value with
      | .str s =>
          match parseID s q.collection with
          | none => none
          | some none => some q
          | some (some v) => applyFilterOp q field operator v
      | _ => none
  | some false => applyFilterOp q field operator value

/-- **C1** — For every WHERE predicate whose field is an ID field (equals
`_id`, ends in `Id`, or equals `Accounts` in a collection whose first
character is uppercase) and whose compared literal matches the canonical
UUID pattern, the value placed in the plan's filter is a `Binary` of
subtype 3 with exactly 16 bytes of data when the collection name's first
character is uppercase, and the original unmodified string otherwise.  The
placement is stated for `=` (document form, value placed directly) and for
the wrapping comparison operators. -/
theorem C1_id_uuid_binary_or_string (q : Query) (field s : String)
    (c : Char) (cs : List Char)
    (hid : isIDField field q.collection = some true)
    (huuid : uuidCanonical s = true)
    (hcol : q.collection.data = c :: cs) :
    ∃ v, parseID s q.collection = some (some v) ∧
      (if goIsUpper c then ∃ data, v = .bin ⟨3, data⟩ ∧ data.length = 16
       else v = .str s) ∧
      applyFilter q field "=" (.str s) =
        some {q with filter := q.filter ++ [(field, v)]} ∧
      ∀ op mop, (op, mop) ∈ [("!=", "$ne"), (">", "$gt"), (">=", "$gte"),
          ("<", "$lt"), ("<=", "$lte")] →
        applyFilter q field op (.str s) =
          some {q with filter := q.filter ++ [(field, .doc [(mop, v)])]} := by
  have hparse : ∃ v, parseID s q.collection = some (some v) ∧
      (if goIsUpper c then ∃ data, v = .bin ⟨3, data⟩ ∧ data.length = 16
       else v = .str s) := by
    cases hup : goIsUpper c with
    | true =>
        obtain ⟨pre, bytes, -, hcs, -, hlen⟩ := C5_csuuid_legacy_binary s huuid
        refine ⟨.bin ⟨3, bytes⟩, ?_, ?_⟩
        · simp [parseID, huuid, hcol, hup, hcs]
        · simp only [hup, if_true]
          exact ⟨bytes, rfl, hlen⟩
    | false =>
        refine ⟨.str s, ?_, ?_⟩
        · simp [parseID, huuid, hcol, hup]
        · simp [hup]
  obtain ⟨v, hv, hshape⟩ := hparse
  refine ⟨v, hv, hshape, ?_, ?_⟩
  · simp only [applyFilter, hid, hv]
    rfl
  · intro op mop hmem
    simp only [applyFilter, hid, hv]
    simp only [List.mem_cons, List.not_mem_nil, or_false, Prod.mk.injEq] at hmem
    rcases hmem with ⟨h1, h2⟩ | ⟨h1, h2⟩ | ⟨h1, h2⟩ | ⟨h1, h2⟩ | ⟨h1, h2⟩ <;>
      subst h1 <;> subst h2 <;> rfl

/-- Witness for C1: `_id = <uuid>` against collection `User` (binary case). -/
theorem C1_id_uuid_binary_or_string_witness :
    ∃ v, parseID "695FF995-5DC4-4FBE-B80C-2621360D578F"
        ({NewQuery with collection := "User"} : Query).collection = some (some v) ∧
      (if goIsUpper 'U' then ∃ data, v = .bin ⟨3, data⟩ ∧ data.length = 16
       else v = .str "695FF995-5DC4-4FBE-B80C-2621360D578F") ∧
      applyFilter {NewQuery with collection := "User"} "_id" "="
          (.str "695FF995-5DC4-4FBE-B80C-2621360D578F") =
        some {({NewQuery with collection := "User"} : Query) with
          filter := ({NewQuery with collection := "User"} : Query).filter ++ [("_id", v)]} ∧
      ∀ op mop, (op, mop) ∈ [("!=", "$ne"), (">", "$gt"), (">=", "$gte"),
          ("<", "$lt"), ("<=", "$lte")] →
        applyFilter {NewQuery with collection := "User"} "_id" op
            (.str "695FF995-5DC4-4FBE-B80C-2621360D578F") =
          some {({NewQuery with collection := "User"} : Query) with
            filter := ({NewQuery with collection := "User"} : Query).filter ++
              [("_id", .doc [(mop, v)])]} :=
  C1_id_uuid_binary_or_string {NewQuery with collection := "User"} "_id"
    "695FF995-5DC4-4FBE-B80C-2621360D578F" 'U' "ser".data
    (by decide) (by decide) (by decide)

/-! ## The SQL AST

The node kinds of the external sqlparser library that the translator
consumes.  Lists are inlined as their own constructors so that the whole
family is one mutual inductive (which keeps the walker structurally
recursive).  `OptExpr` models a possibly-nil expression pointer. -/

/-- The `Type` field of `sqlparser.SQLVal`. -/
inductive ValTy where
  | strVal
  | intVal
  | floatVal
  | hexNum
  | hexValTy
  | valArg
  | bitVal
  deriving DecidableEq, Repr

mutual
inductive SqlExpr where
  | colName (qualifier name : String)
  | sqlVal (ty : ValTy) (v : String)
  | cmp (op : String) (l r : SqlExpr)
  | andE (l r : SqlExpr)
  | orE (l r : SqlExpr)
  | parenE (e : SqlExpr)
  | rangeCond (l lo hi : SqlExpr)
  | tuple (vs : SqlExprs)
  | funcE (name : String) (distinct : Bool) (args : SelItems)
  | subq (s : SelectStmt)

inductive SqlExprs where
  | nil
  | cons (e : SqlExpr) (tl : SqlExprs)

inductive SelItem where
  | star (qualifier : String)
  | aliased (e : SqlExpr) (al : String)

inductive SelItems where
  | nil
  | cons (i : SelItem) (tl : SelItems)

inductive OptExpr where
  | none
  | some (e : SqlExpr)

inductive TableE where
  | aliasedT (table al : String)
  | joinT (l r : TableE) (onCond : OptExpr) (joinType : String)

inductive TableEs where
  | nil
  | cons (t : TableE) (tl : TableEs)

inductive OrderItem where
  | mk (e : SqlExpr) (dir : String)

inductive OrderItems where
  | nil
  | cons (o : OrderItem) (tl : OrderItems)

inductive GroupExprs where
  | nil
  | cons (e : SqlExpr) (tl : GroupExprs)

inductive LimitN where
  | mk (offset : OptExpr) (rowcount : SqlExpr)

inductive OptLimit where
  | none
  | some (l : LimitN)

inductive SelectStmt where
  | mk (distinct : String) (items : SelItems) (frm : TableEs)
      (whereE : OptExpr) (groupBy : GroupExprs) (having : OptExpr)
      (orderBy : OrderItems) (limit : OptLimit)
end

/-- Number of select items. -/
def lengthSelItems : SelItems → Nat
  | .nil => 0
  | .cons _ tl => lengthSelItems tl + 1

/-- Number of FROM clauses. -/
def lengthTableEs : TableEs → Nat
  | .nil => 0
  | .cons _ tl => lengthTableEs tl + 1

/-- The fragment of the sqlparser pretty-printer (`sqlparser.String`) that the
translator observes: it only ever compares the result with `"*"` and
`"q.*"`.  Composite expressions always print with spaces or parentheses in
sqlparser, so a fixed representative with both preserves those comparisons. -/
def sqlStringExpr : SqlExpr → String
  | .colName "" n => n
  | .colName q n => q ++ "." ++ n
  | .sqlVal .strVal v => "'" ++ v ++ "'"
  | .sqlVal _ v => v
  | _ => "( )"

/-- `sqlparser.String` on a select expression (star expressions print as
`*` or `qualifier.*`). -/
def sqlStringSelItem : SelItem → String
  | .star "" => "*"
  | .star q => q ++ ".*"
  | .aliased e "" => sqlStringExpr e
  | .aliased e al => sqlStringExpr e ++ " as " ++ al

/-! ## Conversion helpers (`coversion.go`, total variant) -/

/-- `aliasedTableName`: the table name of an aliased table expression, or of
the left side of a join; `""` otherwise. -/
def aliasedTableName : TableE → String
  | .aliasedT t _ => t
  | .joinT l _ _ _ =>
      match l with
      | .aliasedT t _ => t
      | _ => ""

/-- `on`: the comparison expression of a JOIN's ON clause; `none` models the
`node.Condition.On.(*sqlparser.ComparisonExpr)` type-assertion panic. -/
def joinOn : OptExpr → Option (String × SqlExpr × SqlExpr)
  | .some (.cmp op l r) => some (op, l, r)
  | _ => none

/-- `colName` (the type-switched variant): a column's compliant name, `""`
for anything else. -/
def colNameOf : SqlExpr → String
  | .colName _ name => name
  | _ => ""

/-! ## FROM-clause handling (`table.go`) -/

/-- `handleJoinExpr`: force the aggregate operation.  Its
`setCollectionFromAlias` calls are no-ops because their
`alias.Expr.(*sqlparser.TableName)` pointer type assertion never succeeds on
the value-typed `TableName` the parser stores. -/
def handleJoinExpr (q : Query) : Query :=
  {q with operation := "aggregate"}

/-- `handleAliasedTable`: set the collection when the table name is
non-empty. -/
def handleAliasedTable (q : Query) (table : String) : Query :=
  if table ≠ "" then {q with collection := table} else q

/-- `setupQueryFromClause` with `handleFromExpr` inlined: joins stop the
scan after forcing aggregate; aliased tables set the collection. -/
def setupQueryFromClause (q : Query) : TableEs → Query
  | .nil => q
  | .cons t tl =>
      match t with
      | .joinT _ _ _ _ => handleJoinExpr q
      | .aliasedT table _ => setupQueryFromClause (handleAliasedTable q table) tl

/-! ## GROUP BY and HAVING (`group.go`) -/

/-- The loop of `buildGroupStage`: accumulate the `_id` sub-map and the
`$first` carriers over the group-key columns (both are `bson.M`, hence
`mInsert`). -/
def buildGroupStageGo (g : GroupExprs) (idDoc rest : Doc) : Doc × Doc :=
  match g with
  | .nil => (idDoc, rest)
  | .cons e tl =>
      match e with
      | .colName _ f =>
          buildGroupStageGo tl (mInsert idDoc f (.str ("$" ++ f)))
            (mInsert rest f (.doc [("$first", .str ("$" ++ f))]))
      | _ => buildGroupStageGo tl idDoc rest

/-- `buildGroupStage` of `group.go`. -/
def buildGroupStage (g : GroupExprs) : Doc :=
  let parts := buildGroupStageGo g [] []
  ("_id", .doc parts.1) :: parts.2

/-- `isValidOperator` of `group.go`. -/
def isValidOperator (op : String) : Bool :=
  op = ">" || op = ">=" || op = "<" || op = "<=" || op = "=" || op = "!="

/-- `mongoOperator` of `group.go`. -/
def mongoOperator (sqlOp : String) : String :=
  if sqlOp = ">" then "$gt"
  else if sqlOp = ">=" then "$gte"
  else if sqlOp = "<" then "$lt"
  else if sqlOp = "<=" then "$lte"
  else if sqlOp = "=" then "$eq"
  else if sqlOp = "!=" then "$ne"
  else "$eq"

/-- `parseValue` of `group.go`. -/
def parseValue (ty : ValTy) (v : String) : BVal :=
  match ty with
  | .intVal => if (goParseInt v).2 then .int (goParseInt v).1 else .nullV
  | .floatVal => if goParseFloatOk v then .float v else .nullV
  | .strVal => .str v
  | _ => .nullV

/-- `getFuncField` of `group.go`. -/
def getFuncField (name : String) (args : SelItems) : String :=
  match args with
  | .nil => goLower name
  | .cons a _ =>
      match a with
      | .aliased e al =>
          if al ≠ "" then al
          else
            match e with
            | .colName _ cn => goLower name ++ "_" ++ cn
            | _ => goLower name
      | _ => goLower name

/-- `getComparisonField` of `group.go`. -/
def getComparisonField : SqlExpr → String
  | .colName _ cn => cn
  | .funcE n _ args => getFuncField n args
  | _ => ""

/-- `parseHavingComparison` of `group.go` (`none` is the Go nil map). -/
def parseHavingComparison (op : String) (l r : SqlExpr) : Option Doc :=
  if !isValidOperator op then none
  else
    match r with
    | .sqlVal ty v =>
        let field := getComparisonField l
        if field = "" then none
        else some [(field, .doc [(mongoOperator op, parseValue ty v)])]
    | _ => none

/-- `parseHavingExpr` of `group.go`. -/
def parseHavingExpr : SqlExpr → Option Doc
  | .cmp op l r => parseHavingComparison op l r
  | _ => none

/-- `addHavingClause` of `group.go`. -/
def addHavingClause (q : Query) (having : OptExpr) : Query :=
  match having with
  | .none => q
  | .some e =>
      match parseHavingExpr e with
      | none => q
      | some m => {q with pipeline := q.pipeline ++ [[("$match", .doc m)]]}

/-- `parseGroupBy` of `group.go`. -/
def parseGroupBy (q : Query) (g : GroupExprs) (having : OptExpr) : Query :=
  match g with
  | .nil => q
  | _ =>
      addHavingClause
        {q with
          operation := "aggregate"
          pipeline := q.pipeline ++ [[("$group", .doc (buildGroupStage g))]]} having

/-! ## ORDER BY (`order.go`) -/

/-- `buildSimpleSort` of `order.go` (a `bson.D`, hence ordered append). -/
def buildSimpleSort : OrderItems → Doc
  | .nil => []
  | .cons o tl =>
      match o with
      | .mk e dir =>
          match e with
          | .colName _ cn =>
              (cn, .int (if dir = "desc" then -1 else 1)) :: buildSimpleSort tl
          | _ => buildSimpleSort tl

/-- The loop of `buildSortStage` (a `bson.M`, hence `mInsert`). -/
def buildSortStageGo (o : OrderItems) (acc : Doc) : Doc :=
  match o with
  | .nil => acc
  | .cons it tl =>
      match it with
      | .mk e dir =>
          match e with
          | .colName _ cn =>
              buildSortStageGo tl (mInsert acc cn (.int (if dir = "desc" then -1 else 1)))
          | _ => buildSortStageGo tl acc

/-- `buildSortStage` of `order.go`. -/
def buildSortStage (o : OrderItems) : Doc :=
  buildSortStageGo o []

/-- `buildAggregatePipelineSort` of `order.go`. -/
def buildAggregatePipelineSort (q : Query) (o : OrderItems) : Query :=
  let sortStage := buildSortStage o
  if sortStage.length > 0 then
    {q with operation := "aggregate", pipeline := q.pipeline ++ [[("$sort", .doc sortStage)]]}
  else q

/-- `parseOrderBy` of `order.go`. -/
def parseOrderBy (q : Query) (o : OrderItems) : Query :=
  match o with
  | .nil => q
  | _ =>
      if q.operation ≠ "aggregate" then
        let sortDoc := buildSimpleSort o
        if sortDoc.length > 0 then {q with sort := sortDoc}
        else buildAggregatePipelineSort q o
      else buildAggregatePipelineSort q o

/-! ## LIMIT / OFFSET (`parseLimit`, the version the claims cite) -/

/-- The tail of `parseLimit`: the unconditional `*q.Limit == 1` dereference;
`none` models the nil-pointer panic. -/
def parseLimitDeref (q : Query) : Option Query :=
  match q.limit with
  | none => none
  | some v => if v = 1 then some {q with operation := "findone"} else some q

/-- The offset switch of `parseLimit`: `q.Offset, err = makeint64Pointer`
assigns the (never nil) pointer before the error check, which returns
early. -/
def parseLimitOffset (q : Query) (off : OptExpr) : Option Query :=
  match off with
  | .some (.sqlVal _ v) =>
      let r := goParseInt v
      let q := {q with offset := some r.1}
      if !r.2 then some q else parseLimitDeref q
  | _ => parseLimitDeref q

/-- `parseLimit`: the rowcount switch (only `*sqlparser.SQLVal` is handled),
then the offset switch, then the unconditional dereference promoting
`findone` when the limit equals 1. -/
def parseLimit (q : Query) (n : LimitN) : Option Query :=
  match n with
  | .mk off rowcount =>
      match rowcount with
      | .sqlVal _ v =>
          let r := goParseInt v
          let q := {q with limit := some r.1}
          if !r.2 then some q else parseLimitOffset q off
      | _ => parseLimitOffset q off

/-! ## Aggregate functions (`function.go`) -/

/-- `isStarExpr` of `function.go`: tests whether the select expression is an
`AliasedExpr` printing as `*`.  A `StarExpr` (how `*` actually parses) is
not an `AliasedExpr`, so this is false for it. -/
def isStarExpr (it : SelItem) : Bool :=
  match it with
  | .aliased e _ => sqlStringExpr e = "*"
  | _ => false

/-- `getAlias` of `function.go`. -/
def getAlias (name : String) (args : SelItems) : String :=
  match args with
  | .cons a _ =>
      match a with
      | .aliased e al =>
          if al ≠ "" then al
          else
            match e with
            | .colName _ cn => goLower name ++ "_" ++ cn
            | _ => goLower name
      | _ => goLower name
  | .nil => goLower name

/-- `handleCountStar` of `function.go` (`bson.M`, hence `mInsert`). -/
def handleCountStar (q : Query) (name : String) (args : SelItems) : Query :=
  let als := getAlias name args
  {q with
    operation := "aggregate"
    pipeline := q.pipeline ++
      [[("$group", .doc (mInsert (mInsert [] "_id" .nullV) als (.doc [("$sum", .int 1)])))]]}

/-- `handleRegularCount` of `function.go`. -/
def handleRegularCount (q : Query) (name : String) (args : SelItems) : Query :=
  let q := {q with operation := "aggregate"}
  match args with
  | .nil => q
  | .cons a _ =>
      let als := getAlias name args
      match a with
      | .aliased (.colName _ field) _ =>
          {q with pipeline := q.pipeline ++
            [[("$group", .doc (mInsert (mInsert [] "_id" .nullV) als
              (.doc [("$sum", .doc [("$cond",
                .arr [.doc [("$ne", .arr [.str ("$" ++ field), .nullV])], .int 1, .int 0])])])))]]}
      | _ => q

/-- `handleAggregateFunc` of `function.go`. -/
def handleAggregateFunc (q : Query) (name : String) (args : SelItems) : Query :=
  let q := {q with operation := "aggregate"}
  match args with
  | .nil => q
  | .cons a _ =>
      let als := getAlias name args
      match a with
      | .aliased (.colName _ field) _ =>
          {q with pipeline := q.pipeline ++
            [[("$group", .doc (mInsert (mInsert [] "_id" .nullV) als
              (.doc [("$" ++ goLower name, .str ("$" ++ field))])))]]}
      | _ => q

/-- `parseFunc` of `function.go`.  `parentAlias` models `getParentExpr`: it
is `some a` exactly when the function node's direct parent in the statement
is an `AliasedExpr` with alias `a` (pointer identity in Go singles out the
node's own parent). -/
def parseFunc (q : Query) (name : String) (distinct : Bool) (args : SelItems)
    (parentAlias : Option String) : Query :=
  if goLower name = "count" then
    if distinct then handleCountStar {q with operation := "aggregate"} name args
    else if (match parentAlias with | some a => decide (a ≠ "") | none => false) then
      handleCountStar {q with operation := "aggregate"} name args
    else
      match args with
      | .nil => {q with operation := "count"}
      | .cons a .nil =>
          if isStarExpr a || sqlStringSelItem a = "q.*" then {q with operation := "count"}
          else handleRegularCount {q with operation := "aggregate"} name args
      | _ => handleRegularCount {q with operation := "aggregate"} name args
  else if goLower name = "min" ∨ goLower name = "max" ∨ goLower name = "sum" ∨
      goLower name = "avg" then
    handleAggregateFunc {q with operation := "aggregate"} name args
  else q

/-! ## WHERE clause (`where.go`) -/

/-- `getQualifiedName` of `where.go`. -/
def getQualifiedName (qual name : String) : String :=
  goJoinDotTrim qual name

/-- `parseSQLValue` of `where.go`. -/
def parseSQLValue (ty : ValTy) (v : String) : BVal :=
  match ty with
  | .intVal => if (goParseInt v).2 then .int (goParseInt v).1 else .str v
  | _ => .str v

/-- `parseTupleValue` of `where.go` (`none` is the skipped nil). -/
def parseTupleValue : SqlExpr → Option BVal
  | .sqlVal ty v => some (parseSQLValue ty v)
  | .colName qual n => some (.str (getQualifiedName qual n))
  | _ => none

/-- `parseValTupleValues` of `where.go`. -/
def parseValTupleValues : SqlExprs → List BVal
  | .nil => []
  | .cons e tl =>
      match parseTupleValue e with
      | some v => v :: parseValTupleValues tl
      | none => parseValTupleValues tl

/-- `parseComparisonRight` of `where.go` (`none` is `nil, false`).  The
source's `case *sqlparser.ValTuple` arm is dead code: `ValTuple` is
value-typed in the sqlparser library (asserted by value elsewhere in the
repository), so the pointer assertion never fires and a tuple falls through
to `nil, false` — `parseValTupleValues` above is unreachable from here and
the query is returned unchanged by the caller. -/
def parseComparisonRight : SqlExpr → Option BVal
  | .sqlVal _ v => some (.str v)
  | .colName qual n => some (.str (getQualifiedName qual n))
  | _ => none

/-- `handleColumnComparison` of `where.go`. -/
def handleColumnComparison (q : Query) (qual name op : String) (r : SqlExpr) : Option Query :=
  let field := goJoinDotTrim qual name
  match parseComparisonRight r with
  | none => some q
  | some value => applyFilter q field op value

/-- `handleValueComparison` of `where.go` (a literal on the left of `in`). -/
def handleValueComparison (q : Query) (v op : String) (r : SqlExpr) : Option Query :=
  if op ≠ "in" then some q
  else
    match r with
    | .colName _ cn =>
        match parseID v q.collection with
        | none => none
        | some none => some q
        | some (some pv) =>
            some {q with filter := q.filter ++ [(cn, .doc [("$in", .arr [pv])])]}
    | _ => some q

/-- `getColumnFromAliasedExpr` (shared by `where.go` and `parseSelect`):
the column of the first argument when it is an aliased column expression. -/
def getColumnFromAliasedExpr : SelItem → Option String
  | .aliased (.colName _ cn) _ => some cn
  | _ => none

/-- `handleArrayContains` of `where.go`.  The argument extraction uses plain
type assertions, so `none` models the panic on non-conforming arguments. -/
def handleArrayContains (q : Query) (args : SelItems) : Option Query :=
  if lengthSelItems args ≠ 2 then some q
  else
    match args with
    | .cons a1 (.cons a2 .nil) =>
        match a1 with
        | .aliased (.colName _ field) _ =>
            match a2 with
            | .aliased (.sqlVal _ value) _ =>
                match parseID value q.collection with
                | none => none
                | some none => some q
                | some (some pv) =>
                    some {q with
                      filter := q.filter ++ [(field, .doc [("$in", .arr [pv])])]
                      projection := none}
            | _ => none
        | _ => none
    | _ => some q

/-- `handleFuncComparison` of `where.go`. -/
def handleFuncComparison (q : Query) (name : String) (args : SelItems) : Option Query :=
  if goLower name = "array_contains" then handleArrayContains q args
  else if goLower name = "count" ∨ goLower name = "avg" ∨ goLower name = "sum" ∨
      goLower name = "min" ∨ goLower name = "max" then
    let q := {q with operation := "aggregate"}
    match args with
    | .nil => some q
    | .cons a _ =>
        match getColumnFromAliasedExpr a with
        | none => some q
        | some field =>
            if goLower name = "count" then
              some {q with pipeline := q.pipeline ++
                [[("$group", .doc [("_id", .nullV), (field, .doc [("$sum", .int 1)])])]]}
            else
              some {q with pipeline := q.pipeline ++
                [[("$group", .doc [("_id", .nullV),
                  (field, .doc [("$" ++ goLower name, .str ("$" ++ field))])])]]}
  else some q

/-- `parseComparison` of `where.go`: dispatch on the left operand. -/
def parseComparison (q : Query) (op : String) (l r : SqlExpr) : Option Query :=
  match l with
  | .funcE n _ args => handleFuncComparison q n args
  | .colName qual name => handleColumnComparison q qual name op r
  | .sqlVal _ v => handleValueComparison q v op r
  | _ => some q

/-- `parseWhereExpr` of `where.go`.  A bare function becomes the synthetic
comparison `f(...) = 'true'`; each OR branch is lowered against a fresh
`NewQuery` and reduced to one `$or` entry via `Filter.Map()`. -/
def parseWhereExpr (q : Query) : SqlExpr → Option Query
  | .cmp op l r => parseComparison q op l r
  | .funcE n d args => parseComparison q "=" (.funcE n d args) (.sqlVal .strVal "true")
  | .andE l r => do
      let q1 ← parseWhereExpr q l
      parseWhereExpr q1 r
  | .orE l r => do
      let lq ← parseWhereExpr NewQuery l
      let rq ← parseWhereExpr NewQuery r
      some {q with filter := q.filter ++
        [("$or", .arr [.doc (mapOfD lq.filter), .doc (mapOfD rq.filter)])]}
  | .parenE e => parseWhereExpr q e
  | .rangeCond l lo hi =>
      match l with
      | .colName _ field =>
          match lo, hi with
          | .sqlVal _ fv, .sqlVal _ tv =>
              some {q with filter := q.filter ++
                [(field, .doc [("$gte", .int (goAtoiLossy fv)),
                  ("$lte", .int (goAtoiLossy tv))])]}
          | _, _ => none
      | _ => none
  | _ => some q

/-- `parseWhere` of `where.go` (nil node check included). -/
def parseWhere (q : Query) : OptExpr → Option Query
  | .none => some q
  | .some e => parseWhereExpr q e

/-! ## JOIN (`join.go`) -/

/-- A write `q.Pipeline[0][0].Value.(bson.M)[k] = v`: `none` models the
index panic on an empty pipeline or empty first stage.  (Go would also
panic if the first stage's value were a `bson.D`; the embedding does not
distinguish `D` from `M` values, and no input of the claims reaches that
case — in every exercised path the first stage is the `$lookup` with a map
value created just above.) -/
def lookupSet (q : Query) (k : String) (v : BVal) : Option Query :=
  match q.pipeline with
  | [] => none
  | stage :: rest =>
      match stage with
      | [] => none
      | (sk, sv) :: srest =>
          match sv with
          | .doc m => some {q with pipeline := ((sk, .doc (mInsert m k v)) :: srest) :: rest}
          | _ => none

/-- `parseJoin` of `join.go`: set the collection to the left table and open
a `$lookup` stage, fill `from`/`as` from the right table, then write
`localField` twice (the second write, from the ON clause's right column,
overwrites the first; `foreignField` is never set). -/
def parseJoin (q : Query) (l r : TableE) (onCond : OptExpr) : Option Query :=
  let q := match aliasedTableName l with
    | "" => q
    | name => {q with collection := name, pipeline := q.pipeline ++ [[("$lookup", .doc [])]]}
  let step2 : Option Query :=
    match aliasedTableName r with
    | "" => some q
    | name => do
        let q1 ← lookupSet q "from" (.str name)
        lookupSet q1 "as" (.str name)
  match step2 with
  | none => none
  | some q2 =>
      match joinOn onCond with
      | none => none
      | some (_, lE, rE) => do
          let q3 ← (match colNameOf lE with
            | "" => some q2
            | n => lookupSet q2 "localField" (.str n))
          match colNameOf rE with
          | "" => some q3
          | n => lookupSet q3 "localField" (.str n)

/-! ## Driver pieces (`statement.go`) -/

/-- `handleSelectNode` of `statement.go`. -/
def handleSelectNode (q : Query) (s : SelectStmt) : Query :=
  match s with
  | .mk dist _ frm _ groupBy having orderBy _ =>
      let q := if q.collection = "" then setupQueryFromClause q frm else q
      let q :=
        if dist ≠ "" then {q with operation := "distinct"}
        else if q.operation = "" then {q with operation := "find"}
        else q
      let q := parseGroupBy q groupBy having
      parseOrderBy q orderBy

/-- `finalizeQuery` of `statement.go`. -/
def finalizeQuery (q : Query) (s : SelectStmt) : Query :=
  match s with
  | .mk _ _ frm _ groupBy having orderBy _ =>
      let needsAggregate :=
        (match groupBy with | .nil => false | _ => true) ||
        (match having with | .none => false | _ => true) ||
        (match orderBy with | .nil => false | _ => true) ||
        decide (lengthTableEs frm > 1)
      if needsAggregate && q.operation ≠ "count" then {q with operation := "aggregate"}
      else if q.operation = "" then {q with operation := "find"}
      else q

/-! ## Projection state helpers (`parseSelect`, part of the select family) -/

/-- Go `append` on a possibly-nil slice (appending to nil allocates). -/
def projAppend (p : Option Doc) (e : String × BVal) : Option Doc :=
  match p with
  | none => some [e]
  | some l => some (l ++ [e])

/-- `len` of a possibly-nil slice. -/
def projLen : Option Doc → Nat
  | none => 0
  | some l => l.length

/-- `handleDistinct` of `parseSelect`. -/
def handleDistinct (q : Query) (args : SelItems) : Query :=
  let q := {q with operation := "distinct"}
  match args with
  | .cons a _ =>
      match getColumnFromAliasedExpr a with
      | some cn => {q with projection := projAppend q.projection (cn, .int 1)}
      | none => q
  | .nil => q

/-- `getAggregateAlias` of `parseSelect`. -/
def getAggregateAlias (al : String) (args : SelItems) (defaultName : String) : String :=
  if al ≠ "" then al
  else
    match args with
    | .cons a _ =>
        match getColumnFromAliasedExpr a with
        | some cn => defaultName ++ "_" ++ cn
        | none => defaultName
    | .nil => defaultName

/-- `addAggregateStage` of `parseSelect` (the group stage is a `bson.D`). -/
def addAggregateStage (q : Query) (al name : String) (args : SelItems)
    (operator : String) (value : BVal) : Query :=
  let als :=
    if al ≠ "" then al
    else
      match args with
      | .cons a _ =>
          match getColumnFromAliasedExpr a with
          | some cn => goLower name ++ "_" ++ cn
          | none => goLower name
      | .nil => goLower name
  {q with pipeline := q.pipeline ++
    [[("$group", .doc [("_id", .nullV), (als, .doc [(operator, value)])])]]}

/-- `addDistinctCountStage` of `parseSelect`. -/
def addDistinctCountStage (q : Query) (als field : String) : Query :=
  {q with pipeline := q.pipeline ++
    [[("$group", .doc [("_id", .str ("$" ++ field))])],
     [("$group", .doc [("_id", .nullV), (als, .doc [("$sum", .int 1)])])]]}

/-- `handleCount` of `parseSelect`. -/
def handleCount (q : Query) (name : String) (distinct : Bool) (args : SelItems)
    (al : String) : Query :=
  let als := getAggregateAlias al args "count"
  match distinct, args with
  | true, .cons a _ =>
      (match getColumnFromAliasedExpr a with
       | some cn => addDistinctCountStage q als cn
       | none => addAggregateStage q al name args "$sum" (.int 1))
  | _, _ => addAggregateStage q al name args "$sum" (.int 1)

/-- `handleSimpleAggregate` of `parseSelect`. -/
def handleSimpleAggregate (q : Query) (name : String) (args : SelItems)
    (al : String) : Query :=
  match args with
  | .cons a _ =>
      match getColumnFromAliasedExpr a with
      | some field => addAggregateStage q al name args ("$" ++ goLower name) (.str ("$" ++ field))
      | none => q
  | .nil => q

/-- `handleFuncExpr` of `parseSelect`: force aggregate, mark complexity,
dispatch on the lowered function name.  Returns the query together with the
`hasSubquery`/`hasComplexAggr` flags of the select state. -/
def handleFuncExpr (q : Query) (hasSub : Bool) (name : String) (distinct : Bool)
    (args : SelItems) (al : String) : Query × Bool × Bool :=
  let q := {q with operation := "aggregate"}
  let out :=
    if goLower name = "distinct" then handleDistinct q args
    else if goLower name = "count" then handleCount q name distinct args al
    else if goLower name = "sum" ∨ goLower name = "avg" ∨ goLower name = "min" ∨
        goLower name = "max" then handleSimpleAggregate q name args al
    else q
  (out, hasSub, true)

/-- `appendSubqueryPipeline` of `parseSelect`. -/
def appendSubqueryPipeline (q subQ : Query) (als : String) : Query :=
  {q with
    operation := "aggregate"
    pipeline := q.pipeline ++
      [[("$lookup", .doc [("from", .str subQ.collection), ("localField", .str "id"),
          ("foreignField", .str "user_id"), ("as", .str "subquery_result")])],
       [("$addFields", .doc [(als, .doc [("$size", .str "$subquery_result")])])]]}

/-- `finalizeSelectQuery` of `parseSelect`. -/
def finalizeSelectQuery (q : Query) (hasSub hasAggr : Bool) : Query :=
  let q := if hasSub || hasAggr then {q with operation := "aggregate"} else q
  if projLen q.projection = 0 ∧ q.operation ≠ "aggregate" then {q with projection := none}
  else q

/-! ## The walk (`sqlparser.Walk` composed with `walkNode` of `statement.go`)

`sqlparser.Walk` visits nodes pre-order; `walkNode` dispatches `Select`,
`SelectExprs`, `*Where` (both WHERE and HAVING), `*Limit`, `*FuncExpr`,
`*JoinTableExpr` and `*AliasedExpr` nodes to their translators and ignores
the rest.  Every function below first performs the visit of its node, then
walks the node's children in sqlparser's `walkSubtree` order.  The whole
walk threads the one shared `Query` accumulator; `none` models a panic.

To keep the recursion structural (so that terms compute), the bodies of
`parseSelect`, `visitSelectExprs`, `handleSubquery` and `buildQuery` are
inlined at their call sites inside the mutual block; the functions
themselves are defined right after it and are definitionally equal to the
inlined code (each equality is stated by `rfl`). -/

/-- The projection initialisation at the top of `parseSelect`
(`if q.Projection == nil`). -/
def projInit (q : Query) : Query :=
  if q.projection.isNone then {q with projection := some []} else q

mutual
/-- Visit of a `*sqlparser.Select` node (`handleSelectNode`), then its
children: `SelectExprs` (= `parseSelect` + per-item walk), `From`, `Where`,
`GroupBy`, `Having`, `OrderBy`, `Limit`.  Note that a HAVING node is a
`*sqlparser.Where`, so its visit also runs `parseWhere`. -/
def walkSelect (s : SelectStmt) (q : Query) : Option Query :=
  match s with
  | .mk dist items frm whereE groupBy having orderBy limit =>
      Option.bind (parseSelectLoop (projInit (handleSelectNode q
          (.mk dist items frm whereE groupBy having orderBy limit))) false false items)
        (fun qs =>
      Option.bind (walkSelItems qs items) (fun q1 =>
      Option.bind (walkTableEs q1 frm) (fun q2 =>
      Option.bind (walkWhereStep q2 whereE) (fun q3 =>
      Option.bind (walkGroupExprs q3 groupBy) (fun q4 =>
      Option.bind (walkWhereStep q4 having) (fun q5 =>
      Option.bind (walkOrderItems q5 orderBy) (fun q6 =>
      walkLimitStep q6 limit)))))))
termination_by structural s

/-- Visit of a (possibly absent) `*sqlparser.Where` node — WHERE or HAVING —
(`parseWhere`), then the walk into its expression. -/
def walkWhereStep (q : Query) : OptExpr → Option Query
  | .none => some q
  | .some w =>
      Option.bind (parseWhere q (.some w)) (fun qa => walkExpr qa w Option.none)
termination_by structural w => w

/-- Visit of a (possibly absent) `*sqlparser.Limit` node (`parseLimit`),
then the walk into its children. -/
def walkLimitStep (q : Query) : OptLimit → Option Query
  | .none => some q
  | .some ln =>
      Option.bind (parseLimit q ln) (fun qa => walkLimitChildren qa ln)
termination_by structural lm => lm

/-- The item loop of `parseSelect` with the `selectState` flags.  A star
clears the projection and returns without `finalizeSelectQuery`. -/
def parseSelectLoop (q : Query) (hasSub hasAggr : Bool) : SelItems → Option Query
  | .nil => some (finalizeSelectQuery q hasSub hasAggr)
  | .cons it tl =>
      match it with
      | .star _ => some {q with projection := none}
      | .aliased e al => do
          let r ← handleAliasedSelectExpr q hasSub hasAggr e al
          parseSelectLoop r.1 r.2.1 r.2.2 tl
termination_by structural items => items

/-- `handleAliasedSelectExpr` of `parseSelect` (with `handleSubquery`
inlined in the subquery case: both state flags set, the subquery built
against a fresh plan — the source re-serialises and re-parses the printed
subquery, embedded as direct recursion on the sub-AST — and on success the
`$lookup`/`$addFields` pair appended). -/
def handleAliasedSelectExpr (q : Query) (hasSub hasAggr : Bool) (e : SqlExpr)
    (al : String) : Option (Query × Bool × Bool) :=
  match e with
  | .colName _ cn =>
      some ({q with projection := projAppend q.projection (cn, .int 1)}, hasSub, hasAggr)
  | .funcE n d args => some (handleFuncExpr q hasSub n d args al)
  | .subq s =>
      Option.bind (walkSelect s NewQuery) (fun qs =>
        some (appendSubqueryPipeline q (finalizeQuery qs s) al, true, true))
  | .parenE inner => handleAliasedSelectExpr q hasSub hasAggr inner al
  | .sqlVal _ v =>
      some ({q with projection := projAppend q.projection (al, .str v)}, hasSub, hasAggr)
  | _ => some (q, hasSub, hasAggr)
termination_by structural e

/-- Walk into each select expression after `parseSelect` ran. -/
def walkSelItems (q : Query) : SelItems → Option Query
  | .nil => some q
  | .cons it tl => do
      let q1 ← walkSelItem q it
      walkSelItems q1 tl
termination_by structural items => items

/-- Walk of one select expression: a `StarExpr` visit is a no-op (its
`TableName` child hits `parseTable`, also a no-op); an `AliasedExpr` visit
runs `handleAliasedExpr`, then descends into the expression, which is the
only place a node has an `AliasedExpr` parent (`getParentExpr`). -/
def walkSelItem (q : Query) : SelItem → Option Query
  | .star _ => some q
  | .aliased e al => do
      let q1 ← handleAliasedExpr q e
      walkExpr q1 e (Option.some al)
termination_by structural it => it

/-- `handleAliasedExpr` of `statement.go`: for a subquery item, build the
subquery against a fresh plan and append its pipeline on success (the
nested `Build` is inlined as walk + finalise). -/
def handleAliasedExpr (q : Query) (e : SqlExpr) : Option Query :=
  match e with
  | .subq s =>
      Option.bind (walkSelect s NewQuery) (fun qs =>
        some {q with pipeline := q.pipeline ++ (finalizeQuery qs s).pipeline})
  | .colName _ _ => some q
  | .sqlVal _ _ => some q
  | .cmp _ _ _ => some q
  | .andE _ _ => some q
  | .orE _ _ => some q
  | .parenE _ => some q
  | .rangeCond _ _ _ => some q
  | .tuple _ => some q
  | .funcE _ _ _ => some q
termination_by structural e

/-- Walk of an expression node: `FuncExpr` visits dispatch to `parseFunc`
(and their argument list is a `SelectExprs` node, so `parseSelect` runs on
it, followed by the walk into the arguments); `Subquery` children are full
`Select` walks on the same accumulator; all other expression visits are
unhandled no-ops whose children are walked. -/
def walkExpr (q : Query) (e : SqlExpr) (parentAlias : Option String) : Option Query :=
  match e with
  | .colName _ _ => some q
  | .sqlVal _ _ => some q
  | .cmp _ l r => do
      let q1 ← walkExpr q l Option.none
      walkExpr q1 r Option.none
  | .andE l r => do
      let q1 ← walkExpr q l Option.none
      walkExpr q1 r Option.none
  | .orE l r => do
      let q1 ← walkExpr q l Option.none
      walkExpr q1 r Option.none
  | .parenE e1 => walkExpr q e1 Option.none
  | .rangeCond l lo hi => do
      let q1 ← walkExpr q l Option.none
      let q2 ← walkExpr q1 lo Option.none
      walkExpr q2 hi Option.none
  | .tuple vs => walkExprList q vs
  | .funcE n d args =>
      Option.bind (parseSelectLoop (projInit (parseFunc q n d args parentAlias))
        false false args) (fun qs => walkSelItems qs args)
  | .subq s => walkSelect s q
termination_by structural e

/-- Walk of an expression list (`ValTuple` children). -/
def walkExprList (q : Query) : SqlExprs → Option Query
  | .nil => some q
  | .cons e tl => do
      let q1 ← walkExpr q e Option.none
      walkExprList q1 tl
termination_by structural es => es

/-- Walk of the FROM clause: the `TableExprs` visit is a no-op, then each
table expression is walked. -/
def walkTableEs (q : Query) : TableEs → Option Query
  | .nil => some q
  | .cons t tl => do
      let q1 ← walkTableE q t
      walkTableEs q1 tl
termination_by structural ts => ts

/-- Walk of one table expression: `JoinTableExpr` visits run `parseJoin`,
then descend into both sides and the ON condition; aliased tables are
no-ops (`parseTable`). -/
def walkTableE (q : Query) : TableE → Option Query
  | .aliasedT _ _ => some q
  | .joinT l r onCond _ =>
      Option.bind (parseJoin q l r onCond) (fun q1 =>
      Option.bind (walkTableE q1 l) (fun q2 =>
      Option.bind (walkTableE q2 r) (fun q3 =>
      walkOnStep q3 onCond)))
termination_by structural t => t

/-- Walk into a possibly absent expression child (a JOIN's ON condition, or
a LIMIT's offset). -/
def walkOnStep (q : Query) : OptExpr → Option Query
  | .none => some q
  | .some oe => walkExpr q oe Option.none
termination_by structural oc => oc

/-- Walk of the GROUP BY expression list (all visits unhandled). -/
def walkGroupExprs (q : Query) : GroupExprs → Option Query
  | .nil => some q
  | .cons e tl => do
      let q1 ← walkExpr q e Option.none
      walkGroupExprs q1 tl
termination_by structural g => g

/-- Walk of the ORDER BY items (the `Order` visits are unhandled; their
expressions are walked). -/
def walkOrderItems (q : Query) : OrderItems → Option Query
  | .nil => some q
  | .cons o tl => do
      let q1 ← (match o with
        | .mk e _ => walkExpr q e Option.none)
      walkOrderItems q1 tl
termination_by structural o => o

/-- Children of a `*sqlparser.Limit` node: `Offset` then `Rowcount`. -/
def walkLimitChildren (q : Query) (ln : LimitN) : Option Query :=
  match ln with
  | .mk off rowcount =>
      Option.bind (walkOnStep q off) (fun q1 => walkExpr q1 rowcount Option.none)
termination_by structural ln
end

/-- `parseSelect` (the version without CASE handling, matching the
`statement.go` the claims cite): initialise the projection when nil, fold
the items through the select state, finalise unless a `*` stopped the loop
early. -/
def parseSelect (q : Query) (items : SelItems) : Option Query :=
  let q := if q.projection.isNone then {q with projection := some []} else q
  parseSelectLoop q false false items

/-- Visit of a `sqlparser.SelectExprs` node (`parseSelect`), then the walk
into each select expression. -/
def visitSelectExprs (q : Query) (items : SelItems) : Option Query := do
  let q1 ← parseSelect q items
  walkSelItems q1 items

/-- `Statement.Build` after a successful parse (also what a nested `Build`
on a re-serialised subquery performs): walk, then finalise.  The walk
itself never produces a Go error, so only the panic channel remains. -/
def buildQuery (s : SelectStmt) (q : Query) : Option Query :=
  match walkSelect s q with
  | none => none
  | some q1 => some (finalizeQuery q1 s)

/-- `handleSubquery` of `parseSelect`, as a wrapper over the inlined code. -/
def handleSubquery (q : Query) (s : SelectStmt) (al : String) :
    Option (Query × Bool × Bool) :=
  match buildQuery s NewQuery with
  | none => none
  | some subQ => some (appendSubqueryPipeline q subQ al, true, true)

/-- The select-expressions child step inside `walkSelect` is exactly
`visitSelectExprs`. -/
theorem walkSelect_items_eq (q : Query) (items : SelItems) :
    (do
      let qp := if q.projection.isNone then {q with projection := some []} else q
      let qs ← parseSelectLoop qp false false items
      walkSelItems qs items) = visitSelectExprs q items := rfl

/-- The subquery case of `handleAliasedSelectExpr` is exactly
`handleSubquery`. -/
theorem handleAliasedSelectExpr_subq_eq (q : Query) (hasSub hasAggr : Bool)
    (s : SelectStmt) (al : String) :
    handleAliasedSelectExpr q hasSub hasAggr (.subq s) al = handleSubquery q s al := by
  cases h : walkSelect s NewQuery <;>
    simp [handleSubquery, buildQuery, handleAliasedSelectExpr, h]

/-- `Statement.Build` of `statement.go`: after `validate`, `parseSQL` either
fails with the parser's error (translation does not begin, the plan is
returned as passed in; `errnie.Error` passes the error through — the spec:
parse errors are propagated unchanged) or walks the AST and finalises.
`Build` is parameterised by the external parser's outcome. -/
def Build (parsed : Except String SelectStmt) (q : Query) : Option (Query × Option String) :=
  match parsed with
  | .error msg => some (q, some msg)
  | .ok s =>
      match buildQuery s q with
      | none => none
      | some q1 => some (q1, none)

/-! ## Syntactic cleanliness predicates over the AST

`cleanE af e` holds when `e` contains no subquery, and — unless `af`
("allow functions") is set — no function call either.  The corresponding
predicates for the other node families follow the same convention. -/

mutual
def cleanE (af : Bool) : SqlExpr → Bool
  | .colName _ _ => true
  | .sqlVal _ _ => true
  | .cmp _ l r => cleanE af l && cleanE af r
  | .andE l r => cleanE af l && cleanE af r
  | .orE l r => cleanE af l && cleanE af r
  | .parenE e => cleanE af e
  | .rangeCond l lo hi => cleanE af l && cleanE af lo && cleanE af hi
  | .tuple vs => cleanEs af vs
  | .funcE _ _ args => af && cleanItems af args
  | .subq _ => false
termination_by structural e => e

def cleanEs (af : Bool) : SqlExprs → Bool
  | .nil => true
  | .cons e tl => cleanE af e && cleanEs af tl
termination_by structural es => es

def cleanItems (af : Bool) : SelItems → Bool
  | .nil => true
  | .cons it tl => cleanItem af it && cleanItems af tl
termination_by structural items => items

def cleanItem (af : Bool) : SelItem → Bool
  | .star _ => true
  | .aliased e _ => cleanE af e
termination_by structural it => it

def cleanOpt (af : Bool) : OptExpr → Bool
  | .none => true
  | .some e => cleanE af e
termination_by structural oe => oe

def cleanT (af : Bool) : TableE → Bool
  | .aliasedT _ _ => true
  | .joinT l r oc _ => cleanT af l && cleanT af r && cleanOpt af oc
termination_by structural t => t

def cleanTs (af : Bool) : TableEs → Bool
  | .nil => true
  | .cons t tl => cleanT af t && cleanTs af tl
termination_by structural ts => ts

def cleanGs (af : Bool) : GroupExprs → Bool
  | .nil => true
  | .cons e tl => cleanE af e && cleanGs af tl
termination_by structural g => g

def cleanOs (af : Bool) : OrderItems → Bool
  | .nil => true
  | .cons o tl =>
      (match o with | .mk e _ => cleanE af e) && cleanOs af tl
termination_by structural o => o

def cleanLim (af : Bool) : OptLimit → Bool
  | .none => true
  | .some l => (match l with | .mk off rc => cleanOpt af off && cleanE af rc)
termination_by structural lm => lm
end

/-- Cleanliness of a whole select statement: every expression position is
clean (no subqueries anywhere; no function calls unless `af`). -/
def cleanStmt (af : Bool) : SelectStmt → Bool
  | .mk _ items frm w g hv ob lm =>
      cleanItems af items && cleanTs af frm && cleanOpt af w && cleanGs af g &&
      cleanOpt af hv && cleanOs af ob && cleanLim af lm

/-- A FROM clause made only of aliased tables (no JOIN anywhere). -/
def joinFreeT : TableE → Bool
  | .aliasedT _ _ => true
  | .joinT _ _ _ _ => false

/-- Whether every FROM table expression is join-free. -/
def joinFreeTs : TableEs → Bool
  | .nil => true
  | .cons t tl => joinFreeT t && joinFreeTs tl

/-! ## One-step unfolding lemmas for the walk family

Each lemma restates one defining equation of a walk function at an
applied constructor, so later proofs can rewrite with them without
re-eliciting the recursive definitions. -/

theorem walkSelect_mk (d : String) (items : SelItems) (frm : TableEs) (w : OptExpr)
    (g : GroupExprs) (hv : OptExpr) (ob : OrderItems) (lm : OptLimit) (q : Query) :
    walkSelect (.mk d items frm w g hv ob lm) q =
      Option.bind (parseSelectLoop (projInit (handleSelectNode q
          (.mk d items frm w g hv ob lm))) false false items) (fun qs =>
      Option.bind (walkSelItems qs items) (fun q1 =>
      Option.bind (walkTableEs q1 frm) (fun q2 =>
      Option.bind (walkWhereStep q2 w) (fun q3 =>
      Option.bind (walkGroupExprs q3 g) (fun q4 =>
      Option.bind (walkWhereStep q4 hv) (fun q5 =>
      Option.bind (walkOrderItems q5 ob) (fun q6 =>
      walkLimitStep q6 lm))))))) := by
  rw [walkSelect.eq_def] <;> rfl

theorem parseSelectLoop_nil (q : Query) (hs ha : Bool) :
    parseSelectLoop q hs ha .nil = some (finalizeSelectQuery q hs ha) := by
  rw [parseSelectLoop.eq_def] <;> rfl

theorem parseSelectLoop_star (q : Query) (hs ha : Bool) (sq : String) (tl : SelItems) :
    parseSelectLoop q hs ha (.cons (.star sq) tl) = some {q with projection := none} := by
  rw [parseSelectLoop.eq_def] <;> rfl

theorem parseSelectLoop_aliased (q : Query) (hs ha : Bool) (e : SqlExpr) (al : String)
    (tl : SelItems) :
    parseSelectLoop q hs ha (.cons (.aliased e al) tl) =
      Option.bind (handleAliasedSelectExpr q hs ha e al)
        (fun r => parseSelectLoop r.1 r.2.1 r.2.2 tl) := by
  rw [parseSelectLoop.eq_def] <;> rfl

theorem hase_colName (q : Query) (hs ha : Bool) (qu cn : String) (al : String) :
    handleAliasedSelectExpr q hs ha (.colName qu cn) al =
      some ({q with projection := projAppend q.projection (cn, .int 1)}, hs, ha) := by
  rw [handleAliasedSelectExpr.eq_def] <;> rfl

theorem hase_sqlVal (q : Query) (hs ha : Bool) (ty : ValTy) (v : String) (al : String) :
    handleAliasedSelectExpr q hs ha (.sqlVal ty v) al =
      some ({q with projection := projAppend q.projection (al, .str v)}, hs, ha) := by
  rw [handleAliasedSelectExpr.eq_def] <;> rfl

theorem hase_funcE (q : Query) (hs ha : Bool) (n : String) (d : Bool) (args : SelItems)
    (al : String) :
    handleAliasedSelectExpr q hs ha (.funcE n d args) al =
      some (handleFuncExpr q hs n d args al) := by
  rw [handleAliasedSelectExpr.eq_def] <;> rfl

theorem hase_subq (q : Query) (hs ha : Bool) (s : SelectStmt) (al : String) :
    handleAliasedSelectExpr q hs ha (.subq s) al =
      Option.bind (walkSelect s NewQuery) (fun qs =>
        some (appendSubqueryPipeline q (finalizeQuery qs s) al, true, true)) := by
  rw [handleAliasedSelectExpr.eq_def] <;> rfl

theorem hase_parenE (q : Query) (hs ha : Bool) (e : SqlExpr) (al : String) :
    handleAliasedSelectExpr q hs ha (.parenE e) al =
      handleAliasedSelectExpr q hs ha e al := by
  rw [handleAliasedSelectExpr.eq_def] <;> rfl

theorem hase_cmp (q : Query) (hs ha : Bool) (op : String) (l r : SqlExpr) (al : String) :
    handleAliasedSelectExpr q hs ha (.cmp op l r) al = some (q, hs, ha) := by
  rw [handleAliasedSelectExpr.eq_def] <;> rfl

theorem hase_andE (q : Query) (hs ha : Bool) (l r : SqlExpr) (al : String) :
    handleAliasedSelectExpr q hs ha (.andE l r) al = some (q, hs, ha) := by
  rw [handleAliasedSelectExpr.eq_def] <;> rfl

theorem hase_orE (q : Query) (hs ha : Bool) (l r : SqlExpr) (al : String) :
    handleAliasedSelectExpr q hs ha (.orE l r) al = some (q, hs, ha) := by
  rw [handleAliasedSelectExpr.eq_def] <;> rfl

theorem hase_rangeCond (q : Query) (hs ha : Bool) (l lo hi : SqlExpr) (al : String) :
    handleAliasedSelectExpr q hs ha (.rangeCond l lo hi) al = some (q, hs, ha) := by
  rw [handleAliasedSelectExpr.eq_def] <;> rfl

theorem hase_tuple (q : Query) (hs ha : Bool) (vs : SqlExprs) (al : String) :
    handleAliasedSelectExpr q hs ha (.tuple vs) al = some (q, hs, ha) := by
  rw [handleAliasedSelectExpr.eq_def] <;> rfl

theorem walkSelItems_nil (q : Query) : walkSelItems q .nil = some q := by
  rw [walkSelItems.eq_def] <;> rfl

theorem walkSelItems_cons (q : Query) (it : SelItem) (tl : SelItems) :
    walkSelItems q (.cons it tl) =
      Option.bind (walkSelItem q it) (fun q1 => walkSelItems q1 tl) := by
  rw [walkSelItems.eq_def] <;> rfl

theorem walkSelItem_star (q : Query) (sq : String) :
    walkSelItem q (.star sq) = some q := by
  rw [walkSelItem.eq_def] <;> rfl

theorem walkSelItem_aliased (q : Query) (e : SqlExpr) (al : String) :
    walkSelItem q (.aliased e al) =
      Option.bind (handleAliasedExpr q e) (fun q1 => walkExpr q1 e (Option.some al)) := by
  rw [walkSelItem.eq_def] <;> rfl

theorem haE_subq (q : Query) (s : SelectStmt) :
    handleAliasedExpr q (.subq s) =
      Option.bind (walkSelect s NewQuery) (fun qs =>
        some {q with pipeline := q.pipeline ++ (finalizeQuery qs s).pipeline}) := by
  rw [handleAliasedExpr.eq_def] <;> rfl

theorem haE_colName (q : Query) (a b : String) :
    handleAliasedExpr q (.colName a b) = some q := by
  rw [handleAliasedExpr.eq_def] <;> rfl

theorem haE_sqlVal (q : Query) (ty : ValTy) (v : String) :
    handleAliasedExpr q (.sqlVal ty v) = some q := by
  rw [handleAliasedExpr.eq_def] <;> rfl

theorem haE_cmp (q : Query) (op : String) (l r : SqlExpr) :
    handleAliasedExpr q (.cmp op l r) = some q := by
  rw [handleAliasedExpr.eq_def] <;> rfl

theorem haE_andE (q : Query) (l r : SqlExpr) :
    handleAliasedExpr q (.andE l r) = some q := by
  rw [handleAliasedExpr.eq_def] <;> rfl

theorem haE_orE (q : Query) (l r : SqlExpr) :
    handleAliasedExpr q (.orE l r) = some q := by
  rw [handleAliasedExpr.eq_def] <;> rfl

theorem haE_parenE (q : Query) (e : SqlExpr) :
    handleAliasedExpr q (.parenE e) = some q := by
  rw [handleAliasedExpr.eq_def] <;> rfl

theorem haE_rangeCond (q : Query) (l lo hi : SqlExpr) :
    handleAliasedExpr q (.rangeCond l lo hi) = some q := by
  rw [handleAliasedExpr.eq_def] <;> rfl

theorem haE_tuple (q : Query) (vs : SqlExprs) :
    handleAliasedExpr q (.tuple vs) = some q := by
  rw [handleAliasedExpr.eq_def] <;> rfl

theorem haE_funcE (q : Query) (n : String) (d : Bool) (args : SelItems) :
    handleAliasedExpr q (.funcE n d args) = some q := by
  rw [handleAliasedExpr.eq_def] <;> rfl

theorem walkExpr_colName (q : Query) (a b : String) (pa : Option String) :
    walkExpr q (.colName a b) pa = some q := by
  rw [walkExpr.eq_def] <;> rfl

theorem walkExpr_sqlVal (q : Query) (ty : ValTy) (v : String) (pa : Option String) :
    walkExpr q (.sqlVal ty v) pa = some q := by
  rw [walkExpr.eq_def] <;> rfl

theorem walkExpr_cmp (q : Query) (op : String) (l r : SqlExpr) (pa : Option String) :
    walkExpr q (.cmp op l r) pa =
      Option.bind (walkExpr q l Option.none) (fun q1 => walkExpr q1 r Option.none) := by
  rw [walkExpr.eq_def] <;> rfl

theorem walkExpr_andE (q : Query) (l r : SqlExpr) (pa : Option String) :
    walkExpr q (.andE l r) pa =
      Option.bind (walkExpr q l Option.none) (fun q1 => walkExpr q1 r Option.none) := by
  rw [walkExpr.eq_def] <;> rfl

theorem walkExpr_orE (q : Query) (l r : SqlExpr) (pa : Option String) :
    walkExpr q (.orE l r) pa =
      Option.bind (walkExpr q l Option.none) (fun q1 => walkExpr q1 r Option.none) := by
  rw [walkExpr.eq_def] <;> rfl

theorem walkExpr_parenE (q : Query) (e : SqlExpr) (pa : Option String) :
    walkExpr q (.parenE e) pa = walkExpr q e Option.none := by
  rw [walkExpr.eq_def] <;> rfl

theorem walkExpr_rangeCond (q : Query) (l lo hi : SqlExpr) (pa : Option String) :
    walkExpr q (.rangeCond l lo hi) pa =
      Option.bind (walkExpr q l Option.none) (fun q1 =>
      Option.bind (walkExpr q1 lo Option.none) (fun q2 =>
        walkExpr q2 hi Option.none)) := by
  rw [walkExpr.eq_def] <;> rfl

theorem walkExpr_tuple (q : Query) (vs : SqlExprs) (pa : Option String) :
    walkExpr q (.tuple vs) pa = walkExprList q vs := by
  rw [walkExpr.eq_def] <;> rfl

theorem walkExpr_funcE (q : Query) (n : String) (d : Bool) (args : SelItems)
    (pa : Option String) :
    walkExpr q (.funcE n d args) pa =
      Option.bind (parseSelectLoop (projInit (parseFunc q n d args pa)) false false args)
        (fun qs => walkSelItems qs args) := by
  rw [walkExpr.eq_def] <;> rfl

theorem walkExpr_subq (q : Query) (s : SelectStmt) (pa : Option String) :
    walkExpr q (.subq s) pa = walkSelect s q := by
  rw [walkExpr.eq_def] <;> rfl

theorem walkExprList_nil (q : Query) : walkExprList q .nil = some q := by
  rw [walkExprList.eq_def] <;> rfl

theorem walkExprList_cons (q : Query) (e : SqlExpr) (tl : SqlExprs) :
    walkExprList q (.cons e tl) =
      Option.bind (walkExpr q e Option.none) (fun q1 => walkExprList q1 tl) := by
  rw [walkExprList.eq_def] <;> rfl

theorem walkTableEs_nil (q : Query) : walkTableEs q .nil = some q := by
  rw [walkTableEs.eq_def] <;> rfl

theorem walkTableEs_cons (q : Query) (t : TableE) (tl : TableEs) :
    walkTableEs q (.cons t tl) =
      Option.bind (walkTableE q t) (fun q1 => walkTableEs q1 tl) := by
  rw [walkTableEs.eq_def] <;> rfl

theorem walkTableE_aliasedT (q : Query) (tn al : String) :
    walkTableE q (.aliasedT tn al) = some q := by
  rw [walkTableE.eq_def] <;> rfl

theorem walkTableE_joinT (q : Query) (l r : TableE) (oc : OptExpr) (jt : String) :
    walkTableE q (.joinT l r oc jt) =
      Option.bind (parseJoin q l r oc) (fun q1 =>
      Option.bind (walkTableE q1 l) (fun q2 =>
      Option.bind (walkTableE q2 r) (fun q3 => walkOnStep q3 oc))) := by
  rw [walkTableE.eq_def] <;> rfl

theorem walkOnStep_none (q : Query) : walkOnStep q .none = some q := by
  rw [walkOnStep.eq_def] <;> rfl

theorem walkOnStep_some (q : Query) (oe : SqlExpr) :
    walkOnStep q (.some oe) = walkExpr q oe Option.none := by
  rw [walkOnStep.eq_def] <;> rfl

theorem walkWhereStep_none (q : Query) : walkWhereStep q .none = some q := by
  rw [walkWhereStep.eq_def] <;> rfl

theorem walkWhereStep_some (q : Query) (w : SqlExpr) :
    walkWhereStep q (.some w) =
      Option.bind (parseWhere q (.some w)) (fun qa => walkExpr qa w Option.none) := by
  rw [walkWhereStep.eq_def] <;> rfl

theorem walkLimitStep_none (q : Query) : walkLimitStep q .none = some q := by
  rw [walkLimitStep.eq_def] <;> rfl

theorem walkLimitStep_some (q : Query) (ln : LimitN) :
    walkLimitStep q (.some ln) =
      Option.bind (parseLimit q ln) (fun qa => walkLimitChildren qa ln) := by
  rw [walkLimitStep.eq_def] <;> rfl

theorem walkGroupExprs_nil (q : Query) : walkGroupExprs q .nil = some q := by
  rw [walkGroupExprs.eq_def] <;> rfl

theorem walkGroupExprs_cons (q : Query) (e : SqlExpr) (tl : GroupExprs) :
    walkGroupExprs q (.cons e tl) =
      Option.bind (walkExpr q e Option.none) (fun q1 => walkGroupExprs q1 tl) := by
  rw [walkGroupExprs.eq_def] <;> rfl

theorem walkOrderItems_nil (q : Query) : walkOrderItems q .nil = some q := by
  rw [walkOrderItems.eq_def] <;> rfl

theorem walkOrderItems_cons (q : Query) (e : SqlExpr) (dir : String) (tl : OrderItems) :
    walkOrderItems q (.cons (.mk e dir) tl) =
      Option.bind (walkExpr q e Option.none) (fun q1 => walkOrderItems q1 tl) := by
  rw [walkOrderItems.eq_def] <;> rfl

theorem walkLimitChildren_mk (q : Query) (off : OptExpr) (rc : SqlExpr) :
    walkLimitChildren q (.mk off rc) =
      Option.bind (walkOnStep q off) (fun q1 => walkExpr q1 rc Option.none) := by
  rw [walkLimitChildren.eq_def] <;> rfl

/-! ## Field-preservation facts about the visit handlers

`presLO q q'` says a translation step from `q` to `q'` kept the limit
pointer and could only have kept (never introduced) the `findone`
operation.  `GoodQ` is the findone/limit coupling invariant. -/

def GoodQ (q : Query) : Prop := q.operation = "findone" → q.limit.isSome = true

def presLO (q q' : Query) : Prop :=
  q'.limit = q.limit ∧ (q'.operation = "findone" → q.operation = "findone")

theorem presLO_refl (q : Query) : presLO q q := ⟨rfl, id⟩

theorem presLO_trans {q1 q2 q3 : Query} (a : presLO q1 q2) (b : presLO q2 q3) :
    presLO q1 q3 := ⟨b.1.trans a.1, fun h => a.2 (b.2 h)⟩

theorem GoodQ_of_presLO {q q' : Query} (p : presLO q q') (g : GoodQ q) : GoodQ q' :=
  fun h => by rw [p.1]; exact g (p.2 h)

theorem ne_findone_aggregate : ("aggregate" : String) = "findone" → False := by decide

theorem ne_findone_find : ("find" : String) = "findone" → False := by decide

theorem ne_findone_distinct : ("distinct" : String) = "findone" → False := by decide

theorem ne_findone_count : ("count" : String) = "findone" → False := by decide

theorem handleAliasedTable_presLO (q : Query) (table : String) :
    presLO q (handleAliasedTable q table) := by
  unfold handleAliasedTable; split
  · exact ⟨rfl, id⟩
  · exact presLO_refl q

theorem setupQueryFromClause_presLO (frm : TableEs) : ∀ q : Query,
    presLO q (setupQueryFromClause q frm) := by
  intro q
  match frm with
  | .nil => exact presLO_refl q
  | .cons t tl =>
      match t with
      | .joinT a b c d =>
          exact ⟨rfl, fun h => absurd h ne_findone_aggregate⟩
      | .aliasedT table al =>
          exact presLO_trans (handleAliasedTable_presLO q table)
            (setupQueryFromClause_presLO tl (handleAliasedTable q table))
termination_by sizeOf frm

theorem addHavingClause_presLO (q : Query) (hv : OptExpr) :
    presLO q (addHavingClause q hv) := by
  unfold addHavingClause
  split
  · exact presLO_refl q
  · split
    · exact presLO_refl q
    · exact ⟨rfl, id⟩

theorem parseGroupBy_presLO (q : Query) (g : GroupExprs) (hv : OptExpr) :
    presLO q (parseGroupBy q g hv) := by
  unfold parseGroupBy
  split
  · exact presLO_refl q
  · refine presLO_trans ?_ (addHavingClause_presLO _ hv)
    exact ⟨rfl, fun h => absurd h ne_findone_aggregate⟩

theorem buildAggregatePipelineSort_presLO (q : Query) (o : OrderItems) :
    presLO q (buildAggregatePipelineSort q o) := by
  show presLO q (if (buildSortStage o).length > 0
    then {q with
      operation := "aggregate"
      pipeline := q.pipeline ++ [[("$sort", .doc (buildSortStage o))]]}
    else q)
  split
  · exact ⟨rfl, fun h => absurd h ne_findone_aggregate⟩
  · exact presLO_refl q

theorem parseOrderBy_presLO (q : Query) (o : OrderItems) :
    presLO q (parseOrderBy q o) := by
  cases o with
  | nil => exact presLO_refl q
  | cons o1 tl =>
      show presLO q (if q.operation ≠ "aggregate" then
          (if (buildSimpleSort (.cons o1 tl)).length > 0
            then {q with sort := buildSimpleSort (.cons o1 tl)}
            else buildAggregatePipelineSort q (.cons o1 tl))
        else buildAggregatePipelineSort q (.cons o1 tl))
      split
      · split
        · exact ⟨rfl, id⟩
        · exact buildAggregatePipelineSort_presLO q _
      · exact buildAggregatePipelineSort_presLO q _

theorem collSet_presLO (q : Query) (frm : TableEs) :
    presLO q (if q.collection = "" then setupQueryFromClause q frm else q) := by
  split
  · exact setupQueryFromClause_presLO frm q
  · exact presLO_refl q

theorem distFindSet_presLO (q1 : Query) (dist : String) :
    presLO q1 (if dist ≠ "" then {q1 with operation := "distinct"}
      else if q1.operation = "" then {q1 with operation := "find"} else q1) := by
  split
  · exact ⟨rfl, fun h => absurd h ne_findone_distinct⟩
  · split
    · exact ⟨rfl, fun h => absurd h ne_findone_find⟩
    · exact presLO_refl q1

theorem handleSelectNode_presLO (q : Query) (s : SelectStmt) :
    presLO q (handleSelectNode q s) := by
  cases s with
  | mk dist items frm w g hv ob lm =>
      exact presLO_trans (collSet_presLO q frm)
        (presLO_trans (distFindSet_presLO _ dist)
          (presLO_trans (parseGroupBy_presLO _ g hv) (parseOrderBy_presLO _ ob)))

theorem projInit_proj (q : Query) : ∃ p, projInit q = {q with projection := p} := by
  unfold projInit; split
  · exact ⟨some [], rfl⟩
  · exact ⟨q.projection, rfl⟩

theorem finalizeQuery_fields (q : Query) (s : SelectStmt) :
    (finalizeQuery q s).limit = q.limit ∧
    ((finalizeQuery q s).operation = q.operation ∨
      (finalizeQuery q s).operation = "aggregate" ∨
      (finalizeQuery q s).operation = "find") ∧
    (finalizeQuery q s).pipeline = q.pipeline := by
  cases s with
  | mk dist items frm w g hv ob lm =>
      have key : ∀ b : Bool,
          ((if b && q.operation ≠ "count" then {q with operation := "aggregate"}
            else if q.operation = "" then {q with operation := "find"} else q).limit
              = q.limit) ∧
          (((if b && q.operation ≠ "count" then {q with operation := "aggregate"}
            else if q.operation = "" then {q with operation := "find"} else q).operation
              = q.operation) ∨
            ((if b && q.operation ≠ "count" then {q with operation := "aggregate"}
            else if q.operation = "" then {q with operation := "find"} else q).operation
              = "aggregate") ∨
            ((if b && q.operation ≠ "count" then {q with operation := "aggregate"}
            else if q.operation = "" then {q with operation := "find"} else q).operation
              = "find")) ∧
          ((if b && q.operation ≠ "count" then {q with operation := "aggregate"}
            else if q.operation = "" then {q with operation := "find"} else q).pipeline
              = q.pipeline) := by
        intro b
        split
        · exact ⟨rfl, Or.inr (Or.inl rfl), rfl⟩
        · split
          · exact ⟨rfl, Or.inr (Or.inr rfl), rfl⟩
          · exact ⟨rfl, Or.inl rfl, rfl⟩
      exact key _

theorem handleCountStar_fields (q : Query) (n : String) (args : SelItems) :
    (handleCountStar q n args).limit = q.limit ∧
    (handleCountStar q n args).operation = "aggregate" := ⟨rfl, rfl⟩

theorem handleRegularCount_fields (q : Query) (n : String) (args : SelItems) :
    (handleRegularCount q n args).limit = q.limit ∧
    (handleRegularCount q n args).operation = "aggregate" := by
  unfold handleRegularCount
  split
  · exact ⟨rfl, rfl⟩
  · split
    · exact ⟨rfl, rfl⟩
    · exact ⟨rfl, rfl⟩

theorem handleAggregateFunc_fields (q : Query) (n : String) (args : SelItems) :
    (handleAggregateFunc q n args).limit = q.limit ∧
    (handleAggregateFunc q n args).operation = "aggregate" := by
  unfold handleAggregateFunc
  split
  · exact ⟨rfl, rfl⟩
  · split
    · exact ⟨rfl, rfl⟩
    · exact ⟨rfl, rfl⟩

theorem parseFunc_fields (q : Query) (n : String) (d : Bool) (args : SelItems)
    (pa : Option String) :
    (parseFunc q n d args pa).limit = q.limit ∧
    ((parseFunc q n d args pa).operation = q.operation ∨
      (parseFunc q n d args pa).operation = "count" ∨
      (parseFunc q n d args pa).operation = "aggregate") := by
  unfold parseFunc
  split
  · split
    · exact ⟨(handleCountStar_fields _ n _).1, Or.inr (Or.inr (handleCountStar_fields _ n _).2)⟩
    · split
      · exact ⟨(handleCountStar_fields _ n _).1,
          Or.inr (Or.inr (handleCountStar_fields _ n _).2)⟩
      · split
        · exact ⟨rfl, Or.inr (Or.inl rfl)⟩
        · split
          · exact ⟨rfl, Or.inr (Or.inl rfl)⟩
          · exact ⟨(handleRegularCount_fields _ n _).1,
              Or.inr (Or.inr (handleRegularCount_fields _ n _).2)⟩
        · exact ⟨(handleRegularCount_fields _ n _).1,
            Or.inr (Or.inr (handleRegularCount_fields _ n _).2)⟩
  · split
    · exact ⟨(handleAggregateFunc_fields _ n _).1,
        Or.inr (Or.inr (handleAggregateFunc_fields _ n _).2)⟩
    · exact ⟨rfl, Or.inl rfl⟩

theorem handleDistinct_fields (q : Query) (args : SelItems) :
    (handleDistinct q args).limit = q.limit ∧
    (handleDistinct q args).operation = "distinct" := by
  unfold handleDistinct
  split
  · split
    · exact ⟨rfl, rfl⟩
    · exact ⟨rfl, rfl⟩
  · exact ⟨rfl, rfl⟩

theorem handleCount_fields (q : Query) (n : String) (d : Bool) (args : SelItems)
    (al : String) :
    (handleCount q n d args al).limit = q.limit ∧
    (handleCount q n d args al).operation = q.operation := by
  unfold handleCount
  split
  · split
    · exact ⟨rfl, rfl⟩
    · exact ⟨rfl, rfl⟩
  · exact ⟨rfl, rfl⟩

theorem handleSimpleAggregate_fields (q : Query) (n : String) (args : SelItems)
    (al : String) :
    (handleSimpleAggregate q n args al).limit = q.limit ∧
    (handleSimpleAggregate q n args al).operation = q.operation := by
  unfold handleSimpleAggregate
  split
  · split
    · exact ⟨rfl, rfl⟩
    · exact ⟨rfl, rfl⟩
  · exact ⟨rfl, rfl⟩

theorem handleFuncExpr_fields (q : Query) (hs : Bool) (n : String) (d : Bool)
    (args : SelItems) (al : String) :
    (handleFuncExpr q hs n d args al).1.limit = q.limit ∧
    ((handleFuncExpr q hs n d args al).1.operation = "aggregate" ∨
      (handleFuncExpr q hs n d args al).1.operation = "distinct") ∧
    (handleFuncExpr q hs n d args al).2 = (hs, true) := by
  unfold handleFuncExpr
  split
  · exact ⟨(handleDistinct_fields _ _).1, Or.inr (handleDistinct_fields _ _).2, rfl⟩
  · split
    · exact ⟨(handleCount_fields _ n d _ al).1,
        Or.inl (handleCount_fields _ n d _ al).2, rfl⟩
    · split
      · exact ⟨(handleSimpleAggregate_fields _ n _ al).1,
          Or.inl (handleSimpleAggregate_fields _ n _ al).2, rfl⟩
      · exact ⟨rfl, Or.inl rfl, rfl⟩

theorem appendSubqueryPipeline_fields (q subQ : Query) (al : String) :
    (appendSubqueryPipeline q subQ al).limit = q.limit ∧
    (appendSubqueryPipeline q subQ al).operation = "aggregate" := ⟨rfl, rfl⟩

theorem finalizeSelectQuery_fields (q : Query) (hs ha : Bool) :
    (finalizeSelectQuery q hs ha).limit = q.limit ∧
    ((finalizeSelectQuery q hs ha).operation = q.operation ∨
      (finalizeSelectQuery q hs ha).operation = "aggregate") := by
  have key : ∀ q2 : Query,
      ((if projLen q2.projection = 0 ∧ q2.operation ≠ "aggregate"
        then {q2 with projection := none} else q2).limit = q2.limit) ∧
      ((if projLen q2.projection = 0 ∧ q2.operation ≠ "aggregate"
        then {q2 with projection := none} else q2).operation = q2.operation) := by
    intro q2
    split
    · exact ⟨rfl, rfl⟩
    · exact ⟨rfl, rfl⟩
  have pre : ((if hs || ha then {q with operation := "aggregate"} else q).limit = q.limit) ∧
      (((if hs || ha then {q with operation := "aggregate"} else q).operation
          = q.operation) ∨
        ((if hs || ha then {q with operation := "aggregate"} else q).operation
          = "aggregate")) := by
    split
    · exact ⟨rfl, Or.inr rfl⟩
    · exact ⟨rfl, Or.inl rfl⟩
  refine ⟨(key _).1.trans pre.1, ?_⟩
  refine pre.2.elim (fun h => Or.inl ((key _).2.trans h)) (fun h => Or.inr ((key _).2.trans h))

/-! ## Shape facts for the WHERE, LIMIT and JOIN translators -/

theorem pwe_cmp (q : Query) (op : String) (l r : SqlExpr) :
    parseWhereExpr q (.cmp op l r) = parseComparison q op l r := rfl

theorem pwe_funcE (q : Query) (n : String) (d : Bool) (args : SelItems) :
    parseWhereExpr q (.funcE n d args) =
      parseComparison q "=" (.funcE n d args) (.sqlVal .strVal "true") := rfl

theorem pwe_andE (q : Query) (l r : SqlExpr) :
    parseWhereExpr q (.andE l r) =
      Option.bind (parseWhereExpr q l) (fun q1 => parseWhereExpr q1 r) := by
  rw [parseWhereExpr.eq_def] <;> rfl

theorem pwe_orE (q : Query) (l r : SqlExpr) :
    parseWhereExpr q (.orE l r) =
      Option.bind (parseWhereExpr NewQuery l) (fun lq =>
      Option.bind (parseWhereExpr NewQuery r) (fun rq =>
      some {q with filter := q.filter ++
        [("$or", .arr [.doc (mapOfD lq.filter), .doc (mapOfD rq.filter)])]})) := by
  rw [parseWhereExpr.eq_def] <;> rfl

theorem pwe_parenE (q : Query) (e : SqlExpr) :
    parseWhereExpr q (.parenE e) = parseWhereExpr q e := by
  rw [parseWhereExpr.eq_def] <;> rfl

theorem pwe_rangeCond (q : Query) (l lo hi : SqlExpr) :
    parseWhereExpr q (.rangeCond l lo hi) =
      (match l with
       | .colName _ field =>
           (match lo, hi with
            | .sqlVal _ fv, .sqlVal _ tv =>
                some {q with filter := q.filter ++
                  [(field, .doc [("$gte", .int (goAtoiLossy fv)),
                    ("$lte", .int (goAtoiLossy tv))])]}
            | _, _ => none)
       | _ => none) := rfl

theorem pwe_colName (q : Query) (a b : String) :
    parseWhereExpr q (.colName a b) = some q := rfl

theorem pwe_sqlVal (q : Query) (ty : ValTy) (v : String) :
    parseWhereExpr q (.sqlVal ty v) = some q := rfl

theorem pwe_tuple (q : Query) (vs : SqlExprs) :
    parseWhereExpr q (.tuple vs) = some q := rfl

theorem pwe_subq (q : Query) (s : SelectStmt) :
    parseWhereExpr q (.subq s) = some q := rfl

theorem pc_colName (q : Query) (op a b : String) (r : SqlExpr) :
    parseComparison q op (.colName a b) r = handleColumnComparison q a b op r := rfl

theorem pc_sqlVal (q : Query) (op : String) (ty : ValTy) (v : String) (r : SqlExpr) :
    parseComparison q op (.sqlVal ty v) r = handleValueComparison q v op r := rfl

theorem pc_funcE (q : Query) (op n : String) (d : Bool) (args : SelItems) (r : SqlExpr) :
    parseComparison q op (.funcE n d args) r = handleFuncComparison q n args := rfl

/-- Every successful `applyFilterOp` only appends to the filter. -/
theorem applyFilterOp_filter {q : Query} {field op : String} {v : BVal} {q' : Query}
    (h : applyFilterOp q field op v = some q') : ∃ fl, q' = {q with filter := fl} := by
  unfold applyFilterOp at h
  split at h
  · injection h with h; exact ⟨_, h.symm⟩
  · injection h with h; exact ⟨_, h.symm⟩
  · injection h with h; exact ⟨_, h.symm⟩
  · injection h with h; exact ⟨_, h.symm⟩
  · injection h with h; exact ⟨_, h.symm⟩
  · injection h with h; exact ⟨_, h.symm⟩
  · split at h
    · injection h with h; exact ⟨_, h.symm⟩
    · exact Option.noConfusion h
  · split at h
    · injection h with h; exact ⟨_, h.symm⟩
    · injection h with h; exact ⟨_, h.symm⟩
  · injection h with h; exact ⟨q.filter, h.symm⟩

/-- Every successful `applyFilter` only appends to the filter. -/
theorem applyFilter_filter {q : Query} {field op : String} {v : BVal} {q' : Query}
    (h : applyFilter q field op v = some q') : ∃ fl, q' = {q with filter := fl} := by
  unfold applyFilter at h
  split at h
  · exact Option.noConfusion h
  · split at h
    · split at h
      · exact Option.noConfusion h
      · injection h with h; exact ⟨q.filter, h.symm⟩
      · exact applyFilterOp_filter h
    · exact Option.noConfusion h
  · exact applyFilterOp_filter h

theorem handleColumnComparison_filter {q : Query} {qual name op : String} {r : SqlExpr}
    {q' : Query} (h : handleColumnComparison q qual name op r = some q') :
    ∃ fl, q' = {q with filter := fl} := by
  unfold handleColumnComparison at h
  split at h
  · injection h with h; exact ⟨q.filter, h.symm⟩
  · exact applyFilter_filter h

theorem handleValueComparison_filter {q : Query} {v op : String} {r : SqlExpr}
    {q' : Query} (h : handleValueComparison q v op r = some q') :
    ∃ fl, q' = {q with filter := fl} := by
  unfold handleValueComparison at h
  split at h
  · injection h with h; exact ⟨q.filter, h.symm⟩
  · split at h
    · split at h
      · exact Option.noConfusion h
      · injection h with h; exact ⟨q.filter, h.symm⟩
      · injection h with h; exact ⟨_, h.symm⟩
    · injection h with h; exact ⟨q.filter, h.symm⟩

/-- `presW`: the fields a WHERE translation step can never change, together
with the only operation promotion it can make (`aggregate`). -/
def presW (q q' : Query) : Prop :=
  q'.limit = q.limit ∧ q'.sort = q.sort ∧ q'.collection = q.collection ∧
  (q'.operation = q.operation ∨ q'.operation = "aggregate")

theorem presW_refl (q : Query) : presW q q := ⟨rfl, rfl, rfl, Or.inl rfl⟩

theorem presW_trans {q1 q2 q3 : Query} (a : presW q1 q2) (b : presW q2 q3) :
    presW q1 q3 := by
  refine ⟨b.1.trans a.1, b.2.1.trans a.2.1, b.2.2.1.trans a.2.2.1, ?_⟩
  cases b.2.2.2 with
  | inl h => cases a.2.2.2 with
    | inl h2 => exact Or.inl (h.trans h2)
    | inr h2 => exact Or.inr (h.trans h2)
  | inr h => exact Or.inr h

theorem presLO_of_presW {q q' : Query} (p : presW q q') : presLO q q' := by
  refine ⟨p.1, fun h => ?_⟩
  cases p.2.2.2 with
  | inl h2 => exact h2 ▸ h
  | inr h2 => exact absurd (h2.symm.trans h) ne_findone_aggregate

theorem presW_of_filterForm {q q' : Query} (h : ∃ fl, q' = {q with filter := fl}) :
    presW q q' := by
  obtain ⟨fl, rfl⟩ := h
  exact ⟨rfl, rfl, rfl, Or.inl rfl⟩

theorem handleArrayContains_presW {q : Query} {args : SelItems} {q' : Query}
    (h : handleArrayContains q args = some q') : presW q q' := by
  unfold handleArrayContains at h
  split at h
  · injection h with h; exact h ▸ presW_refl q
  · split at h
    · split at h
      · split at h
        · split at h
          · exact Option.noConfusion h
          · injection h with h; exact h ▸ presW_refl q
          · injection h with h; exact h.symm ▸ ⟨rfl, rfl, rfl, Or.inl rfl⟩
        · exact Option.noConfusion h
      · exact Option.noConfusion h
    · injection h with h; exact h ▸ presW_refl q

theorem handleFuncComparison_presW {q : Query} {n : String} {args : SelItems} {q' : Query}
    (h : handleFuncComparison q n args = some q') : presW q q' := by
  unfold handleFuncComparison at h
  split at h
  · exact handleArrayContains_presW h
  · split at h
    · split at h
      · injection h with h; exact h.symm ▸ ⟨rfl, rfl, rfl, Or.inr rfl⟩
      · split at h
        · injection h with h; exact h.symm ▸ ⟨rfl, rfl, rfl, Or.inr rfl⟩
        · split at h
          · injection h with h; exact h.symm ▸ ⟨rfl, rfl, rfl, Or.inr rfl⟩
          · injection h with h; exact h.symm ▸ ⟨rfl, rfl, rfl, Or.inr rfl⟩
    · injection h with h; exact h ▸ presW_refl q

theorem parseComparison_presW {q : Query} {op : String} {l r : SqlExpr} {q' : Query}
    (h : parseComparison q op l r = some q') : presW q q' := by
  unfold parseComparison at h
  split at h
  · exact handleFuncComparison_presW h
  · exact presW_of_filterForm (handleColumnComparison_filter h)
  · exact presW_of_filterForm (handleValueComparison_filter h)
  · injection h with h; exact h ▸ presW_refl q

theorem parseWhereExpr_presW (e : SqlExpr) : ∀ (q q' : Query),
    parseWhereExpr q e = some q' → presW q q' := by
  intro q q' h
  cases e with
  | cmp op l r => exact parseComparison_presW (pwe_cmp q op l r ▸ h)
  | funcE n d args => exact parseComparison_presW (pwe_funcE q n d args ▸ h)
  | andE l r =>
      rw [pwe_andE, Option.bind_eq_some] at h
      obtain ⟨q1, h1, h2⟩ := h
      exact presW_trans (parseWhereExpr_presW l q q1 h1) (parseWhereExpr_presW r q1 q' h2)
  | orE l r =>
      rw [pwe_orE, Option.bind_eq_some] at h
      obtain ⟨lq, h1, h⟩ := h
      rw [Option.bind_eq_some] at h
      obtain ⟨rq, h2, h⟩ := h
      injection h with h
      exact h ▸ ⟨rfl, rfl, rfl, Or.inl rfl⟩
  | parenE e1 => exact parseWhereExpr_presW e1 q q' (pwe_parenE q e1 ▸ h)
  | rangeCond l lo hi =>
      rw [pwe_rangeCond] at h
      split at h
      · split at h
        · injection h with h; exact h ▸ ⟨rfl, rfl, rfl, Or.inl rfl⟩
        · exact Option.noConfusion h
      · exact Option.noConfusion h
  | colName a b => injection (pwe_colName q a b ▸ h) with h; exact h ▸ presW_refl q
  | sqlVal ty v => injection (pwe_sqlVal q ty v ▸ h) with h; exact h ▸ presW_refl q
  | tuple vs => injection (pwe_tuple q vs ▸ h) with h; exact h ▸ presW_refl q
  | subq s => injection (pwe_subq q s ▸ h) with h; exact h ▸ presW_refl q
termination_by sizeOf e

theorem parseWhere_presW {q : Query} {w : OptExpr} {q' : Query}
    (h : parseWhere q w = some q') : presW q q' := by
  cases w with
  | none => injection h with h; exact h ▸ presW_refl q
  | some e => exact parseWhereExpr_presW e q q' h

/-- Under `cleanE false` (no functions, no subqueries) a successful
`parseWhereExpr` only appends filter entries. -/
theorem parseWhereExpr_filter (e : SqlExpr) : ∀ (q q' : Query),
    cleanE false e = true → parseWhereExpr q e = some q' →
    ∃ fl, q' = {q with filter := fl} := by
  intro q q' hc h
  cases e with
  | cmp op l r =>
      rw [pwe_cmp] at h
      simp only [cleanE, Bool.and_eq_true] at hc
      cases l with
      | funcE n d args => exact absurd hc.1 (by simp [cleanE])
      | colName a b => exact handleColumnComparison_filter (pc_colName q op a b r ▸ h)
      | sqlVal ty v => exact handleValueComparison_filter (pc_sqlVal q op ty v r ▸ h)
      | andE l1 r1 => injection h with h; exact ⟨q.filter, h.symm⟩
      | orE l1 r1 => injection h with h; exact ⟨q.filter, h.symm⟩
      | parenE e1 => injection h with h; exact ⟨q.filter, h.symm⟩
      | rangeCond l1 lo hi => injection h with h; exact ⟨q.filter, h.symm⟩
      | tuple vs => injection h with h; exact ⟨q.filter, h.symm⟩
      | subq s => injection h with h; exact ⟨q.filter, h.symm⟩
      | cmp op2 l2 r2 => injection h with h; exact ⟨q.filter, h.symm⟩
  | funcE n d args => exact absurd hc (by simp [cleanE])
  | andE l r =>
      simp only [cleanE, Bool.and_eq_true] at hc
      rw [pwe_andE, Option.bind_eq_some] at h
      obtain ⟨q1, h1, h2⟩ := h
      obtain ⟨f1, rfl⟩ := parseWhereExpr_filter l q q1 hc.1 h1
      obtain ⟨f2, hf2⟩ := parseWhereExpr_filter r _ q' hc.2 h2
      exact ⟨f2, hf2⟩
  | orE l r =>
      rw [pwe_orE, Option.bind_eq_some] at h
      obtain ⟨lq, h1, h⟩ := h
      rw [Option.bind_eq_some] at h
      obtain ⟨rq, h2, h⟩ := h
      injection h with h
      exact ⟨_, h.symm⟩
  | parenE e1 =>
      simp only [cleanE] at hc
      exact parseWhereExpr_filter e1 q q' hc (pwe_parenE q e1 ▸ h)
  | rangeCond l lo hi =>
      rw [pwe_rangeCond] at h
      split at h
      · split at h
        · injection h with h; exact ⟨_, h.symm⟩
        · exact Option.noConfusion h
      · exact Option.noConfusion h
  | colName a b => injection (pwe_colName q a b ▸ h) with h; exact ⟨q.filter, h.symm⟩
  | sqlVal ty v => injection (pwe_sqlVal q ty v ▸ h) with h; exact ⟨q.filter, h.symm⟩
  | tuple vs => injection (pwe_tuple q vs ▸ h) with h; exact ⟨q.filter, h.symm⟩
  | subq s => injection (pwe_subq q s ▸ h) with h; exact ⟨q.filter, h.symm⟩
termination_by sizeOf e

theorem parseWhere_filter {q : Query} {w : OptExpr} {q' : Query}
    (hc : cleanOpt false w = true) (h : parseWhere q w = some q') :
    ∃ fl, q' = {q with filter := fl} := by
  cases w with
  | none => injection h with h; exact ⟨q.filter, h.symm⟩
  | some e => exact parseWhereExpr_filter e q q' hc h

/-! ## Shape facts for `parseLimit` and `parseJoin` -/

/-- Everything `parseLimitDeref` can do: either keep the query or promote
`findone` exactly when the (already set) limit value is 1. -/
theorem parseLimitDeref_ops {q q' : Query} (h : parseLimitDeref q = some q') :
    (q'.operation = q.operation ∨ (q'.operation = "findone" ∧ q'.limit = some 1)) ∧
    q'.limit = q.limit ∧ q'.pipeline = q.pipeline ∧ q'.filter = q.filter ∧
    q'.sort = q.sort ∧ q'.collection = q.collection ∧ q'.projection = q.projection := by
  unfold parseLimitDeref at h
  split at h
  · exact Option.noConfusion h
  next v heq =>
    split at h
    next hv =>
      injection h with h
      subst h
      exact ⟨Or.inr ⟨rfl, by rw [heq, hv]⟩, rfl, rfl, rfl, rfl, rfl, rfl⟩
    · injection h with h
      subst h
      exact ⟨Or.inl rfl, rfl, rfl, rfl, rfl, rfl, rfl⟩

theorem parseLimitOffset_ops {q : Query} {off : OptExpr} {q' : Query}
    (h : parseLimitOffset q off = some q') :
    (q'.operation = q.operation ∨ (q'.operation = "findone" ∧ q'.limit = some 1)) ∧
    q'.limit = q.limit ∧ q'.pipeline = q.pipeline ∧ q'.filter = q.filter ∧
    q'.sort = q.sort ∧ q'.collection = q.collection ∧ q'.projection = q.projection := by
  unfold parseLimitOffset at h
  split at h
  next ty v =>
    simp only [] at h
    split at h
    · injection h with h
      subst h
      exact ⟨Or.inl rfl, rfl, rfl, rfl, rfl, rfl, rfl⟩
    · have o := parseLimitDeref_ops h
      exact ⟨o.1, o.2.1, o.2.2.1, o.2.2.2.1, o.2.2.2.2.1, o.2.2.2.2.2.1,
        o.2.2.2.2.2.2⟩
  · exact parseLimitDeref_ops h

/-- Everything `parseLimit` can do to the plan: only the limit/offset
pointers move (the limit to a parsed value), and the operation either stays
or becomes `findone` together with `limit = 1`. -/
theorem parseLimit_ops {q : Query} {n : LimitN} {q' : Query}
    (h : parseLimit q n = some q') :
    (q'.operation = q.operation ∨ (q'.operation = "findone" ∧ q'.limit = some 1)) ∧
    (q'.limit = q.limit ∨ ∃ v : Int, q'.limit = some v) ∧
    q'.pipeline = q.pipeline ∧ q'.filter = q.filter ∧
    q'.sort = q.sort ∧ q'.collection = q.collection ∧ q'.projection = q.projection := by
  cases n with
  | mk off rc =>
      cases rc
      case sqlVal ty v =>
          have h2 : (if !(goParseInt v).2
              then some {q with limit := some (goParseInt v).1}
              else parseLimitOffset {q with limit := some (goParseInt v).1} off)
              = some q' := h
          clear h
          split at h2
          · injection h2 with h2
            subst h2
            exact ⟨Or.inl rfl, Or.inr ⟨_, rfl⟩, rfl, rfl, rfl, rfl, rfl⟩
          · have o := parseLimitOffset_ops h2
            refine ⟨?_, Or.inr ⟨(goParseInt v).1, o.2.1⟩, o.2.2.1, o.2.2.2.1,
              o.2.2.2.2.1, o.2.2.2.2.2.1, o.2.2.2.2.2.2⟩
            cases o.1 with
            | inl hop => exact Or.inl hop
            | inr hop => exact Or.inr hop
      all_goals
        exact (fun o => ⟨o.1, Or.inl o.2.1, o.2.2.1, o.2.2.2.1, o.2.2.2.2.1,
            o.2.2.2.2.2.1, o.2.2.2.2.2.2⟩)
          (parseLimitOffset_ops (show parseLimitOffset q off = some q' from h))

theorem parseLimit_good {q : Query} {n : LimitN} {q' : Query}
    (g : GoodQ q) (h : parseLimit q n = some q') : GoodQ q' := by
  intro hf
  have o := parseLimit_ops h
  cases o.1 with
  | inl hop =>
      cases o.2.1 with
      | inl hl => rw [hl]; exact g (hop ▸ hf)
      | inr hl => obtain ⟨v, hv⟩ := hl; rw [hv]; rfl
  | inr hop => rw [hop.2]; rfl

/-- `presJ`: the fields a JOIN translation step can never change. -/
def presJ (q q' : Query) : Prop :=
  q'.limit = q.limit ∧ q'.operation = q.operation ∧ q'.filter = q.filter ∧
  q'.sort = q.sort ∧ q'.projection = q.projection ∧ q'.offset = q.offset

theorem presJ_refl (q : Query) : presJ q q := ⟨rfl, rfl, rfl, rfl, rfl, rfl⟩

theorem presJ_trans {q1 q2 q3 : Query} (a : presJ q1 q2) (b : presJ q2 q3) :
    presJ q1 q3 :=
  ⟨b.1.trans a.1, b.2.1.trans a.2.1, b.2.2.1.trans a.2.2.1, b.2.2.2.1.trans a.2.2.2.1,
   b.2.2.2.2.1.trans a.2.2.2.2.1, b.2.2.2.2.2.trans a.2.2.2.2.2⟩

theorem presLO_of_presJ {q q' : Query} (p : presJ q q') : presLO q q' :=
  ⟨p.1, fun h => p.2.1 ▸ h⟩

theorem lookupSet_presJ {q : Query} {k : String} {v : BVal} {q' : Query}
    (h : lookupSet q k v = some q') : presJ q q' := by
  unfold lookupSet at h
  split at h
  · exact Option.noConfusion h
  · split at h
    · exact Option.noConfusion h
    · split at h
      · injection h with h; exact h ▸ ⟨rfl, rfl, rfl, rfl, rfl, rfl⟩
      · exact Option.noConfusion h

theorem bindO_eq_some {A B : Type} {x : Option A} {f : A → Option B} {b : B}
    (h : x >>= f = some b) : ∃ a, x = some a ∧ f a = some b :=
  Option.bind_eq_some.mp h

theorem joinStep2_presJ {qA : Query} {nm : String} {q2 : Query}
    (h : (match nm with
          | "" => some qA
          | name =>
              Option.bind (lookupSet qA "from" (.str name))
                (fun q1 => lookupSet q1 "as" (.str name))) = some q2) : presJ qA q2 := by
  split at h
  · injection h with h; exact h ▸ presJ_refl qA
  · rw [Option.bind_eq_some] at h
    obtain ⟨q1, h1, h2⟩ := h
    exact presJ_trans (lookupSet_presJ h1) (lookupSet_presJ h2)

theorem joinLocal_presJ {q2 : Query} {nm : String} {q3 : Query}
    (h : (match nm with
          | "" => some q2
          | n => lookupSet q2 "localField" (.str n)) = some q3) : presJ q2 q3 := by
  split at h
  · injection h with h; exact h ▸ presJ_refl q2
  · exact lookupSet_presJ h

theorem parseJoin_presJ {q : Query} {l r : TableE} {oc : OptExpr} {q' : Query}
    (h : parseJoin q l r oc = some q') : presJ q q' := by
  unfold parseJoin at h
  simp only [] at h
  have hA : presJ q (match aliasedTableName l with
      | "" => q
      | name => {q with
          collection := name
          pipeline := q.pipeline ++ [[("$lookup", .doc [])]]}) := by
    split
    · exact presJ_refl q
    · exact ⟨rfl, rfl, rfl, rfl, rfl, rfl⟩
  split at h
  · exact Option.noConfusion h
  next q2 heq =>
    split at h
    · exact Option.noConfusion h
    · obtain ⟨q3, h3, h4⟩ := bindO_eq_some h
      exact presJ_trans (presJ_trans (presJ_trans hA (joinStep2_presJ heq))
        (joinLocal_presJ h3)) (joinLocal_presJ h4)

/-! ## The findone/limit invariant through the whole walk

Every walk function preserves `GoodQ`: the only step that can introduce the
`findone` operation is `parseLimit`, and it sets `limit = 1` in the same
step; every other step keeps the limit pointer and never introduces
`findone`. -/

theorem GoodQ_NewQuery : GoodQ NewQuery := fun h => absurd h (by decide)

theorem projInit_good {q : Query} (g : GoodQ q) : GoodQ (projInit q) := by
  obtain ⟨p, hp⟩ := projInit_proj q
  rw [hp]
  exact GoodQ_of_presLO ⟨rfl, id⟩ g

set_option maxHeartbeats 1600000 in
mutual
theorem walkSelect_good (s : SelectStmt) : ∀ q q' : Query,
    walkSelect s q = some q' → GoodQ q → GoodQ q' := by
  intro q q' h g
  cases s with
  | mk d items frm w gb hv ob lm =>
      rw [walkSelect_mk] at h
      obtain ⟨qs, h1, h⟩ := bindO_eq_some h
      obtain ⟨q1, h2, h⟩ := bindO_eq_some h
      obtain ⟨q2, h3, h⟩ := bindO_eq_some h
      obtain ⟨q3, h4, h⟩ := bindO_eq_some h
      obtain ⟨q4, h5, h⟩ := bindO_eq_some h
      obtain ⟨q5, h6, h⟩ := bindO_eq_some h
      obtain ⟨q6, h7, h8⟩ := bindO_eq_some h
      have g0 : GoodQ (projInit (handleSelectNode q (.mk d items frm w gb hv ob lm))) :=
        projInit_good (GoodQ_of_presLO (handleSelectNode_presLO q _) g)
      exact walkLimitStep_good lm q6 q' h8
        (walkOrderItems_good ob q5 q6 h7
          (walkWhereStep_good hv q4 q5 h6
            (walkGroupExprs_good gb q3 q4 h5
              (walkWhereStep_good w q2 q3 h4
                (walkTableEs_good frm q1 q2 h3
                  (walkSelItems_good items qs q1 h2
                    (psl_good items _ false false qs h1 g0)))))))
termination_by sizeOf s

theorem psl_good (items : SelItems) : ∀ (q : Query) (hs ha : Bool) (q' : Query),
    parseSelectLoop q hs ha items = some q' → GoodQ q → GoodQ q' := by
  intro q hs ha q' h g
  cases items with
  | nil =>
      rw [parseSelectLoop_nil] at h
      injection h with h
      subst h
      exact GoodQ_of_presLO
        ⟨(finalizeSelectQuery_fields q hs ha).1, fun hf => by
          cases (finalizeSelectQuery_fields q hs ha).2 with
          | inl h2 => exact h2 ▸ hf
          | inr h2 => exact absurd (h2.symm.trans hf) ne_findone_aggregate⟩ g
  | cons it tl =>
      cases it with
      | star sq =>
          rw [parseSelectLoop_star] at h
          injection h with h
          subst h
          exact GoodQ_of_presLO ⟨rfl, id⟩ g
      | aliased e al =>
          rw [parseSelectLoop_aliased] at h
          obtain ⟨r, hr, htl⟩ := bindO_eq_some h
          exact psl_good tl r.1 r.2.1 r.2.2 q' htl (hase_good e q hs ha al r hr g)
termination_by sizeOf items

theorem hase_good (e : SqlExpr) : ∀ (q : Query) (hs ha : Bool) (al : String)
    (r : Query × Bool × Bool),
    handleAliasedSelectExpr q hs ha e al = some r → GoodQ q → GoodQ r.1 := by
  intro q hs ha al r h g
  cases e with
  | colName qu cn =>
      rw [hase_colName] at h
      injection h with h
      subst h
      exact GoodQ_of_presLO ⟨rfl, id⟩ g
  | sqlVal ty v =>
      rw [hase_sqlVal] at h
      injection h with h
      subst h
      exact GoodQ_of_presLO ⟨rfl, id⟩ g
  | funcE n d args =>
      rw [hase_funcE] at h
      injection h with h
      subst h
      refine GoodQ_of_presLO ⟨(handleFuncExpr_fields q hs n d args al).1, fun hf => ?_⟩ g
      cases (handleFuncExpr_fields q hs n d args al).2.1 with
      | inl h2 => exact absurd (h2.symm.trans hf) ne_findone_aggregate
      | inr h2 => exact absurd (h2.symm.trans hf) ne_findone_distinct
  | subq s =>
      rw [hase_subq] at h
      obtain ⟨qs, hqs, h⟩ := bindO_eq_some h
      injection h with h
      subst h
      exact GoodQ_of_presLO
        ⟨(appendSubqueryPipeline_fields q _ al).1, fun hf =>
          absurd ((appendSubqueryPipeline_fields q _ al).2.symm.trans hf)
            ne_findone_aggregate⟩ g
  | parenE inner =>
      rw [hase_parenE] at h
      exact hase_good inner q hs ha al r h g
  | cmp op l rr =>
      rw [hase_cmp] at h; injection h with h; subst h; exact g
  | andE l rr =>
      rw [hase_andE] at h; injection h with h; subst h; exact g
  | orE l rr =>
      rw [hase_orE] at h; injection h with h; subst h; exact g
  | rangeCond l lo hi =>
      rw [hase_rangeCond] at h; injection h with h; subst h; exact g
  | tuple vs =>
      rw [hase_tuple] at h; injection h with h; subst h; exact g
termination_by sizeOf e

theorem walkSelItems_good (items : SelItems) : ∀ q q' : Query,
    walkSelItems q items = some q' → GoodQ q → GoodQ q' := by
  intro q q' h g
  cases items with
  | nil => rw [walkSelItems_nil] at h; injection h with h; exact h ▸ g
  | cons it tl =>
      rw [walkSelItems_cons] at h
      obtain ⟨q1, h1, h2⟩ := bindO_eq_some h
      exact walkSelItems_good tl q1 q' h2 (walkSelItem_good it q q1 h1 g)
termination_by sizeOf items

theorem walkSelItem_good (it : SelItem) : ∀ q q' : Query,
    walkSelItem q it = some q' → GoodQ q → GoodQ q' := by
  intro q q' h g
  cases it with
  | star sq => rw [walkSelItem_star] at h; injection h with h; exact h ▸ g
  | aliased e al =>
      rw [walkSelItem_aliased] at h
      obtain ⟨q1, h1, h2⟩ := bindO_eq_some h
      exact walkExpr_good e q1 (Option.some al) q' h2 (haE_good e q q1 h1 g)
termination_by sizeOf it

theorem haE_good (e : SqlExpr) : ∀ q q' : Query,
    handleAliasedExpr q e = some q' → GoodQ q → GoodQ q' := by
  intro q q' h g
  cases e with
  | subq s =>
      rw [haE_subq] at h
      obtain ⟨qs, hqs, h⟩ := bindO_eq_some h
      injection h with h
      subst h
      exact GoodQ_of_presLO ⟨rfl, id⟩ g
  | colName a b => rw [haE_colName] at h; injection h with h; exact h ▸ g
  | sqlVal ty v => rw [haE_sqlVal] at h; injection h with h; exact h ▸ g
  | cmp op l r => rw [haE_cmp] at h; injection h with h; exact h ▸ g
  | andE l r => rw [haE_andE] at h; injection h with h; exact h ▸ g
  | orE l r => rw [haE_orE] at h; injection h with h; exact h ▸ g
  | parenE e1 => rw [haE_parenE] at h; injection h with h; exact h ▸ g
  | rangeCond l lo hi => rw [haE_rangeCond] at h; injection h with h; exact h ▸ g
  | tuple vs => rw [haE_tuple] at h; injection h with h; exact h ▸ g
  | funcE n d args => rw [haE_funcE] at h; injection h with h; exact h ▸ g
termination_by sizeOf e

theorem walkExpr_good (e : SqlExpr) : ∀ (q : Query) (pa : Option String) (q' : Query),
    walkExpr q e pa = some q' → GoodQ q → GoodQ q' := by
  intro q pa q' h g
  cases e with
  | colName a b => rw [walkExpr_colName] at h; injection h with h; exact h ▸ g
  | sqlVal ty v => rw [walkExpr_sqlVal] at h; injection h with h; exact h ▸ g
  | cmp op l r =>
      rw [walkExpr_cmp] at h
      obtain ⟨q1, h1, h2⟩ := bindO_eq_some h
      exact walkExpr_good r q1 Option.none q' h2 (walkExpr_good l q Option.none q1 h1 g)
  | andE l r =>
      rw [walkExpr_andE] at h
      obtain ⟨q1, h1, h2⟩ := bindO_eq_some h
      exact walkExpr_good r q1 Option.none q' h2 (walkExpr_good l q Option.none q1 h1 g)
  | orE l r =>
      rw [walkExpr_orE] at h
      obtain ⟨q1, h1, h2⟩ := bindO_eq_some h
      exact walkExpr_good r q1 Option.none q' h2 (walkExpr_good l q Option.none q1 h1 g)
  | parenE e1 =>
      rw [walkExpr_parenE] at h
      exact walkExpr_good e1 q Option.none q' h g
  | rangeCond l lo hi =>
      rw [walkExpr_rangeCond] at h
      obtain ⟨q1, h1, h⟩ := bindO_eq_some h
      obtain ⟨q2, h2, h3⟩ := bindO_eq_some h
      exact walkExpr_good hi q2 Option.none q' h3
        (walkExpr_good lo q1 Option.none q2 h2 (walkExpr_good l q Option.none q1 h1 g))
  | tuple vs =>
      rw [walkExpr_tuple] at h
      exact walkExprList_good vs q q' h g
  | funcE n d args =>
      rw [walkExpr_funcE] at h
      obtain ⟨qs, h1, h2⟩ := bindO_eq_some h
      have gp : GoodQ (projInit (parseFunc q n d args pa)) := by
        refine projInit_good (GoodQ_of_presLO ⟨(parseFunc_fields q n d args pa).1,
          fun hf => ?_⟩ g)
        cases (parseFunc_fields q n d args pa).2 with
        | inl h3 => exact h3 ▸ hf
        | inr h3 =>
            cases h3 with
            | inl h4 => exact absurd (h4.symm.trans hf) ne_findone_count
            | inr h4 => exact absurd (h4.symm.trans hf) ne_findone_aggregate
      exact walkSelItems_good args qs q' h2 (psl_good args _ false false qs h1 gp)
  | subq s =>
      rw [walkExpr_subq] at h
      exact walkSelect_good s q q' h g
termination_by sizeOf e

theorem walkExprList_good (es : SqlExprs) : ∀ q q' : Query,
    walkExprList q es = some q' → GoodQ q → GoodQ q' := by
  intro q q' h g
  cases es with
  | nil => rw [walkExprList_nil] at h; injection h with h; exact h ▸ g
  | cons e tl =>
      rw [walkExprList_cons] at h
      obtain ⟨q1, h1, h2⟩ := bindO_eq_some h
      exact walkExprList_good tl q1 q' h2 (walkExpr_good e q Option.none q1 h1 g)
termination_by sizeOf es

theorem walkTableEs_good (ts : TableEs) : ∀ q q' : Query,
    walkTableEs q ts = some q' → GoodQ q → GoodQ q' := by
  intro q q' h g
  cases ts with
  | nil => rw [walkTableEs_nil] at h; injection h with h; exact h ▸ g
  | cons t tl =>
      rw [walkTableEs_cons] at h
      obtain ⟨q1, h1, h2⟩ := bindO_eq_some h
      exact walkTableEs_good tl q1 q' h2 (walkTableE_good t q q1 h1 g)
termination_by sizeOf ts

theorem walkTableE_good (t : TableE) : ∀ q q' : Query,
    walkTableE q t = some q' → GoodQ q → GoodQ q' := by
  intro q q' h g
  cases t with
  | aliasedT tn al => rw [walkTableE_aliasedT] at h; injection h with h; exact h ▸ g
  | joinT l r oc jt =>
      rw [walkTableE_joinT] at h
      obtain ⟨q1, h1, h⟩ := bindO_eq_some h
      obtain ⟨q2, h2, h⟩ := bindO_eq_some h
      obtain ⟨q3, h3, h4⟩ := bindO_eq_some h
      exact walkOnStep_good oc q3 q' h4
        (walkTableE_good r q2 q3 h3
          (walkTableE_good l q1 q2 h2
            (GoodQ_of_presLO (presLO_of_presJ (parseJoin_presJ h1)) g)))
termination_by sizeOf t

theorem walkOnStep_good (oc : OptExpr) : ∀ q q' : Query,
    walkOnStep q oc = some q' → GoodQ q → GoodQ q' := by
  intro q q' h g
  cases oc with
  | none => rw [walkOnStep_none] at h; injection h with h; exact h ▸ g
  | some oe =>
      rw [walkOnStep_some] at h
      exact walkExpr_good oe q Option.none q' h g
termination_by sizeOf oc

theorem walkWhereStep_good (w : OptExpr) : ∀ q q' : Query,
    walkWhereStep q w = some q' → GoodQ q → GoodQ q' := by
  intro q q' h g
  cases w with
  | none => rw [walkWhereStep_none] at h; injection h with h; exact h ▸ g
  | some wx =>
      rw [walkWhereStep_some] at h
      obtain ⟨qa, h1, h2⟩ := bindO_eq_some h
      exact walkExpr_good wx qa Option.none q' h2
        (GoodQ_of_presLO (presLO_of_presW (parseWhere_presW h1)) g)
termination_by sizeOf w

theorem walkLimitStep_good (lm : OptLimit) : ∀ q q' : Query,
    walkLimitStep q lm = some q' → GoodQ q → GoodQ q' := by
  intro q q' h g
  cases lm with
  | none => rw [walkLimitStep_none] at h; injection h with h; exact h ▸ g
  | some ln =>
      rw [walkLimitStep_some] at h
      obtain ⟨qa, h1, h2⟩ := bindO_eq_some h
      exact walkLimitChildren_good ln qa q' h2 (parseLimit_good g h1)
termination_by sizeOf lm

theorem walkLimitChildren_good (ln : LimitN) : ∀ q q' : Query,
    walkLimitChildren q ln = some q' → GoodQ q → GoodQ q' := by
  intro q q' h g
  cases ln with
  | mk off rc =>
      rw [walkLimitChildren_mk] at h
      obtain ⟨q1, h1, h2⟩ := bindO_eq_some h
      exact walkExpr_good rc q1 Option.none q' h2 (walkOnStep_good off q q1 h1 g)
termination_by sizeOf ln

theorem walkGroupExprs_good (gb : GroupExprs) : ∀ q q' : Query,
    walkGroupExprs q gb = some q' → GoodQ q → GoodQ q' := by
  intro q q' h g
  cases gb with
  | nil => rw [walkGroupExprs_nil] at h; injection h with h; exact h ▸ g
  | cons e tl =>
      rw [walkGroupExprs_cons] at h
      obtain ⟨q1, h1, h2⟩ := bindO_eq_some h
      exact walkGroupExprs_good tl q1 q' h2 (walkExpr_good e q Option.none q1 h1 g)
termination_by sizeOf gb

theorem walkOrderItems_good (ob : OrderItems) : ∀ q q' : Query,
    walkOrderItems q ob = some q' → GoodQ q → GoodQ q' := by
  intro q q' h g
  cases ob with
  | nil => rw [walkOrderItems_nil] at h; injection h with h; exact h ▸ g
  | cons o1 tl =>
      cases o1 with
      | mk e dir =>
          rw [walkOrderItems_cons] at h
          obtain ⟨q1, h1, h2⟩ := bindO_eq_some h
          exact walkOrderItems_good tl q1 q' h2 (walkExpr_good e q Option.none q1 h1 g)
termination_by sizeOf ob
end

/-! ## Limit/findone preservation under subquery-free inputs

On inputs whose expressions contain no subquery (`cleanE af`, any function
allowance `af`), every walk step except the LIMIT visit is a `presLO` step:
it keeps the limit pointer and cannot introduce `findone`. -/

theorem projInit_presLO (q : Query) : presLO q (projInit q) := by
  obtain ⟨p, hp⟩ := projInit_proj q
  rw [hp]; exact ⟨rfl, id⟩

set_option maxHeartbeats 1600000 in
mutual
theorem psl_presLO (items : SelItems) : ∀ (af : Bool) (q : Query) (hs ha : Bool)
    (q' : Query), cleanItems af items = true →
    parseSelectLoop q hs ha items = some q' → presLO q q' := by
  intro af q hs ha q' hc h
  cases items with
  | nil =>
      rw [parseSelectLoop_nil] at h
      injection h with h
      subst h
      refine ⟨(finalizeSelectQuery_fields q hs ha).1, fun hf => ?_⟩
      cases (finalizeSelectQuery_fields q hs ha).2 with
      | inl h2 => exact h2 ▸ hf
      | inr h2 => exact absurd (h2.symm.trans hf) ne_findone_aggregate
  | cons it tl =>
      simp only [cleanItems, Bool.and_eq_true] at hc
      cases it with
      | star sq =>
          rw [parseSelectLoop_star] at h
          injection h with h
          subst h
          exact ⟨rfl, id⟩
      | aliased e al =>
          rw [parseSelectLoop_aliased] at h
          obtain ⟨r, hr, htl⟩ := bindO_eq_some h
          exact presLO_trans (hase_presLO e af q hs ha al r hc.1 hr)
            (psl_presLO tl af r.1 r.2.1 r.2.2 q' hc.2 htl)
termination_by sizeOf items

theorem hase_presLO (e : SqlExpr) : ∀ (af : Bool) (q : Query) (hs ha : Bool)
    (al : String) (r : Query × Bool × Bool), cleanE af e = true →
    handleAliasedSelectExpr q hs ha e al = some r → presLO q r.1 := by
  intro af q hs ha al r hc h
  cases e with
  | colName qu cn =>
      rw [hase_colName] at h; injection h with h; subst h; exact ⟨rfl, id⟩
  | sqlVal ty v =>
      rw [hase_sqlVal] at h; injection h with h; subst h; exact ⟨rfl, id⟩
  | funcE n d args =>
      rw [hase_funcE] at h
      injection h with h
      subst h
      refine ⟨(handleFuncExpr_fields q hs n d args al).1, fun hf => ?_⟩
      cases (handleFuncExpr_fields q hs n d args al).2.1 with
      | inl h2 => exact absurd (h2.symm.trans hf) ne_findone_aggregate
      | inr h2 => exact absurd (h2.symm.trans hf) ne_findone_distinct
  | subq s => exact absurd hc (by simp [cleanE])
  | parenE inner =>
      rw [hase_parenE] at h
      simp only [cleanE] at hc
      exact hase_presLO inner af q hs ha al r hc h
  | cmp op l rr => rw [hase_cmp] at h; injection h with h; subst h; exact ⟨rfl, id⟩
  | andE l rr => rw [hase_andE] at h; injection h with h; subst h; exact ⟨rfl, id⟩
  | orE l rr => rw [hase_orE] at h; injection h with h; subst h; exact ⟨rfl, id⟩
  | rangeCond l lo hi =>
      rw [hase_rangeCond] at h; injection h with h; subst h; exact ⟨rfl, id⟩
  | tuple vs => rw [hase_tuple] at h; injection h with h; subst h; exact ⟨rfl, id⟩
termination_by sizeOf e

theorem walkSelItems_presLO (items : SelItems) : ∀ (af : Bool) (q q' : Query),
    cleanItems af items = true → walkSelItems q items = some q' → presLO q q' := by
  intro af q q' hc h
  cases items with
  | nil => rw [walkSelItems_nil] at h; injection h with h; exact h ▸ presLO_refl q
  | cons it tl =>
      simp only [cleanItems, Bool.and_eq_true] at hc
      rw [walkSelItems_cons] at h
      obtain ⟨q1, h1, h2⟩ := bindO_eq_some h
      exact presLO_trans (walkSelItem_presLO it af q q1 hc.1 h1)
        (walkSelItems_presLO tl af q1 q' hc.2 h2)
termination_by sizeOf items

theorem walkSelItem_presLO (it : SelItem) : ∀ (af : Bool) (q q' : Query),
    cleanItem af it = true → walkSelItem q it = some q' → presLO q q' := by
  intro af q q' hc h
  cases it with
  | star sq => rw [walkSelItem_star] at h; injection h with h; exact h ▸ presLO_refl q
  | aliased e al =>
      simp only [cleanItem] at hc
      rw [walkSelItem_aliased] at h
      obtain ⟨q1, h1, h2⟩ := bindO_eq_some h
      exact presLO_trans (haE_presLO e af q q1 hc h1)
        (walkExpr_presLO e af q1 (Option.some al) q' hc h2)
termination_by sizeOf it

theorem haE_presLO (e : SqlExpr) : ∀ (af : Bool) (q q' : Query),
    cleanE af e = true → handleAliasedExpr q e = some q' → presLO q q' := by
  intro af q q' hc h
  cases e with
  | subq s => exact absurd hc (by simp [cleanE])
  | colName a b => rw [haE_colName] at h; injection h with h; exact h ▸ presLO_refl q
  | sqlVal ty v => rw [haE_sqlVal] at h; injection h with h; exact h ▸ presLO_refl q
  | cmp op l r => rw [haE_cmp] at h; injection h with h; exact h ▸ presLO_refl q
  | andE l r => rw [haE_andE] at h; injection h with h; exact h ▸ presLO_refl q
  | orE l r => rw [haE_orE] at h; injection h with h; exact h ▸ presLO_refl q
  | parenE e1 => rw [haE_parenE] at h; injection h with h; exact h ▸ presLO_refl q
  | rangeCond l lo hi =>
      rw [haE_rangeCond] at h; injection h with h; exact h ▸ presLO_refl q
  | tuple vs => rw [haE_tuple] at h; injection h with h; exact h ▸ presLO_refl q
  | funcE n d args => rw [haE_funcE] at h; injection h with h; exact h ▸ presLO_refl q
termination_by sizeOf e

theorem walkExpr_presLO (e : SqlExpr) : ∀ (af : Bool) (q : Query) (pa : Option String)
    (q' : Query), cleanE af e = true → walkExpr q e pa = some q' → presLO q q' := by
  intro af q pa q' hc h
  cases e with
  | colName a b => rw [walkExpr_colName] at h; injection h with h; exact h ▸ presLO_refl q
  | sqlVal ty v => rw [walkExpr_sqlVal] at h; injection h with h; exact h ▸ presLO_refl q
  | cmp op l r =>
      simp only [cleanE, Bool.and_eq_true] at hc
      rw [walkExpr_cmp] at h
      obtain ⟨q1, h1, h2⟩ := bindO_eq_some h
      exact presLO_trans (walkExpr_presLO l af q Option.none q1 hc.1 h1)
        (walkExpr_presLO r af q1 Option.none q' hc.2 h2)
  | andE l r =>
      simp only [cleanE, Bool.and_eq_true] at hc
      rw [walkExpr_andE] at h
      obtain ⟨q1, h1, h2⟩ := bindO_eq_some h
      exact presLO_trans (walkExpr_presLO l af q Option.none q1 hc.1 h1)
        (walkExpr_presLO r af q1 Option.none q' hc.2 h2)
  | orE l r =>
      simp only [cleanE, Bool.and_eq_true] at hc
      rw [walkExpr_orE] at h
      obtain ⟨q1, h1, h2⟩ := bindO_eq_some h
      exact presLO_trans (walkExpr_presLO l af q Option.none q1 hc.1 h1)
        (walkExpr_presLO r af q1 Option.none q' hc.2 h2)
  | parenE e1 =>
      simp only [cleanE] at hc
      rw [walkExpr_parenE] at h
      exact walkExpr_presLO e1 af q Option.none q' hc h
  | rangeCond l lo hi =>
      simp only [cleanE, Bool.and_eq_true] at hc
      rw [walkExpr_rangeCond] at h
      obtain ⟨q1, h1, h⟩ := bindO_eq_some h
      obtain ⟨q2, h2, h3⟩ := bindO_eq_some h
      exact presLO_trans (walkExpr_presLO l af q Option.none q1 hc.1.1 h1)
        (presLO_trans (walkExpr_presLO lo af q1 Option.none q2 hc.1.2 h2)
          (walkExpr_presLO hi af q2 Option.none q' hc.2 h3))
  | tuple vs =>
      simp only [cleanE] at hc
      rw [walkExpr_tuple] at h
      exact walkExprList_presLO vs af q q' hc h
  | funcE n d args =>
      simp only [cleanE, Bool.and_eq_true] at hc
      rw [walkExpr_funcE] at h
      obtain ⟨qs, h1, h2⟩ := bindO_eq_some h
      have p0 : presLO q (projInit (parseFunc q n d args pa)) := by
        refine presLO_trans ⟨(parseFunc_fields q n d args pa).1, fun hf => ?_⟩
          (projInit_presLO _)
        cases (parseFunc_fields q n d args pa).2 with
        | inl h3 => exact h3 ▸ hf
        | inr h3 =>
            cases h3 with
            | inl h4 => exact absurd (h4.symm.trans hf) ne_findone_count
            | inr h4 => exact absurd (h4.symm.trans hf) ne_findone_aggregate
      exact presLO_trans p0 (presLO_trans
        (psl_presLO args af _ false false qs hc.2 h1)
        (walkSelItems_presLO args af qs q' hc.2 h2))
  | subq s => exact absurd hc (by simp [cleanE])
termination_by sizeOf e

theorem walkExprList_presLO (es : SqlExprs) : ∀ (af : Bool) (q q' : Query),
    cleanEs af es = true → walkExprList q es = some q' → presLO q q' := by
  intro af q q' hc h
  cases es with
  | nil => rw [walkExprList_nil] at h; injection h with h; exact h ▸ presLO_refl q
  | cons e tl =>
      simp only [cleanEs, Bool.and_eq_true] at hc
      rw [walkExprList_cons] at h
      obtain ⟨q1, h1, h2⟩ := bindO_eq_some h
      exact presLO_trans (walkExpr_presLO e af q Option.none q1 hc.1 h1)
        (walkExprList_presLO tl af q1 q' hc.2 h2)
termination_by sizeOf es

theorem walkTableEs_presLO (ts : TableEs) : ∀ (af : Bool) (q q' : Query),
    cleanTs af ts = true → walkTableEs q ts = some q' → presLO q q' := by
  intro af q q' hc h
  cases ts with
  | nil => rw [walkTableEs_nil] at h; injection h with h; exact h ▸ presLO_refl q
  | cons t tl =>
      simp only [cleanTs, Bool.and_eq_true] at hc
      rw [walkTableEs_cons] at h
      obtain ⟨q1, h1, h2⟩ := bindO_eq_some h
      exact presLO_trans (walkTableE_presLO t af q q1 hc.1 h1)
        (walkTableEs_presLO tl af q1 q' hc.2 h2)
termination_by sizeOf ts

theorem walkTableE_presLO (t : TableE) : ∀ (af : Bool) (q q' : Query),
    cleanT af t = true → walkTableE q t = some q' → presLO q q' := by
  intro af q q' hc h
  cases t with
  | aliasedT tn al => rw [walkTableE_aliasedT] at h; injection h with h
                      exact h ▸ presLO_refl q
  | joinT l r oc jt =>
      simp only [cleanT, Bool.and_eq_true] at hc
      rw [walkTableE_joinT] at h
      obtain ⟨q1, h1, h⟩ := bindO_eq_some h
      obtain ⟨q2, h2, h⟩ := bindO_eq_some h
      obtain ⟨q3, h3, h4⟩ := bindO_eq_some h
      exact presLO_trans (presLO_of_presJ (parseJoin_presJ h1))
        (presLO_trans (walkTableE_presLO l af q1 q2 hc.1.1 h2)
          (presLO_trans (walkTableE_presLO r af q2 q3 hc.1.2 h3)
            (walkOnStep_presLO oc af q3 q' hc.2 h4)))
termination_by sizeOf t

theorem walkOnStep_presLO (oc : OptExpr) : ∀ (af : Bool) (q q' : Query),
    cleanOpt af oc = true → walkOnStep q oc = some q' → presLO q q' := by
  intro af q q' hc h
  cases oc with
  | none => rw [walkOnStep_none] at h; injection h with h; exact h ▸ presLO_refl q
  | some oe =>
      simp only [cleanOpt] at hc
      rw [walkOnStep_some] at h
      exact walkExpr_presLO oe af q Option.none q' hc h
termination_by sizeOf oc

theorem walkWhereStep_presLO (w : OptExpr) : ∀ (af : Bool) (q q' : Query),
    cleanOpt af w = true → walkWhereStep q w = some q' → presLO q q' := by
  intro af q q' hc h
  cases w with
  | none => rw [walkWhereStep_none] at h; injection h with h; exact h ▸ presLO_refl q
  | some wx =>
      simp only [cleanOpt] at hc
      rw [walkWhereStep_some] at h
      obtain ⟨qa, h1, h2⟩ := bindO_eq_some h
      exact presLO_trans (presLO_of_presW (parseWhere_presW h1))
        (walkExpr_presLO wx af qa Option.none q' hc h2)
termination_by sizeOf w

theorem walkLimitChildren_presLO (ln : LimitN) : ∀ (af : Bool) (q q' : Query),
    (match ln with | .mk off rc => cleanOpt af off && cleanE af rc) = true →
    walkLimitChildren q ln = some q' → presLO q q' := by
  intro af q q' hc h
  cases ln with
  | mk off rc =>
      simp only [Bool.and_eq_true] at hc
      rw [walkLimitChildren_mk] at h
      obtain ⟨q1, h1, h2⟩ := bindO_eq_some h
      exact presLO_trans (walkOnStep_presLO off af q q1 hc.1 h1)
        (walkExpr_presLO rc af q1 Option.none q' hc.2 h2)
termination_by sizeOf ln

theorem walkGroupExprs_presLO (gb : GroupExprs) : ∀ (af : Bool) (q q' : Query),
    cleanGs af gb = true → walkGroupExprs q gb = some q' → presLO q q' := by
  intro af q q' hc h
  cases gb with
  | nil => rw [walkGroupExprs_nil] at h; injection h with h; exact h ▸ presLO_refl q
  | cons e tl =>
      simp only [cleanGs, Bool.and_eq_true] at hc
      rw [walkGroupExprs_cons] at h
      obtain ⟨q1, h1, h2⟩ := bindO_eq_some h
      exact presLO_trans (walkExpr_presLO e af q Option.none q1 hc.1 h1)
        (walkGroupExprs_presLO tl af q1 q' hc.2 h2)
termination_by sizeOf gb

theorem walkOrderItems_presLO (ob : OrderItems) : ∀ (af : Bool) (q q' : Query),
    cleanOs af ob = true → walkOrderItems q ob = some q' → presLO q q' := by
  intro af q q' hc h
  cases ob with
  | nil => rw [walkOrderItems_nil] at h; injection h with h; exact h ▸ presLO_refl q
  | cons o1 tl =>
      cases o1 with
      | mk e dir =>
          simp only [cleanOs, Bool.and_eq_true] at hc
          rw [walkOrderItems_cons] at h
          obtain ⟨q1, h1, h2⟩ := bindO_eq_some h
          exact presLO_trans (walkExpr_presLO e af q Option.none q1 hc.1 h1)
            (walkOrderItems_presLO tl af q1 q' hc.2 h2)
termination_by sizeOf ob
end

/-! ## Identity of the walk on function-free, subquery-free expressions -/

mutual
theorem walkExpr_id (e : SqlExpr) : ∀ (q : Query) (pa : Option String),
    cleanE false e = true → walkExpr q e pa = some q := by
  intro q pa h
  cases e with
  | colName a b => exact walkExpr_colName q a b pa
  | sqlVal ty v => exact walkExpr_sqlVal q ty v pa
  | cmp op l r =>
      simp only [cleanE, Bool.and_eq_true] at h
      rw [walkExpr_cmp, walkExpr_id l q Option.none h.1, Option.some_bind,
        walkExpr_id r q Option.none h.2]
  | andE l r =>
      simp only [cleanE, Bool.and_eq_true] at h
      rw [walkExpr_andE, walkExpr_id l q Option.none h.1, Option.some_bind,
        walkExpr_id r q Option.none h.2]
  | orE l r =>
      simp only [cleanE, Bool.and_eq_true] at h
      rw [walkExpr_orE, walkExpr_id l q Option.none h.1, Option.some_bind,
        walkExpr_id r q Option.none h.2]
  | parenE e1 =>
      simp only [cleanE] at h
      rw [walkExpr_parenE, walkExpr_id e1 q Option.none h]
  | rangeCond l lo hi =>
      simp only [cleanE, Bool.and_eq_true] at h
      rw [walkExpr_rangeCond, walkExpr_id l q Option.none h.1.1, Option.some_bind,
        walkExpr_id lo q Option.none h.1.2, Option.some_bind,
        walkExpr_id hi q Option.none h.2]
  | tuple vs =>
      simp only [cleanE] at h
      rw [walkExpr_tuple, walkExprList_id vs q h]
  | funcE n d args => exact absurd h (by simp [cleanE])
  | subq s => exact absurd h (by simp [cleanE])
termination_by sizeOf e

theorem walkExprList_id (es : SqlExprs) : ∀ (q : Query),
    cleanEs false es = true → walkExprList q es = some q := by
  intro q h
  cases es with
  | nil => exact walkExprList_nil q
  | cons e tl =>
      simp only [cleanEs, Bool.and_eq_true] at h
      rw [walkExprList_cons, walkExpr_id e q Option.none h.1, Option.some_bind,
        walkExprList_id tl q h.2]
termination_by sizeOf es
end

theorem haE_id (e : SqlExpr) (q : Query) (hc : cleanE false e = true) :
    handleAliasedExpr q e = some q := by
  cases e with
  | subq s => exact absurd hc (by simp [cleanE])
  | colName a b => exact haE_colName q a b
  | sqlVal ty v => exact haE_sqlVal q ty v
  | cmp op l r => exact haE_cmp q op l r
  | andE l r => exact haE_andE q l r
  | orE l r => exact haE_orE q l r
  | parenE e1 => exact haE_parenE q e1
  | rangeCond l lo hi => exact haE_rangeCond q l lo hi
  | tuple vs => exact haE_tuple q vs
  | funcE n d args => exact haE_funcE q n d args

theorem walkSelItem_id (it : SelItem) (q : Query) (hc : cleanItem false it = true) :
    walkSelItem q it = some q := by
  cases it with
  | star sq => exact walkSelItem_star q sq
  | aliased e al =>
      simp only [cleanItem] at hc
      rw [walkSelItem_aliased, haE_id e q hc, Option.some_bind,
        walkExpr_id e q (Option.some al) hc]

theorem walkSelItems_id (items : SelItems) : ∀ q : Query,
    cleanItems false items = true → walkSelItems q items = some q := by
  intro q hc
  cases items with
  | nil => exact walkSelItems_nil q
  | cons it tl =>
      simp only [cleanItems, Bool.and_eq_true] at hc
      rw [walkSelItems_cons, walkSelItem_id it q hc.1, Option.some_bind,
        walkSelItems_id tl q hc.2]
termination_by sizeOf items

theorem walkOnStep_id (oc : OptExpr) (q : Query) (hc : cleanOpt false oc = true) :
    walkOnStep q oc = some q := by
  cases oc with
  | none => exact walkOnStep_none q
  | some oe =>
      simp only [cleanOpt] at hc
      rw [walkOnStep_some, walkExpr_id oe q Option.none hc]

theorem walkGroupExprs_id (gb : GroupExprs) : ∀ q : Query,
    cleanGs false gb = true → walkGroupExprs q gb = some q := by
  intro q hc
  cases gb with
  | nil => exact walkGroupExprs_nil q
  | cons e tl =>
      simp only [cleanGs, Bool.and_eq_true] at hc
      rw [walkGroupExprs_cons, walkExpr_id e q Option.none hc.1, Option.some_bind,
        walkGroupExprs_id tl q hc.2]
termination_by sizeOf gb

theorem walkOrderItems_id (ob : OrderItems) : ∀ q : Query,
    cleanOs false ob = true → walkOrderItems q ob = some q := by
  intro q hc
  cases ob with
  | nil => exact walkOrderItems_nil q
  | cons o1 tl =>
      cases o1 with
      | mk e dir =>
          simp only [cleanOs, Bool.and_eq_true] at hc
          rw [walkOrderItems_cons, walkExpr_id e q Option.none hc.1, Option.some_bind,
            walkOrderItems_id tl q hc.2]
termination_by sizeOf ob

theorem walkTableE_id (t : TableE) (q : Query) (hj : joinFreeT t = true) :
    walkTableE q t = some q := by
  cases t with
  | aliasedT tn al => exact walkTableE_aliasedT q tn al
  | joinT l r oc jt => exact absurd hj (by simp [joinFreeT])

theorem walkTableEs_id (ts : TableEs) : ∀ q : Query,
    joinFreeTs ts = true → walkTableEs q ts = some q := by
  intro q hj
  cases ts with
  | nil => exact walkTableEs_nil q
  | cons t tl =>
      simp only [joinFreeTs, Bool.and_eq_true] at hj
      rw [walkTableEs_cons, walkTableE_id t q hj.1, Option.some_bind,
        walkTableEs_id tl q hj.2]
termination_by sizeOf ts

theorem walkLimitChildren_id (ln : LimitN) (q : Query)
    (hc : (match ln with | .mk off rc => cleanOpt false off && cleanE false rc) = true) :
    walkLimitChildren q ln = some q := by
  cases ln with
  | mk off rc =>
      simp only [Bool.and_eq_true] at hc
      rw [walkLimitChildren_mk, walkOnStep_id off q hc.1, Option.some_bind,
        walkExpr_id rc q Option.none hc.2]

/-! ## The select loop only shapes the projection on clean items -/

mutual
theorem hase_proj (e : SqlExpr) : ∀ (q : Query) (al : String) (r : Query × Bool × Bool),
    cleanE false e = true → handleAliasedSelectExpr q false false e al = some r →
    ∃ p, r = ({q with projection := p}, false, false) := by
  intro q al r hc h
  cases e with
  | colName qu cn =>
      rw [hase_colName] at h
      injection h with h
      exact ⟨_, h.symm⟩
  | sqlVal ty v =>
      rw [hase_sqlVal] at h
      injection h with h
      exact ⟨_, h.symm⟩
  | funcE n d args => exact absurd hc (by simp [cleanE])
  | subq s => exact absurd hc (by simp [cleanE])
  | parenE inner =>
      rw [hase_parenE] at h
      simp only [cleanE] at hc
      exact hase_proj inner q al r hc h
  | cmp op l rr =>
      rw [hase_cmp] at h; injection h with h; exact ⟨q.projection, h.symm⟩
  | andE l rr =>
      rw [hase_andE] at h; injection h with h; exact ⟨q.projection, h.symm⟩
  | orE l rr =>
      rw [hase_orE] at h; injection h with h; exact ⟨q.projection, h.symm⟩
  | rangeCond l lo hi =>
      rw [hase_rangeCond] at h; injection h with h; exact ⟨q.projection, h.symm⟩
  | tuple vs =>
      rw [hase_tuple] at h; injection h with h; exact ⟨q.projection, h.symm⟩
termination_by sizeOf e

theorem psl_proj (items : SelItems) : ∀ (q q' : Query),
    cleanItems false items = true → parseSelectLoop q false false items = some q' →
    ∃ p, q' = {q with projection := p} := by
  intro q q' hc h
  cases items with
  | nil =>
      rw [parseSelectLoop_nil] at h
      injection h with h
      subst h
      show ∃ p, (if projLen q.projection = 0 ∧ q.operation ≠ "aggregate"
        then {q with projection := none} else q) = {q with projection := p}
      split
      · exact ⟨none, rfl⟩
      · exact ⟨q.projection, rfl⟩
  | cons it tl =>
      simp only [cleanItems, Bool.and_eq_true] at hc
      cases it with
      | star sq =>
          rw [parseSelectLoop_star] at h
          injection h with h
          exact ⟨none, h.symm⟩
      | aliased e al =>
          rw [parseSelectLoop_aliased] at h
          obtain ⟨r, hr, htl⟩ := bindO_eq_some h
          obtain ⟨p1, hp1⟩ := hase_proj e q al r hc.1 hr
          rw [hp1] at htl
          obtain ⟨p2, hp2⟩ := psl_proj tl _ q' hc.2 htl
          exact ⟨p2, hp2⟩
termination_by sizeOf items
end

/-! ## The flat shape of `handleSelectNode` -/

theorem setup_joinFree (frm : TableEs) : ∀ q : Query, joinFreeTs frm = true →
    ∃ c, setupQueryFromClause q frm = {q with collection := c} := by
  intro q hj
  cases frm with
  | nil => exact ⟨q.collection, rfl⟩
  | cons t tl =>
      simp only [joinFreeTs, Bool.and_eq_true] at hj
      cases t with
      | joinT l r oc jt => exact absurd hj.1 (by simp [joinFreeT])
      | aliasedT table al =>
          show ∃ c, setupQueryFromClause (handleAliasedTable q table) tl
            = {q with collection := c}
          obtain ⟨c, hc⟩ := setup_joinFree tl (handleAliasedTable q table) hj.2
          rw [hc]
          unfold handleAliasedTable
          split
          · exact ⟨c, rfl⟩
          · exact ⟨c, rfl⟩
termination_by sizeOf frm

theorem addHavingClause_op (q : Query) (hv : OptExpr) :
    (addHavingClause q hv).operation = q.operation := by
  unfold addHavingClause
  split
  · rfl
  · split
    · rfl
    · rfl

theorem setup_op (frm : TableEs) : ∀ q : Query,
    (setupQueryFromClause q frm).operation = q.operation ∨
    (setupQueryFromClause q frm).operation = "aggregate" := by
  intro q
  cases frm with
  | nil => exact Or.inl rfl
  | cons t tl =>
      cases t with
      | joinT l r oc jt => exact Or.inr rfl
      | aliasedT table al =>
          show (setupQueryFromClause (handleAliasedTable q table) tl).operation
              = q.operation ∨ _
          cases setup_op tl (handleAliasedTable q table) with
          | inl h =>
              refine Or.inl (h.trans ?_)
              unfold handleAliasedTable
              split
              · rfl
              · rfl
          | inr h => exact Or.inr h
termination_by sizeOf frm

theorem parseGroupBy_op (q : Query) (g : GroupExprs) (hv : OptExpr) :
    (parseGroupBy q g hv).operation = q.operation ∨
    (parseGroupBy q g hv).operation = "aggregate" := by
  unfold parseGroupBy
  split
  · exact Or.inl rfl
  · rw [addHavingClause_op]
    exact Or.inr rfl

theorem buildAggregatePipelineSort_op (q : Query) (o : OrderItems) :
    (buildAggregatePipelineSort q o).operation = q.operation ∨
    (buildAggregatePipelineSort q o).operation = "aggregate" := by
  show (if (buildSortStage o).length > 0
    then ({q with
      operation := "aggregate"
      pipeline := q.pipeline ++ [[("$sort", .doc (buildSortStage o))]]} : Query)
    else q).operation = q.operation ∨
    (if (buildSortStage o).length > 0
    then ({q with
      operation := "aggregate"
      pipeline := q.pipeline ++ [[("$sort", .doc (buildSortStage o))]]} : Query)
    else q).operation = "aggregate"
  split
  · exact Or.inr rfl
  · exact Or.inl rfl

theorem parseOrderBy_op (q : Query) (o : OrderItems) :
    (parseOrderBy q o).operation = q.operation ∨
    (parseOrderBy q o).operation = "aggregate" := by
  cases o with
  | nil => exact Or.inl rfl
  | cons o1 tl =>
      show (if q.operation ≠ "aggregate" then
          (if (buildSimpleSort (.cons o1 tl)).length > 0
            then {q with sort := buildSimpleSort (.cons o1 tl)}
            else buildAggregatePipelineSort q (.cons o1 tl))
        else buildAggregatePipelineSort q (.cons o1 tl)).operation
          = q.operation ∨
        (if q.operation ≠ "aggregate" then
          (if (buildSimpleSort (.cons o1 tl)).length > 0
            then {q with sort := buildSimpleSort (.cons o1 tl)}
            else buildAggregatePipelineSort q (.cons o1 tl))
        else buildAggregatePipelineSort q (.cons o1 tl)).operation
          = "aggregate"
      split
      · split
        · exact Or.inl rfl
        · exact buildAggregatePipelineSort_op q (.cons o1 tl)
      · exact buildAggregatePipelineSort_op q (.cons o1 tl)

theorem hsnChain_opv (q2 : Query) (g : GroupExprs) (hv : OptExpr) (ob : OrderItems) :
    (parseOrderBy (parseGroupBy q2 g hv) ob).operation = q2.operation ∨
    (parseOrderBy (parseGroupBy q2 g hv) ob).operation = "aggregate" := by
  rcases parseOrderBy_op (parseGroupBy q2 g hv) ob with ho | ho
  · rcases parseGroupBy_op q2 g hv with hg | hg
    · exact Or.inl (ho.trans hg)
    · exact Or.inr (ho.trans hg)
  · exact Or.inr ho

theorem distFind_opv (q1 : Query) (dist : String) :
    (if dist ≠ "" then {q1 with operation := "distinct"}
      else if q1.operation = "" then {q1 with operation := "find"} else q1).operation
        = q1.operation ∨
    (if dist ≠ "" then {q1 with operation := "distinct"}
      else if q1.operation = "" then {q1 with operation := "find"} else q1).operation
        = "distinct" ∨
    (if dist ≠ "" then {q1 with operation := "distinct"}
      else if q1.operation = "" then {q1 with operation := "find"} else q1).operation
        = "find" := by
  split
  · exact Or.inr (Or.inl rfl)
  · split
    · exact Or.inr (Or.inr rfl)
    · exact Or.inl rfl

theorem collSet_op (q : Query) (frm : TableEs) :
    (if q.collection = "" then setupQueryFromClause q frm else q).operation = q.operation ∨
    (if q.collection = "" then setupQueryFromClause q frm else q).operation
      = "aggregate" := by
  split
  · exact setup_op frm q
  · exact Or.inl rfl

theorem hsnAux_opv (q0 : Query) (dist : String) (g : GroupExprs) (hv : OptExpr)
    (ob : OrderItems) :
    (parseOrderBy (parseGroupBy (if dist ≠ "" then {q0 with operation := "distinct"}
      else if q0.operation = "" then {q0 with operation := "find"} else q0) g hv)
        ob).operation = q0.operation ∨
    (parseOrderBy (parseGroupBy (if dist ≠ "" then {q0 with operation := "distinct"}
      else if q0.operation = "" then {q0 with operation := "find"} else q0) g hv)
        ob).operation = "distinct" ∨
    (parseOrderBy (parseGroupBy (if dist ≠ "" then {q0 with operation := "distinct"}
      else if q0.operation = "" then {q0 with operation := "find"} else q0) g hv)
        ob).operation = "find" ∨
    (parseOrderBy (parseGroupBy (if dist ≠ "" then {q0 with operation := "distinct"}
      else if q0.operation = "" then {q0 with operation := "find"} else q0) g hv)
        ob).operation = "aggregate" := by
  rcases hsnChain_opv (if dist ≠ "" then {q0 with operation := "distinct"}
      else if q0.operation = "" then {q0 with operation := "find"} else q0) g hv ob
    with h | h
  · rcases distFind_opv q0 dist with h2 | h2 | h2
    · exact Or.inl (h.trans h2)
    · exact Or.inr (Or.inl (h.trans h2))
    · exact Or.inr (Or.inr (Or.inl (h.trans h2)))
  · exact Or.inr (Or.inr (Or.inr h))

/-- The only operations `handleSelectNode` can leave: the incoming one or
one of `distinct`, `find`, `aggregate`. -/
theorem handleSelectNode_opv (q : Query) (s : SelectStmt) :
    (handleSelectNode q s).operation = q.operation ∨
    (handleSelectNode q s).operation = "distinct" ∨
    (handleSelectNode q s).operation = "find" ∨
    (handleSelectNode q s).operation = "aggregate" := by
  cases s with
  | mk dist items frm w g hv ob lm =>
      rcases hsnAux_opv (if q.collection = "" then setupQueryFromClause q frm else q)
        dist g hv ob with h | h | h | h
      · rcases collSet_op q frm with h0 | h0
        · exact Or.inl (h.trans h0)
        · exact Or.inr (Or.inr (Or.inr (h.trans h0)))
      · exact Or.inr (Or.inl h)
      · exact Or.inr (Or.inr (Or.inl h))
      · exact Or.inr (Or.inr (Or.inr h))

/-- With no GROUP BY, no ORDER BY and a join-free FROM clause,
`handleSelectNode` only sets the collection and the operation. -/
theorem handleSelectNode_flat (q : Query) (d : String) (items : SelItems)
    (frm : TableEs) (w : OptExpr) (hv : OptExpr) (lm : OptLimit)
    (hj : joinFreeTs frm = true) :
    ∃ c o2, handleSelectNode q (.mk d items frm w .nil hv .nil lm)
      = {q with collection := c, operation := o2} := by
  have hX1 : ∃ c, (if q.collection = "" then setupQueryFromClause q frm else q)
      = {q with collection := c} := by
    split
    · exact setup_joinFree frm q hj
    · exact ⟨q.collection, rfl⟩
  obtain ⟨c, hc⟩ := hX1
  show ∃ c o2, (if d ≠ "" then
      {(if q.collection = "" then setupQueryFromClause q frm else q) with
        operation := "distinct"}
    else if (if q.collection = "" then setupQueryFromClause q frm else q).operation = ""
      then {(if q.collection = "" then setupQueryFromClause q frm else q) with
        operation := "find"}
      else (if q.collection = "" then setupQueryFromClause q frm else q))
    = {q with collection := c, operation := o2}
  rw [hc]
  split
  · exact ⟨c, "distinct", rfl⟩
  · split
    · exact ⟨c, "find", rfl⟩
    · exact ⟨c, q.operation, rfl⟩

theorem Build_ok (s : SelectStmt) (q : Query) :
    Build (.ok s) q =
      (match buildQuery s q with
       | none => none
       | some q1 => some (q1, none)) := rfl

theorem buildQuery_eqn (s : SelectStmt) (q : Query) :
    buildQuery s q =
      (match walkSelect s q with
       | none => none
       | some q1 => some (finalizeQuery q1 s)) := rfl

def C2cexItems : SelItems := .cons (.star "") .nil
def C2cexFrm : TableEs :=
  .cons (.joinT (.aliasedT "t1" "") (.aliasedT "t2" "")
    (.some (.cmp "=" (.colName "t1" "a") (.colName "t2" "b"))) "join") .nil
def C2cexLim : LimitN := .mk .none (.sqlVal .intVal "1")
def C2cexAst : SelectStmt :=
  .mk "" C2cexItems C2cexFrm .none .nil .none .nil (.some C2cexLim)

def C2cexQ0 : Query := {NewQuery with operation := "aggregate"}
def C2cexQ1 : Query := {C2cexQ0 with projection := none}
def C2cexLkup : Doc :=
  [("$lookup", .doc [("from", .str "t2"), ("as", .str "t2"), ("localField", .str "b")])]
def C2cexQ2 : Query :=
  {C2cexQ1 with
    collection := "t1"
    pipeline := [C2cexLkup]}
def C2cexQF : Query :=
  {C2cexQ2 with
    operation := "findone"
    limit := some 1}

theorem C2cex_build : buildQuery C2cexAst NewQuery = some C2cexQF := by
  have e1 : parseSelectLoop C2cexQ0 false false C2cexItems = some C2cexQ1 := rfl
  have e2 : walkSelItems C2cexQ1 C2cexItems = some C2cexQ1 := rfl
  have e3 : walkTableEs C2cexQ1 C2cexFrm = some C2cexQ2 := rfl
  have e4 : walkLimitStep C2cexQ2 (.some C2cexLim) = some C2cexQF := rfl
  have hstep : walkSelect C2cexAst NewQuery =
      Option.bind (parseSelectLoop C2cexQ0 false false C2cexItems) (fun qs =>
      Option.bind (walkSelItems qs C2cexItems) (fun q1 =>
      Option.bind (walkTableEs q1 C2cexFrm) (fun q2 =>
      Option.bind (walkWhereStep q2 .none) (fun q3 =>
      Option.bind (walkGroupExprs q3 .nil) (fun q4 =>
      Option.bind (walkWhereStep q4 .none) (fun q5 =>
      Option.bind (walkOrderItems q5 .nil) (fun q6 =>
      walkLimitStep q6 (.some C2cexLim)))))))) := rfl
  have hw : walkSelect C2cexAst NewQuery = some C2cexQF := by
    rewrite [hstep, e1]
    simp only [Option.some_bind]
    rewrite [e2]
    simp only [Option.some_bind]
    rewrite [e3]
    simp only [Option.some_bind, walkWhereStep_none, walkGroupExprs_nil,
      walkOrderItems_nil]
    exact e4
  have ef : finalizeQuery C2cexQF C2cexAst = C2cexQF := rfl
  rewrite [buildQuery_eqn, hw]
  exact congrArg some ef

def innAst : SelectStmt :=
  .mk "" (.cons (.aliased (.colName "" "a") "") .nil) (.cons (.aliasedT "t" "") .nil)
    .none .nil .none .nil (.some (.mk .none (.sqlVal .intVal "1")))
def innQF : Query :=
  {NewQuery with
    operation := "findone"
    collection := "t"
    projection := some [("a", .int 1)]
    limit := some 1}

theorem inn_build : buildQuery innAst NewQuery = some innQF := rfl

def C4cexItems : SelItems := .cons (.aliased (.subq innAst) "x") .nil
def C4cexFrm : TableEs := .cons (.aliasedT "u" "") .nil
def C4cexLim : LimitN := .mk .none (.sqlVal .intVal "5")
def C4cexAst : SelectStmt :=
  .mk "" C4cexItems C4cexFrm .none .nil .none .nil (.some C4cexLim)

def C4cexQ0 : Query := {NewQuery with operation := "find", collection := "u"}
def C4cexPipe : List Doc :=
  [[("$lookup", .doc [("from", .str "t"), ("localField", .str "id"),
      ("foreignField", .str "user_id"), ("as", .str "subquery_result")])],
   [("$addFields", .doc [("x", .doc [("$size", .str "$subquery_result")])])]]
def C4cexQs : Query :=
  {C4cexQ0 with
    operation := "aggregate"
    pipeline := C4cexPipe}
def C4cexQ1 : Query :=
  {C4cexQs with
    operation := "findone"
    projection := some [("a", .int 1)]
    limit := some 1}
def C4cexQF : Query := {C4cexQ1 with limit := some 5}

theorem C4cex_build : buildQuery C4cexAst NewQuery = some C4cexQF := by
  have hInner : walkSelect innAst NewQuery = some innQF := rfl
  have eA : appendSubqueryPipeline C4cexQ0 (finalizeQuery innQF innAst) "x" = C4cexQs := rfl
  have e1 : parseSelectLoop C4cexQ0 false false C4cexItems = some C4cexQs := by
    rewrite [show (C4cexItems : SelItems) = .cons (.aliased (.subq innAst) "x") .nil
      from rfl]
    rewrite [parseSelectLoop_aliased, hase_subq, hInner]
    simp only [Option.some_bind]
    rewrite [eA, parseSelectLoop_nil]
    rfl
  have eH : handleAliasedExpr C4cexQs (.subq innAst) = some C4cexQs := by
    rewrite [haE_subq, hInner]
    simp only [Option.some_bind]
    rfl
  have hInner2 : walkSelect innAst C4cexQs = some C4cexQ1 := rfl
  have e2 : walkSelItems C4cexQs C4cexItems = some C4cexQ1 := by
    rewrite [show (C4cexItems : SelItems) = .cons (.aliased (.subq innAst) "x") .nil
      from rfl]
    rewrite [walkSelItems_cons, walkSelItem_aliased, eH]
    simp only [Option.some_bind]
    rewrite [walkExpr_subq, hInner2]
    simp only [Option.some_bind]
    exact walkSelItems_nil C4cexQ1
  have e3 : walkTableEs C4cexQ1 C4cexFrm = some C4cexQ1 := rfl
  have e4 : walkLimitStep C4cexQ1 (.some C4cexLim) = some C4cexQF := rfl
  have hstep : walkSelect C4cexAst NewQuery =
      Option.bind (parseSelectLoop C4cexQ0 false false C4cexItems) (fun qs =>
      Option.bind (walkSelItems qs C4cexItems) (fun q1 =>
      Option.bind (walkTableEs q1 C4cexFrm) (fun q2 =>
      Option.bind (walkWhereStep q2 .none) (fun q3 =>
      Option.bind (walkGroupExprs q3 .nil) (fun q4 =>
      Option.bind (walkWhereStep q4 .none) (fun q5 =>
      Option.bind (walkOrderItems q5 .nil) (fun q6 =>
      walkLimitStep q6 (.some C4cexLim)))))))) := rfl
  have hw : walkSelect C4cexAst NewQuery = some C4cexQF := by
    rewrite [hstep, e1]
    simp only [Option.some_bind]
    rewrite [e2]
    simp only [Option.some_bind]
    rewrite [e3]
    simp only [Option.some_bind, walkWhereStep_none, walkGroupExprs_nil,
      walkOrderItems_nil]
    exact e4
  have ef : finalizeQuery C4cexQF C4cexAst = C4cexQF := rfl
  rewrite [buildQuery_eqn, hw]
  exact congrArg some ef

def starArgs : SelItems := .cons (.star "") .nil
def C6grpCount : Doc :=
  [("$group", .doc [("_id", .nullV), ("count", .doc [("$sum", .int 1)])])]
def C6grpTotal : Doc :=
  [("$group", .doc [("_id", .nullV), ("total", .doc [("$sum", .int 1)])])]

def C6aItems : SelItems := .cons (.aliased (.funcE "count" false starArgs) "") .nil
def C6aFrm : TableEs := .cons (.aliasedT "t" "") .nil
def C6aAst : SelectStmt := .mk "" C6aItems C6aFrm .none .nil .none .nil .none
def C6aQ0 : Query := {NewQuery with operation := "find", collection := "t"}
def C6aQs : Query :=
  {C6aQ0 with
    operation := "aggregate"
    pipeline := [C6grpCount]}
def C6aQF : Query := {C6aQs with projection := none}

theorem C6a_build : buildQuery C6aAst NewQuery = some C6aQF := by
  have e1 : parseSelectLoop C6aQ0 false false C6aItems = some C6aQs := rfl
  have e2 : walkSelItems C6aQs C6aItems = some C6aQF := rfl
  have e3 : walkTableEs C6aQF C6aFrm = some C6aQF := rfl
  have hstep : walkSelect C6aAst NewQuery =
      Option.bind (parseSelectLoop C6aQ0 false false C6aItems) (fun qs =>
      Option.bind (walkSelItems qs C6aItems) (fun q1 =>
      Option.bind (walkTableEs q1 C6aFrm) (fun q2 =>
      Option.bind (walkWhereStep q2 .none) (fun q3 =>
      Option.bind (walkGroupExprs q3 .nil) (fun q4 =>
      Option.bind (walkWhereStep q4 .none) (fun q5 =>
      Option.bind (walkOrderItems q5 .nil) (fun q6 =>
      walkLimitStep q6 .none))))))) := rfl
  have hw : walkSelect C6aAst NewQuery = some C6aQF := by
    rewrite [hstep, e1]
    simp only [Option.some_bind]
    rewrite [e2]
    simp only [Option.some_bind]
    rewrite [e3]
    simp only [Option.some_bind, walkWhereStep_none, walkGroupExprs_nil,
      walkOrderItems_nil, walkLimitStep_none]
  have ef : finalizeQuery C6aQF C6aAst = C6aQF := rfl
  rewrite [buildQuery_eqn, hw]
  exact congrArg some ef

def C6bItems : SelItems :=
  .cons (.aliased (.funcE "count" false (.cons (.star "q") .nil)) "") .nil
def C6bFrm : TableEs := .cons (.aliasedT "questions" "q") .nil
def C6bAst : SelectStmt := .mk "" C6bItems C6bFrm .none .nil .none .nil .none
def C6bQ0 : Query := {NewQuery with operation := "find", collection := "questions"}
def C6bQs : Query :=
  {C6bQ0 with
    operation := "aggregate"
    pipeline := [C6grpCount]}
def C6bQF : Query :=
  {C6bQs with
    operation := "count"
    projection := none}

theorem C6b_build : buildQuery C6bAst NewQuery = some C6bQF := by
  have e1 : parseSelectLoop C6bQ0 false false C6bItems = some C6bQs := rfl
  have e2 : walkSelItems C6bQs C6bItems = some C6bQF := rfl
  have e3 : walkTableEs C6bQF C6bFrm = some C6bQF := rfl
  have hstep : walkSelect C6bAst NewQuery =
      Option.bind (parseSelectLoop C6bQ0 false false C6bItems) (fun qs =>
      Option.bind (walkSelItems qs C6bItems) (fun q1 =>
      Option.bind (walkTableEs q1 C6bFrm) (fun q2 =>
      Option.bind (walkWhereStep q2 .none) (fun q3 =>
      Option.bind (walkGroupExprs q3 .nil) (fun q4 =>
      Option.bind (walkWhereStep q4 .none) (fun q5 =>
      Option.bind (walkOrderItems q5 .nil) (fun q6 =>
      walkLimitStep q6 .none))))))) := rfl
  have hw : walkSelect C6bAst NewQuery = some C6bQF := by
    rewrite [hstep, e1]
    simp only [Option.some_bind]
    rewrite [e2]
    simp only [Option.some_bind]
    rewrite [e3]
    simp only [Option.some_bind, walkWhereStep_none, walkGroupExprs_nil,
      walkOrderItems_nil, walkLimitStep_none]
  have ef : finalizeQuery C6bQF C6bAst = C6bQF := rfl
  rewrite [buildQuery_eqn, hw]
  exact congrArg some ef

def C6cItems : SelItems := .cons (.aliased (.funcE "count" false starArgs) "total") .nil
def C6cFrm : TableEs := .cons (.aliasedT "users" "") .nil
def C6cAst : SelectStmt := .mk "" C6cItems C6cFrm .none .nil .none .nil .none
def C6cQ0 : Query := {NewQuery with operation := "find", collection := "users"}
def C6cQs : Query :=
  {C6cQ0 with
    operation := "aggregate"
    pipeline := [C6grpTotal]}
def C6cQF : Query :=
  {C6cQs with
    projection := none
    pipeline := [C6grpTotal, C6grpCount]}

theorem C6c_build : buildQuery C6cAst NewQuery = some C6cQF := by
  have e1 : parseSelectLoop C6cQ0 false false C6cItems = some C6cQs := rfl
  have e2 : walkSelItems C6cQs C6cItems = some C6cQF := rfl
  have e3 : walkTableEs C6cQF C6cFrm = some C6cQF := rfl
  have hstep : walkSelect C6cAst NewQuery =
      Option.bind (parseSelectLoop C6cQ0 false false C6cItems) (fun qs =>
      Option.bind (walkSelItems qs C6cItems) (fun q1 =>
      Option.bind (walkTableEs q1 C6cFrm) (fun q2 =>
      Option.bind (walkWhereStep q2 .none) (fun q3 =>
      Option.bind (walkGroupExprs q3 .nil) (fun q4 =>
      Option.bind (walkWhereStep q4 .none) (fun q5 =>
      Option.bind (walkOrderItems q5 .nil) (fun q6 =>
      walkLimitStep q6 .none))))))) := rfl
  have hw : walkSelect C6cAst NewQuery = some C6cQF := by
    rewrite [hstep, e1]
    simp only [Option.some_bind]
    rewrite [e2]
    simp only [Option.some_bind]
    rewrite [e3]
    simp only [Option.some_bind, walkWhereStep_none, walkGroupExprs_nil,
      walkOrderItems_nil, walkLimitStep_none]
  have ef : finalizeQuery C6cQF C6cAst = C6cQF := rfl
  rewrite [buildQuery_eqn, hw]
  exact congrArg some ef

def C9uuid : String := "695FF995-5DC4-4FBE-B80C-2621360D578F"
def C9whereE : SqlExpr :=
  .orE (.cmp "=" (.colName "" "_id") (.sqlVal .strVal C9uuid))
       (.cmp "=" (.colName "" "theme") (.sqlVal .strVal "x"))
def C9ast : SelectStmt :=
  .mk "" (.cons (.star "") .nil) (.cons (.aliasedT "users" "") .nil)
    (.some C9whereE) .nil .none .nil .none
def C9q0 : Query := {NewQuery with operation := "find", collection := "users"}
def C9q1 : Query := {C9q0 with projection := none}

theorem C9_build_none : buildQuery C9ast NewQuery = none := by
  have e1 : parseSelectLoop C9q0 false false (.cons (.star "") .nil) = some C9q1 := rfl
  have e2 : walkSelItems C9q1 (.cons (.star "") .nil) = some C9q1 := rfl
  have e3 : walkTableEs C9q1 (.cons (.aliasedT "users" "") .nil) = some C9q1 := rfl
  have eW : parseWhere C9q1 (.some C9whereE) = none := rfl
  have e4 : walkWhereStep C9q1 (.some C9whereE) = none := by
    rewrite [walkWhereStep_some, eW]
    rfl
  have hstep : walkSelect C9ast NewQuery =
      Option.bind (parseSelectLoop C9q0 false false (.cons (.star "") .nil)) (fun qs =>
      Option.bind (walkSelItems qs (.cons (.star "") .nil)) (fun q1 =>
      Option.bind (walkTableEs q1 (.cons (.aliasedT "users" "") .nil)) (fun q2 =>
      Option.bind (walkWhereStep q2 (.some C9whereE)) (fun q3 =>
      Option.bind (walkGroupExprs q3 .nil) (fun q4 =>
      Option.bind (walkWhereStep q4 .none) (fun q5 =>
      Option.bind (walkOrderItems q5 .nil) (fun q6 =>
      walkLimitStep q6 .none))))))) := rfl
  have hw : walkSelect C9ast NewQuery = none := by
    rewrite [hstep, e1]
    simp only [Option.some_bind]
    rewrite [e2]
    simp only [Option.some_bind]
    rewrite [e3]
    simp only [Option.some_bind]
    rewrite [e4]
    rfl
  rewrite [buildQuery_eqn, hw]
  rfl

def w2Ast : SelectStmt :=
  .mk "" (.cons (.aliased (.colName "" "a") "") .nil) (.cons (.aliasedT "t" "") .nil)
    .none .nil .none .nil .none
def w2QF : Query :=
  {NewQuery with
    operation := "find"
    collection := "t"
    projection := some [("a", .int 1)]}

theorem w2_build : buildQuery w2Ast NewQuery = some w2QF := rfl

/-- **C3** — Amended: the promotion is not monotone.  `parseLimit` on a
`LIMIT 1` clause (no offset) sets the operation to `findone` and the limit
to 1 *unconditionally*, for every incoming plan — including one whose
operation a previous translator set to `aggregate`.  The counterexample
exhibits the demotion on the plan produced by a JOIN. -/
theorem C3_limit_promotion_unconditional (q : Query) (ty : ValTy) :
    parseLimit q (.mk .none (.sqlVal ty "1")) =
      some {q with
        operation := "findone"
        limit := some 1} := rfl

/-- **C7** — For every raw SQL string the parser rejects (modelled as the
`.error msg` result of parsing), `Build` returns the syntax-error message
alongside the plan it was passed, with no field modified: translation does
not begin. -/
theorem C7_parse_error_passthrough (msg : String) (q : Query) :
    Build (.error msg) q = some (q, some msg) := rfl

/-- **C8** — For a WHERE clause whose top-level expression is `a OR b` in a
non-aggregate plan, exactly one `$or` entry is appended to the filter, whose
value is the two-element array of the two branches each lowered against a
fresh empty plan (`NewQuery`) with its filter reduced to a single document
via `mapOfD`. -/
theorem C8_or_single_entry (q lq rq : Query) (a b : SqlExpr)
    (hq : q.operation ≠ "aggregate")
    (hl : parseWhereExpr NewQuery a = some lq)
    (hr : parseWhereExpr NewQuery b = some rq) :
    parseWhereExpr q (.orE a b) =
      some {q with filter := q.filter ++
        [("$or", .arr [.doc (mapOfD lq.filter), .doc (mapOfD rq.filter)])]} := by
  rw [pwe_orE, hl, Option.some_bind, hr, Option.some_bind]

def C8a : SqlExpr := .cmp "=" (.colName "" "x") (.sqlVal .strVal "1")
def C8b : SqlExpr := .cmp "=" (.colName "" "y") (.sqlVal .strVal "2")
def C8lq : Query := {NewQuery with filter := [("x", .str "1")]}
def C8rq : Query := {NewQuery with filter := [("y", .str "2")]}

theorem C8_or_single_entry_witness :
    (NewQuery.operation ≠ "aggregate") ∧
    parseWhereExpr NewQuery C8a = some C8lq ∧
    parseWhereExpr NewQuery C8b = some C8rq ∧
    parseWhereExpr NewQuery (.orE C8a C8b) =
      some {NewQuery with filter := NewQuery.filter ++
        [("$or", .arr [.doc (mapOfD C8lq.filter), .doc (mapOfD C8rq.filter)])]} :=
  ⟨by decide, rfl, rfl, C8_or_single_entry NewQuery C8lq C8rq C8a C8b (by decide) rfl rfl⟩

/-- **C10** — Amended: the nil-pointer dereference in `parseLimit` (modelled
as the `none` result of `parseLimitDeref` on a plan with no limit) is reached
exactly when the row count is *not* an `SQLVal` (a bind variable **is** an
`SQLVal` and returns early with the limit pointer set) and the offset clause
does not itself take the early error return. -/
theorem C10_parselimit_totality (q : Query) (off : OptExpr) (rc : SqlExpr)
    (hq : q.limit = none)
    (hrc : ∀ (ty : ValTy) (v : String), rc ≠ .sqlVal ty v)
    (hoff : ∀ (ty : ValTy) (v : String), off = .some (.sqlVal ty v) →
      (goParseInt v).2 = true) :
    parseLimit q (.mk off rc) = none := by
  cases rc
  case sqlVal ty v => exact absurd rfl (hrc ty v)
  all_goals
    show parseLimitOffset q off = none
    cases off with
    | none => simp [parseLimitOffset, parseLimitDeref, hq]
    | some oe =>
        cases oe
        case sqlVal ty v =>
          have hp := hoff ty v rfl
          simp [parseLimitOffset, parseLimitDeref, hq, hp]
        all_goals simp [parseLimitOffset, parseLimitDeref, hq]

theorem C10_parselimit_totality_witness :
    NewQuery.limit = none ∧
    (∀ (ty : ValTy) (v : String), (SqlExpr.colName "" "x") ≠ .sqlVal ty v) ∧
    (∀ (ty : ValTy) (v : String), (OptExpr.none) = .some (.sqlVal ty v) →
      (goParseInt v).2 = true) ∧
    parseLimit NewQuery (.mk .none (.colName "" "x")) = none :=
  ⟨rfl, fun ty v h => SqlExpr.noConfusion h, fun ty v h => OptExpr.noConfusion h,
    C10_parselimit_totality NewQuery .none (.colName "" "x") rfl
      (fun ty v h => SqlExpr.noConfusion h) (fun ty v h => OptExpr.noConfusion h)⟩

/-- The original C10 is false on its own example: `LIMIT ?` parses as an
`SQLVal` of type `ValArg`, `makeint64Pointer` returns a non-nil pointer to 0
alongside the error, and `parseLimit` returns early — no dereference, no
panic.  Likewise an offset `SQLVal` that fails to parse returns early and
escapes the dereference. -/
theorem C10_bindvar_counterexample :
    parseLimit NewQuery (.mk .none (.sqlVal .valArg ":v1"))
      = some {NewQuery with limit := some 0} ∧
    parseLimit NewQuery (.mk (.some (.sqlVal .strVal "x")) (.funcE "now" false .nil))
      = some {NewQuery with offset := some 0} := ⟨rfl, rfl⟩

theorem parseID_nonempty_isSome (v c : String) (hc : c ≠ "") :
    (parseID v c).isSome = true := by
  unfold parseID
  split
  next hcanon =>
    cases hd : c.data with
    | nil =>
        exfalso
        apply hc
        cases c with
        | mk l => cases hd; rfl
    | cons ch tl =>
        simp only []
        split
        · obtain ⟨pre, bytes, hdec, hcs, hre, hlen⟩ := csuuidAux_canonical v.data hcanon
          rw [show CSUUID v = csuuidAux v.data from rfl, hcs]
          rfl
        · rfl
  · rfl

/-- **C4** — Amended: whenever `Build` succeeds and the plan's operation is
`findone`, the limit pointer is set; its value is exactly 1 provided the
statement is clean (no subquery select items — `cleanStmt true`).  With a
subquery item the inner `LIMIT 1` can install `findone` while the outer
`LIMIT` overwrites the value (see the counterexample, where it ends at 5). -/
theorem C4_findone_limit (s : SelectStmt) (q' : Query)
    (h : Build (.ok s) NewQuery = some (q', none))
    (hf : q'.operation = "findone") :
    q'.limit.isSome = true ∧ (cleanStmt true s = true → q'.limit = some 1) := by
  rw [Build_ok] at h
  split at h
  · exact Option.noConfusion h
  next q1 heq0 =>
    injection h with h
    injection h with h1 h2
    rw [h1] at heq0
    rw [buildQuery_eqn] at heq0
    split at heq0
    · exact Option.noConfusion heq0
    next q7 hw =>
      injection heq0 with heq
      have gq7 : GoodQ q7 := walkSelect_good s NewQuery q7 hw GoodQ_NewQuery
      have hq7f : q7.operation = "findone" := by
        rcases (finalizeQuery_fields q7 s).2.1 with h2 | h2 | h2
        · rw [heq] at h2; exact h2.symm.trans hf
        · rw [heq] at h2; exact absurd (hf.symm.trans h2) (by decide)
        · rw [heq] at h2; exact absurd (hf.symm.trans h2) (by decide)
      have hlim7 : q'.limit = q7.limit := by
        rw [← heq]; exact (finalizeQuery_fields q7 s).1
      constructor
      · rw [hlim7]; exact gq7 hq7f
      · intro hclean
        cases s with
        | mk d items frm w gb hv ob lm =>
            simp only [cleanStmt, Bool.and_eq_true] at hclean
            obtain ⟨⟨⟨⟨⟨⟨hit, hts⟩, hwc⟩, hgs⟩, hhvc⟩, hosc⟩, hlmc⟩ := hclean
            rw [walkSelect_mk] at hw
            obtain ⟨qs, hs1, hw⟩ := bindO_eq_some hw
            obtain ⟨q1b, hs2, hw⟩ := bindO_eq_some hw
            obtain ⟨q2, hs3, hw⟩ := bindO_eq_some hw
            obtain ⟨q3, hs4, hw⟩ := bindO_eq_some hw
            obtain ⟨q4, hs5, hw⟩ := bindO_eq_some hw
            obtain ⟨q5, hs6, hw⟩ := bindO_eq_some hw
            obtain ⟨q6, hs7, hs8⟩ := bindO_eq_some hw
            have pAll : presLO NewQuery q6 :=
              presLO_trans (presLO_trans (handleSelectNode_presLO NewQuery _)
                  (projInit_presLO _))
                (presLO_trans (psl_presLO items true _ false false qs hit hs1)
                  (presLO_trans (walkSelItems_presLO items true qs q1b hit hs2)
                    (presLO_trans (walkTableEs_presLO frm true q1b q2 hts hs3)
                      (presLO_trans (walkWhereStep_presLO w true q2 q3 hwc hs4)
                        (presLO_trans (walkGroupExprs_presLO gb true q3 q4 hgs hs5)
                          (presLO_trans (walkWhereStep_presLO hv true q4 q5 hhvc hs6)
                            (walkOrderItems_presLO ob true q5 q6 hosc hs7)))))))
            have h6nf : q6.operation ≠ "findone" := fun hff =>
              absurd (pAll.2 hff) (by decide)
            cases lm with
            | none =>
                rw [walkLimitStep_none] at hs8
                injection hs8 with hs8
                exact absurd (hs8 ▸ hq7f) h6nf
            | some ln =>
                rw [walkLimitStep_some] at hs8
                obtain ⟨qa, h1, h2⟩ := bindO_eq_some hs8
                simp only [cleanLim] at hlmc
                have pc := walkLimitChildren_presLO ln true qa q7 hlmc h2
                have hqaf : qa.operation = "findone" := pc.2 hq7f
                rcases (parseLimit_ops h1).1 with hop | hop
                · exact absurd (hop.symm.trans hqaf) h6nf
                · rw [hlim7, pc.1, hop.2]

def simpleStmt (s : SelectStmt) : Bool :=
  cleanStmt false s && (match s with | .mk _ _ frm _ _ _ _ _ => joinFreeTs frm)

theorem walkWhereStep_filter {w : OptExpr} {q q' : Query}
    (hc : cleanOpt false w = true) (h : walkWhereStep q w = some q') :
    ∃ fl, q' = {q with filter := fl} := by
  cases w with
  | none =>
      rw [walkWhereStep_none] at h
      injection h with h
      exact ⟨q.filter, h.symm⟩
  | some wx =>
      rw [walkWhereStep_some] at h
      obtain ⟨qa, h1, h2⟩ := bindO_eq_some h
      obtain ⟨fl, rfl⟩ := parseWhere_filter hc h1
      simp only [cleanOpt] at hc
      rw [walkExpr_id wx _ Option.none hc] at h2
      injection h2 with h2
      exact ⟨fl, h2.symm⟩

theorem walkLimitStep_pipe {lm : OptLimit} {q q' : Query}
    (hc : cleanLim false lm = true) (h : walkLimitStep q lm = some q') :
    q'.pipeline = q.pipeline ∧
    (q'.operation = q.operation ∨ q'.operation = "findone") := by
  cases lm with
  | none =>
      rw [walkLimitStep_none] at h
      injection h with h
      subst h
      exact ⟨rfl, Or.inl rfl⟩
  | some ln =>
      rw [walkLimitStep_some] at h
      obtain ⟨qa, h1, h2⟩ := bindO_eq_some h
      simp only [cleanLim] at hc
      rw [walkLimitChildren_id ln qa hc] at h2
      injection h2 with h2
      subst h2
      have o := parseLimit_ops h1
      refine ⟨o.2.2.1, ?_⟩
      rcases o.1 with hop | hop
      · exact Or.inl hop
      · exact Or.inr hop.1

def needsAgg (gb : GroupExprs) (hv : OptExpr) (ob : OrderItems) (frm : TableEs) : Bool :=
  (match gb with | .nil => false | _ => true) ||
  (match hv with | .none => false | _ => true) ||
  (match ob with | .nil => false | _ => true) ||
  decide (lengthTableEs frm > 1)

theorem finalizeQuery_if (q7 : Query) (d : String) (items : SelItems) (frm : TableEs)
    (w : OptExpr) (gb : GroupExprs) (hv : OptExpr) (ob : OrderItems) (lm : OptLimit) :
    finalizeQuery q7 (.mk d items frm w gb hv ob lm) =
      (if needsAgg gb hv ob frm && q7.operation ≠ "count"
        then {q7 with operation := "aggregate"}
        else if q7.operation = "" then {q7 with operation := "find"} else q7) := rfl

theorem needsAgg_parts {gb : GroupExprs} {hv : OptExpr} {ob : OrderItems} {frm : TableEs}
    (h : needsAgg gb hv ob frm = false) :
    gb = GroupExprs.nil ∧ hv = OptExpr.none ∧ ob = OrderItems.nil := by
  cases gb with
  | cons a b => simp [needsAgg] at h
  | nil => cases hv with
    | some e => simp [needsAgg] at h
    | none => cases ob with
      | cons a b => simp [needsAgg] at h
      | nil => exact ⟨rfl, rfl, rfl⟩

/-- **C2** — Amended: for every *simple* statement (join-free FROM clause,
and select items, WHERE, GROUP BY, HAVING, ORDER BY and LIMIT clauses free
of functions, subqueries and CASE) on which `Build` succeeds, if the plan's
operation is one of `find`, `findone`, `count` or `distinct` then the
pipeline is empty.  The original claim's parenthetical is false: a JOIN
followed by `LIMIT 1` yields operation `findone` with a non-empty `$lookup`
pipeline (see the counterexample). -/
theorem C2_flat_ops_empty_pipeline (s : SelectStmt) (q' : Query)
    (hsimp : simpleStmt s = true)
    (h : Build (.ok s) NewQuery = some (q', none))
    (hop : q'.operation = "find" ∨ q'.operation = "findone" ∨
      q'.operation = "count" ∨ q'.operation = "distinct") :
    q'.pipeline = [] := by
  rw [Build_ok] at h
  split at h
  · exact Option.noConfusion h
  next q1 heq0 =>
    injection h with h
    injection h with h1 h2
    rw [h1] at heq0
    rw [buildQuery_eqn] at heq0
    split at heq0
    · exact Option.noConfusion heq0
    next q7 hw =>
      injection heq0 with heq
      cases s with
      | mk d items frm w gb hv ob lm =>
          simp only [simpleStmt, cleanStmt, Bool.and_eq_true] at hsimp
          obtain ⟨⟨⟨⟨⟨⟨⟨hit, hts⟩, hwc⟩, hgs⟩, hhvc⟩, hosc⟩, hlmc⟩, hjf⟩ := hsimp
          rw [walkSelect_mk] at hw
          obtain ⟨qs, hs1, hw⟩ := bindO_eq_some hw
          obtain ⟨q1b, hs2, hw⟩ := bindO_eq_some hw
          obtain ⟨q2, hs3, hw⟩ := bindO_eq_some hw
          obtain ⟨q3, hs4, hw⟩ := bindO_eq_some hw
          obtain ⟨q4, hs5, hw⟩ := bindO_eq_some hw
          obtain ⟨q5, hs6, hw⟩ := bindO_eq_some hw
          obtain ⟨q6, hs7, hs8⟩ := bindO_eq_some hw
          obtain ⟨pj, hpj⟩ := projInit_proj
            (handleSelectNode NewQuery (.mk d items frm w gb hv ob lm))
          obtain ⟨ps, hps⟩ := psl_proj items _ qs hit hs1
          rw [walkSelItems_id items qs hit] at hs2
          injection hs2 with e2
          subst e2
          rw [walkTableEs_id frm qs hjf] at hs3
          injection hs3 with e3
          subst e3
          obtain ⟨f3, hf3⟩ := walkWhereStep_filter hwc hs4
          subst hf3
          rw [walkGroupExprs_id gb _ hgs] at hs5
          injection hs5 with e5
          subst e5
          obtain ⟨f5, hf5⟩ := walkWhereStep_filter hhvc hs6
          subst hf5
          rw [walkOrderItems_id ob _ hosc] at hs7
          injection hs7 with e7
          subst e7
          have hlp := walkLimitStep_pipe hlmc hs8
          have hp7 : q7.pipeline = qs.pipeline := hlp.1
          have ho7 : q7.operation = qs.operation ∨ q7.operation = "findone" := hlp.2
          have hqsop : qs.operation
              = (handleSelectNode NewQuery (.mk d items frm w gb hv ob lm)).operation := by
            rw [hps, hpj]
          have hsnv := handleSelectNode_opv NewQuery (.mk d items frm w gb hv ob lm)
          have h7nc : q7.operation ≠ "count" := by
            intro hcnt
            rcases ho7 with hop7 | hop7
            · have hqc : (handleSelectNode NewQuery
                  (.mk d items frm w gb hv ob lm)).operation = "count" := by
                rw [← hqsop, ← hop7]; exact hcnt
              rcases hsnv with hv4 | hv4 | hv4 | hv4 <;>
                exact absurd (hv4.symm.trans hqc) (by decide)
            · exact absurd (hop7.symm.trans hcnt) (by decide)
          rw [finalizeQuery_if] at heq
          split at heq
          · have hagg : q'.operation = "aggregate" := by rw [← heq]
            rcases hop with h5 | h5 | h5 | h5 <;>
              exact absurd (h5.symm.trans hagg) (by decide)
          next hcond =>
            have hB : needsAgg gb hv ob frm = false := by
              cases hBB : needsAgg gb hv ob frm
              · rfl
              · exact absurd (by rw [hBB, decide_eq_true h7nc]; rfl) hcond
            obtain ⟨hgb, hhv, hob⟩ := needsAgg_parts hB
            subst hgb
            subst hhv
            subst hob
            obtain ⟨c, o2, hhsn⟩ :=
              handleSelectNode_flat NewQuery d items frm w .none lm hjf
            have hqspipe : qs.pipeline = NewQuery.pipeline := by
              rw [hps, hpj, hhsn]
            have h7pipe : q7.pipeline = [] := by
              rw [hp7, hqspipe]
              rfl
            split at heq
            · rw [← heq]
              exact h7pipe
            · rw [← heq]
              exact h7pipe


def inTupAst : SelectStmt :=
  .mk "" (.cons (.aliased (.colName "" "a") "") .nil) (.cons (.aliasedT "t" "") .nil)
    (.some (.cmp "in" (.colName "" "xId")
      (.tuple (.cons (.sqlVal .strVal "u") (.cons (.sqlVal .strVal "v") .nil)))))
    .nil .none .nil (.some (.mk .none (.sqlVal .intVal "1")))

def inTupQF : Query :=
  {NewQuery with
    operation := "findone"
    collection := "t"
    projection := some [("a", .int 1)]
    limit := some 1}

theorem C2_flat_ops_empty_pipeline_witness :
    simpleStmt inTupAst = true ∧
    Build (.ok inTupAst) NewQuery = some (inTupQF, none) ∧
    inTupQF.pipeline = [] :=
  ⟨rfl, rfl, C2_flat_ops_empty_pipeline inTupAst inTupQF rfl rfl (Or.inr (Or.inl rfl))⟩

/-- The original C2 is false: `SELECT * FROM t1 JOIN t2 ON t1.a = t2.b
LIMIT 1` builds successfully to a plan whose operation is `findone` and
whose pipeline holds the `$lookup` stage of the JOIN. -/
theorem C2_join_limit_counterexample :
    Build (.ok C2cexAst) NewQuery = some (C2cexQF, none) ∧
    C2cexQF.operation = "findone" ∧ C2cexQF.pipeline ≠ [] := by
  refine ⟨?_, rfl, fun hcl => List.noConfusion hcl⟩
  rw [Build_ok, C2cex_build]

def C3cexQF : Query :=
  {C2cexQ2 with
    operation := "findone"
    limit := some 1}

/-- The original C3 is false: after the JOIN translator has produced the
aggregate plan `C2cexQ2` (operation `aggregate`, `$lookup` in the pipeline),
the later `parseLimit` step on `LIMIT 1` changes the operation to `findone`
— an aggregate forcing (a JOIN) has occurred and the promotion happens
anyway. -/
theorem C3_aggregate_demotion_counterexample :
    C2cexQ2.operation = "aggregate" ∧
    walkTableEs C2cexQ1 C2cexFrm = some C2cexQ2 ∧
    parseLimit C2cexQ2 C2cexLim = some C3cexQF ∧
    C3cexQF.operation ≠ "aggregate" := by
  refine ⟨rfl, rfl, rfl, ?_⟩
  decide

theorem C4_findone_limit_witness :
    Build (.ok inTupAst) NewQuery = some (inTupQF, none) ∧
    inTupQF.operation = "findone" ∧
    cleanStmt true inTupAst = true ∧
    inTupQF.limit = some 1 :=
  ⟨rfl, rfl, rfl, (C4_findone_limit inTupAst inTupQF rfl rfl).2 rfl⟩

/-- The original C4 is false in general: a subquery select item whose inner
statement carries `LIMIT 1` leaves the outer plan with operation `findone`,
after which the outer `LIMIT 5` overwrites the limit value — `Build`
succeeds with operation `findone` and limit 5. -/
theorem C4_subquery_limit_counterexample :
    Build (.ok C4cexAst) NewQuery = some (C4cexQF, none) ∧
    C4cexQF.operation = "findone" ∧
    C4cexQF.limit = some 5 ∧ C4cexQF.limit ≠ some 1 := by
  refine ⟨?_, rfl, rfl, by decide⟩
  rw [Build_ok, C4cex_build]

/-- **C6** — Amended: for `SELECT COUNT(*) FROM t` (no alias, no GROUP BY)
the final operation is `aggregate` — not `count` — with the pipeline holding
the `$group` stage `{_id: null, count: {$sum: 1}}`: the bare `*` parses as a
`StarExpr`, which fails `isStarExpr`'s `AliasedExpr` test, so the `count`
path is not taken.  Only a literal `q.*` argument (printing as `q.*` inside
an `AliasedExpr`) produces operation `count`, and even then the `$group`
stage remains in the pipeline.  With an alias (`COUNT(*) AS total`) the
operation is `aggregate` and the pipeline binds the alias to `{$sum: 1}` in
a `$group` stage with `_id` null (followed by the unaliased stage added by
the select-item walk). -/
theorem C6_count_star_behavior :
    (Build (.ok C6aAst) NewQuery = some (C6aQF, none) ∧
      C6aQF.operation = "aggregate" ∧ C6aQF.pipeline = [C6grpCount]) ∧
    (Build (.ok C6bAst) NewQuery = some (C6bQF, none) ∧
      C6bQF.operation = "count" ∧ C6bQF.pipeline = [C6grpCount]) ∧
    (Build (.ok C6cAst) NewQuery = some (C6cQF, none) ∧
      C6cQF.operation = "aggregate" ∧ C6cQF.pipeline = [C6grpTotal, C6grpCount]) := by
  refine ⟨⟨?_, rfl, rfl⟩, ⟨?_, rfl, rfl⟩, ⟨?_, rfl, rfl⟩⟩
  · rw [Build_ok, C6a_build]
  · rw [Build_ok, C6b_build]
  · rw [Build_ok, C6c_build]

/-- The original C6 is false on its first half: `SELECT COUNT(*) FROM t`
with no alias and no GROUP BY builds to operation `aggregate` (not `count`)
with a non-empty pipeline. -/
theorem C6_count_star_counterexample :
    Build (.ok C6aAst) NewQuery = some (C6aQF, none) ∧
    C6aQF.operation ≠ "count" ∧ C6aQF.pipeline ≠ [] := by
  refine ⟨?_, by decide, fun hcl => List.noConfusion hcl⟩
  rw [Build_ok, C6a_build]

/-- **C9** — `parseID` never hits its error branch when the collection name
is non-empty; on an empty collection name with a canonical UUID value it
does (the `rune(collection[0])` index panic, modelled as `none`).  `Build`
reaches that state from a well-formed input: in `WHERE _id = '<uuid>' OR
theme = 'x'` each OR branch is lowered against a fresh `NewQuery`, whose
collection is the empty string, so the whole build panics (`none`). -/
theorem C9_parseid_empty_collection_panic :
    (∀ (v c : String), c ≠ "" → (parseID v c).isSome = true) ∧
    parseID C9uuid "" = none ∧
    Build (.ok C9ast) NewQuery = none := by
  refine ⟨parseID_nonempty_isSome, rfl, ?_⟩
  rw [Build_ok, C9_build_none]
